/-
  Verification of the synchronization engine of the "Variables & Styles
  Extractor" Figma plugin (src/code.ts, v2.0.0 section).

  This file gives a shallow embedding of the plugin's reconciliation core:
  the value codec helpers, the entity cache, the export serializer, the
  two-pass import reconciler, the diff engine, the snapshot/rollback
  manager and the plan/capacity validator.  Definitions are translated
  from the TypeScript source; theorems settle the spec's claims about it.

  Modeling conventions (the host platform is an external collaborator):
  * Variable handles are identified by their (collection name, variable
    name) pair; a host VARIABLE_ALIAS value is modeled as that pair.
  * Host mode ids are modeled as deterministic fresh tokens
    `collectionName ++ "#" ++ index`; `renameMode` changes only the
    display name, as in the host.
  * JavaScript `Map` objects are modeled as association lists with
    overwrite-on-set semantics; iteration order of these maps is never
    consumed by the modeled code paths, so `set` is modeled as
    prepend-plus-erase, which has the same lookup semantics.
  * Host mutation primitives (`setValueForMode`, `addMode`, ...) always
    succeed in the model; a freshly created variable starts with no mode
    values.  JavaScript number arithmetic is modeled with rationals.
  * Style payload codecs are out of scope (spec section 1); styles are
    modeled as name-keyed unparsed payloads replayed by upsert.
-/
import Mathlib

namespace VSE

/-! ## Association-list model of JavaScript `Map` and plain objects -/

/-- Lookup in an association list, as `Map.get` / JS property access. -/
def jget {α : Type} (l : List (String × α)) (k : String) : Option α :=
  (l.find? (fun p => p.1 == k)).map (fun p => p.2)

/-- `Map.set`: overwrite the binding for `k`.  Modeled as prepend plus
erase of the old binding; lookup-equivalent to the JS `Map`. -/
def jset {α : Type} (l : List (String × α)) (k : String) (v : α) : List (String × α) :=
  (k, v) :: l.filter (fun p => p.1 != k)

/-- `Map.delete`. -/
def jdel {α : Type} (l : List (String × α)) (k : String) : List (String × α) :=
  l.filter (fun p => p.1 != k)

/-- JS `String.prototype.startsWith`, at the character level (the
builtin `String.startsWith` does not reduce inside the kernel). -/
def jsStartsWith (s pre : String) : Bool :=
  s.data.take pre.data.length == pre.data

/-- JS `String.prototype.split` on a one-character separator, keeping
empty pieces, at the character level. -/
def splitListOnChar : List Char → Char → List (List Char)
  | [], _ => [[]]
  | ch :: rest, c =>
    let r := splitListOnChar rest c
    if ch == c then [] :: r
    else
      match r with
      | w :: ws => (ch :: w) :: ws
      | [] => [[ch]]

/-- String wrapper of `splitListOnChar`. -/
def splitOnChar (s : String) (c : Char) : List String :=
  (splitListOnChar s.data c).map String.mk

/-- JS `String.prototype.toLowerCase`, at the character level. -/
def jsToLower (s : String) : String :=
  String.mk (s.data.map Char.toLower)

theorem jget_jset_self {α : Type} (l : List (String × α)) (k : String) (v : α) :
    jget (jset l k v) k = some v := by
  simp [jget, jset]

theorem jget_jset_ne {α : Type} (l : List (String × α)) (k k' : String) (v : α)
    (h : k' ≠ k) : jget (jset l k v) k' = jget l k' := by
  simp only [jget, jset, List.find?]
  have : (k == k') = false := by
    simp [beq_iff_eq]; exact fun e => h e.symm
  simp only [this]
  induction l with
  | nil => rfl
  | cons p rest ih =>
    by_cases hp : p.1 = k
    · have h1 : (p.1 != k) = false := by simp [bne, hp]
      have h2 : (p.1 == k') = false := by
        simp [beq_iff_eq, hp]; exact fun e => h e.symm
      simp [List.filter, h1, List.find?, h2] at ih ⊢
      exact ih
    · have h1 : (p.1 != k) = true := by simp [bne, beq_iff_eq]; exact hp
      simp only [List.filter, h1]
      by_cases hk' : p.1 = k'
      · simp [List.find?, hk']
      · have h2 : (p.1 == k') = false := by simp [beq_iff_eq]; exact hk'
        simp only [List.find?, h2] at ih ⊢
        exact ih

/-! ## Colors and scalar values -/

/-- Figma colors: components are floats in [0,1]; modeled with rationals. -/
structure RGBA where
  r : ℚ
  g : ℚ
  b : ℚ
  a : ℚ
deriving DecidableEq, Repr

/-- 0–255 color with optional alpha, as produced by `toRgb255`. -/
structure RgbColor where
  r : ℤ
  g : ℤ
  b : ℤ
  a : Option ℚ
deriving DecidableEq, Repr

/-- The multi-format color bundle written to documents.  The `css`, `hsl`
and `hsb` fields of the source's `ExportColorValue` are display-only and
never consumed by any modeled operation (`ColorParser.parse` dispatches on
`hex`/`rgb`), so the model carries `hex` and `rgb`. -/
structure ExportColorValue where
  hex : String
  rgb : RgbColor
deriving DecidableEq, Repr

/-- JS `Math.round`: round half toward positive infinity. -/
def jsRound (q : ℚ) : ℤ := ⌊q + 1/2⌋

namespace MathUtils

/-- `Math.round(value * 100) / 100`. -/
def round2 (value : ℚ) : ℚ := (jsRound (value * 100) : ℚ) / 100

/-- One hexadecimal digit, lowercase as JS `toString(16)`. -/
def hexDigit (n : ℕ) : Char :=
  if n < 10 then Char.ofNat (48 + n) else Char.ofNat (97 + (n - 10))

/-- Natural number to lowercase hexadecimal digits. -/
def natToHex (n : ℕ) : String :=
  String.mk (Nat.toDigits 16 n)

/-- JS `Number.prototype.toString(16)` on an integer. -/
def intToHex (i : ℤ) : String :=
  if i < 0 then "-" ++ natToHex i.natAbs else natToHex i.toNat

/-- JS `String.prototype.padStart(2, '0')`. -/
def padStart2 (s : String) : String :=
  if s.length < 2 then String.mk (List.replicate (2 - s.length) '0') ++ s else s

/-- `Math.round(value * 255).toString(16).padStart(2, '0')`. -/
def toHexByte (value : ℚ) : String :=
  padStart2 (intToHex (jsRound (value * 255)))

/-- One hexadecimal digit back to its value (case-insensitive). -/
def hexDigitVal (c : Char) : ℕ :=
  if '0' ≤ c ∧ c ≤ '9' then c.toNat - 48
  else if 'a' ≤ c ∧ c ≤ 'f' then c.toNat - 97 + 10
  else if 'A' ≤ c ∧ c ≤ 'F' then c.toNat - 65 + 10
  else 0

/-- `parseInt(hex, 16) / 255` on a two-character hex byte. -/
def fromHexByte (hex : String) : ℚ :=
  ((hex.data.foldl (fun acc c => acc * 16 + hexDigitVal c) 0 : ℕ) : ℚ) / 255

end MathUtils

end VSE

namespace VSE

/-! ## Scalar document values -/

/-- The `$value` of a document leaf: a literal scalar, or the
multi-format color bundle, or a string (alias references are strings of
the form `\x7bdotted.path\x7d`). -/
inductive JsonVal where
  | s (v : String)
  | n (v : ℚ)
  | b (v : Bool)
  | colorBundle (v : ExportColorValue)
deriving DecidableEq, Repr

/-- `[a-f\d]`, case-insensitive. -/
def isHexDigitChar (c : Char) : Bool :=
  ('0' ≤ c && c ≤ '9') || ('a' ≤ c && c ≤ 'f') || ('A' ≤ c && c ≤ 'F')

/-- Leading-digit run of a character list (`\d+`). -/
def takeDigits (cs : List Char) : List Char × List Char :=
  (cs.takeWhile (fun c => '0' ≤ c && c ≤ '9'), cs.dropWhile (fun c => '0' ≤ c && c ≤ '9'))

/-- Digits to a natural number, as `parseInt(_, 10)`. -/
def digitsToNat (cs : List Char) : ℕ :=
  cs.foldl (fun acc c => acc * 10 + (c.toNat - 48)) 0

/-- JS `parseFloat` on a `[\d.]+` token: an integer part and at most one
fraction part; a second dot stops the parse. -/
def parseFloatTok (cs : List Char) : ℚ :=
  let (intPart, rest) := takeDigits cs
  match rest with
  | '.' :: rest2 =>
    let (fracPart, _) := takeDigits rest2
    (digitsToNat intPart : ℚ) + (digitsToNat fracPart : ℚ) / (10 ^ fracPart.length : ℕ)
  | _ => (digitsToNat intPart : ℚ)

namespace ColorConverter

/-- Figma RGB (0-1) → hex string; appends the alpha byte when `a < 1`. -/
def toHex (color : RGBA) : String :=
  let hex := "#" ++ MathUtils.toHexByte color.r ++ MathUtils.toHexByte color.g ++
    MathUtils.toHexByte color.b
  if color.a < 1 then hex ++ MathUtils.toHexByte color.a else hex

/-- Figma RGB (0-1) → RGB (0-255); includes alpha only when `a < 1`. -/
def toRgb255 (color : RGBA) : RgbColor :=
  { r := jsRound (color.r * 255)
    g := jsRound (color.g * 255)
    b := jsRound (color.b * 255)
    a := if color.a < 1 then some (MathUtils.round2 color.a) else none }

/-- The exported color bundle (display-only formats omitted, see above). -/
def toAllFormats (color : RGBA) : ExportColorValue :=
  { hex := toHex color, rgb := toRgb255 color }

end ColorConverter

/-- An HSL triple as parsed from an `hsl(...)` string. -/
structure HslColor where
  h : ℚ
  s : ℚ
  l : ℚ
  a : Option ℚ
deriving DecidableEq, Repr

namespace ColorParser

/-- `HEX_REGEX_8` / `HEX_REGEX_6`: optional `#`, then exactly 8 or 6 hex
digits; anything else falls back to opaque black. -/
def fromHex (hex : String) : RGBA :=
  let t := if jsStartsWith hex "#" then hex.drop 1 else hex
  let cs := t.data
  let byte (i : ℕ) : ℚ := MathUtils.fromHexByte (String.mk ((cs.drop (2 * i)).take 2))
  if cs.length == 8 && cs.all isHexDigitChar then
    { r := byte 0, g := byte 1, b := byte 2, a := byte 3 }
  else if cs.length == 6 && cs.all isHexDigitChar then
    { r := byte 0, g := byte 1, b := byte 2, a := 1 }
  else { r := 0, g := 0, b := 0, a := 1 }

/-- HSL → Figma RGBA. -/
def fromHsl (hsl : HslColor) : RGBA :=
  let h := hsl.h / 360
  let s := hsl.s / 100
  let l := hsl.l / 100
  if s = 0 then { r := l, g := l, b := l, a := hsl.a.getD 1 }
  else
    let hue2rgb (p q t : ℚ) : ℚ :=
      let tt := if t < 0 then t + 1 else if t > 1 then t - 1 else t
      if tt < 1/6 then p + (q - p) * 6 * tt
      else if tt < 1/2 then q
      else if tt < 2/3 then p + (q - p) * (2/3 - tt) * 6
      else p
    let q := if l < 1/2 then l * (1 + s) else l + s - l * s
    let p := 2 * l - q
    { r := hue2rgb p q (h + 1/3), g := hue2rgb p q h, b := hue2rgb p q (h - 1/3)
      a := hsl.a.getD 1 }

/-- Attempt to match `RGBA_REGEX` / `HSLA_REGEX` at the start of a
character list: `NAME(\s*(\d+)\s*,\s*(\d+)\s*,\s*(\d+|\d+%)\s*(,\s*([\d.]+))?\s*\)`.
Returns the three integer groups and the optional alpha token. -/
def matchCssArgs (cs : List Char) (percentOk : Bool) :
    Option (ℕ × ℕ × ℕ × Option ℚ) :=
  let ws (l : List Char) : List Char := l.dropWhile (fun c => c = ' ' || c = '\t')
  let num (l : List Char) : Option (ℕ × List Char) :=
    match takeDigits (ws l) with
    | ([], _) => none
    | (ds, rest) =>
      let rest := if percentOk then (match rest with | '%' :: r => r | r => r) else rest
      some (digitsToNat ds, ws rest)
  match cs with
  | '(' :: rest =>
    match num rest with
    | none => none
    | some (g1, r1) =>
      match r1 with
      | ',' :: r1b =>
        match num r1b with
        | none => none
        | some (g2, r2) =>
          match r2 with
          | ',' :: r2b =>
            match num r2b with
            | none => none
            | some (g3, r3) =>
              match r3 with
              | ',' :: r3b =>
                let r3c := ws r3b
                let tok := r3c.takeWhile (fun c => ('0' ≤ c && c ≤ '9') || c = '.')
                let r4 := ws (r3c.dropWhile (fun c => ('0' ≤ c && c ≤ '9') || c = '.'))
                if tok.isEmpty then none
                else match r4 with
                  | ')' :: _ => some (g1, g2, g3, some (parseFloatTok tok))
                  | _ => none
              | ')' :: _ => some (g1, g2, g3, none)
              | _ => none
          | _ => none
      | _ => none
  | _ => none

/-- `RGBA_REGEX.exec` / `HSLA_REGEX.exec`: an unanchored search; try the
match at every suffix of the string. -/
def searchCss (cs : List Char) (tag : List Char) (percentOk : Bool) :
    Option (ℕ × ℕ × ℕ × Option ℚ) :=
  match cs with
  | [] => none
  | _ :: rest =>
    let attempt :=
      if cs.take tag.length == tag then
        let afterTag := cs.drop tag.length
        let afterOpt := match afterTag with
          | 'a' :: r => matchCssArgs r percentOk
          | r => matchCssArgs r percentOk
        afterOpt
      else none
    match attempt with
    | some v => some v
    | none => searchCss rest tag percentOk

/-- CSS string → Figma RGBA: try `rgb(a)` then `hsl(a)` forms, else black. -/
def fromCss (css : String) : RGBA :=
  match searchCss css.data ['r', 'g', 'b'] false with
  | some (r, g, b, a) =>
    { r := (r : ℚ) / 255, g := (g : ℚ) / 255, b := (b : ℚ) / 255, a := a.getD 1 }
  | none =>
    match searchCss css.data ['h', 's', 'l'] true with
    | some (h, s, l, a) => fromHsl { h := (h : ℚ), s := (s : ℚ), l := (l : ℚ), a := a }
    | none => { r := 0, g := 0, b := 0, a := 1 }

/-- Universal parser on document scalar values.  The source's RGB/HSL/HSB
object branches are unreachable for typed document values (a color object
in a document is always the full bundle) and the non-object fallback
returns black. -/
def parse (color : JsonVal) : RGBA :=
  match color with
  | .colorBundle v => fromHex v.hex
  | .s str =>
    if jsStartsWith str "rgb" || jsStartsWith str "hsl" then fromCss str
    else fromHex str
  | _ => { r := 0, g := 0, b := 0, a := 1 }

end ColorParser

end VSE

namespace VSE

/-! ## Document model -/

/-- A document leaf (`ExportVariableValue`): field names mirror the
source's `$scopes`, `$type`, `$description`, `$value`, `$collectionName`,
`$libraryRef`, `$localValue`. -/
structure LeafValue where
  scopes : List String
  vtype : String
  descr : Option String
  value : JsonVal
  collectionName : Option String
  libraryRef : Option String
  localValue : Option JsonVal
deriving DecidableEq, Repr

/-- `NestedVariables`: a JS object tree whose leaves carry a `$type`
(the source's `isExportVariableValue` guard is the constructor tag). -/
inductive NestedValue where
  | leaf (v : LeafValue)
  | group (children : List (String × NestedValue))
deriving Repr

mutual

/-- Decidable equality for the nested tree (the derive handler does not
support nested inductives). -/
def nvDecEq : (a b : NestedValue) → Decidable (a = b)
  | .leaf v, .leaf w =>
    match decEq v w with
    | isTrue h => isTrue (by rw [h])
    | isFalse h => isFalse (by intro hh; cases hh; exact h rfl)
  | .leaf _, .group _ => isFalse (by intro hh; cases hh)
  | .group _, .leaf _ => isFalse (by intro hh; cases hh)
  | .group g1, .group g2 =>
    match nvListDecEq g1 g2 with
    | isTrue h => isTrue (by rw [h])
    | isFalse h => isFalse (by intro hh; cases hh; exact h rfl)

/-- Decidable equality for lists of tree entries. -/
def nvListDecEq : (a b : List (String × NestedValue)) → Decidable (a = b)
  | [], [] => isTrue rfl
  | [], _ :: _ => isFalse (by intro hh; cases hh)
  | _ :: _, [] => isFalse (by intro hh; cases hh)
  | (k1, v1) :: r1, (k2, v2) :: r2 =>
    match decEq k1 k2, nvDecEq v1 v2, nvListDecEq r1 r2 with
    | isTrue h1, isTrue h2, isTrue h3 => isTrue (by rw [h1, h2, h3])
    | isFalse h1, _, _ => isFalse (by intro hh; cases hh; exact h1 rfl)
    | _, isFalse h2, _ => isFalse (by intro hh; cases hh; exact h2 rfl)
    | _, _, isFalse h3 => isFalse (by intro hh; cases hh; exact h3 rfl)

end

instance : DecidableEq NestedValue := nvDecEq

/-- A collection entry's body: `modes` object plus `$originalName`. -/
structure CollectionBody where
  modes : List (String × List (String × NestedValue))
  originalName : Option String
deriving Repr

/-- One element of the document array: a single-key collection object or
the `_styles` object. -/
inductive ImportItem where
  | coll (name : String) (body : CollectionBody)
  | styles (colorStyles textStyles effectStyles gridStyles : Option (List (String × String)))
deriving Repr

mutual

/-- `flattenVariables`: depth-first flattening to `(path, leaf)` pairs. -/
def flattenVariables : List (String × NestedValue) → String → List (String × LeafValue)
  | [], _ => []
  | (key, val) :: rest, pre => flattenEntry key val pre ++ flattenVariables rest pre

/-- One entry of the `flattenVariables` walk. -/
def flattenEntry (key : String) : NestedValue → String → List (String × LeafValue)
  | .leaf v, pre => [(if pre == "" then key else pre ++ "/" ++ key, v)]
  | .group g, pre => flattenVariables g (if pre == "" then key else pre ++ "/" ++ key)

end

/-- Walk already-split path parts, as the loop body of `getValueAtPath`. -/
def getAtParts : Option NestedValue → List String → Option LeafValue
  | cur, [] => match cur with | some (.leaf v) => some v | _ => none
  | cur, part :: rest =>
    match cur with
    | some (.group g) => getAtParts (jget g part) rest
    | _ => none

/-- `getValueAtPath`: descend a `/`-delimited path; `null` on a missing
key, on a leaf met mid-path, and on a group at the end. -/
def getValueAtPath (obj : List (String × NestedValue)) (path : String) : Option LeafValue :=
  getAtParts (some (.group obj)) (splitOnChar path '/')

mutual

/-- `countNestedVariables` with its accumulator parameter. -/
def countNestedVariables : List (String × NestedValue) → ℕ → ℕ
  | [], count => count
  | (_, val) :: rest, count => countNestedVariables rest (countNestedEntry val count)

/-- One entry of the `countNestedVariables` walk. -/
def countNestedEntry : NestedValue → ℕ → ℕ
  | .leaf _, count => count + 1
  | .group g, count => countNestedVariables g count

end

mutual

/-- The diff engine's own counter `countVarsInNestedObj`. -/
def countVarsInNestedObj : List (String × NestedValue) → ℕ
  | [] => 0
  | (_, val) :: rest => countVarsEntry val + countVarsInNestedObj rest

/-- One entry of the `countVarsInNestedObj` walk. -/
def countVarsEntry : NestedValue → ℕ
  | .leaf _ => 1
  | .group g => countVarsInNestedObj g

end

/-- `countVariablesInCollection`: counts the first mode's tree. -/
def countVariablesInCollection (modes : List (String × List (String × NestedValue))) : ℕ :=
  match modes.head? with
  | some (_, firstMode) => countVarsInNestedObj firstMode
  | none => 0

/-! ## Live store model -/

/-- A live per-mode variable value; `alias` is the host's
`VARIABLE_ALIAS`, identified by the target's (collection, name) pair. -/
inductive VarValue where
  | str (v : String)
  | num (v : ℚ)
  | boolean (v : Bool)
  | color (v : RGBA)
  | alias (collection : String) (name : String)
deriving DecidableEq, Repr

/-- A mode of a collection: host id plus display name. -/
structure Mode where
  modeId : String
  name : String
deriving DecidableEq, Repr

/-- A live variable. -/
structure Variable where
  name : String
  resolvedType : String
  description : String
  scopes : List String
  valuesByMode : List (String × VarValue)
deriving DecidableEq, Repr

/-- A live variable collection; `remote` marks external library
collections (reachable through aliases, not enumerated locally). -/
structure Collection where
  name : String
  remote : Bool
  modes : List Mode
  vars : List Variable
deriving DecidableEq, Repr

/-- The host file state: collections plus the four style stores (style
payloads modeled as name-keyed unparsed strings, see header). -/
structure Store where
  collections : List Collection
  paintStyles : List (String × String)
  textStyles : List (String × String)
  effectStyles : List (String × String)
  gridStyles : List (String × String)
deriving DecidableEq, Repr

/-- `figma.variables.getLocalVariableCollectionsAsync()`. -/
def getLocalCollections (s : Store) : List Collection :=
  s.collections.filter (fun c => !c.remote)

/-- Dereference a collection handle (by name). -/
def findCollection (s : Store) (name : String) : Option Collection :=
  s.collections.find? (fun c => c.name == name)

/-- Dereference a variable handle: its collection's member of that name. -/
def findVariable (s : Store) (col name : String) : Option Variable :=
  (findCollection s col).bind (fun c => c.vars.find? (fun v => v.name == name))

/-- Apply `f` to the collection(s) named `colName`. -/
def updateCollection (s : Store) (colName : String) (f : Collection → Collection) : Store :=
  { s with collections := s.collections.map (fun c => if c.name == colName then f c else c) }

/-- Apply `f` to the variable `varName` of collection `colName`. -/
def updVar (s : Store) (colName varName : String) (f : Variable → Variable) : Store :=
  updateCollection s colName (fun c =>
    { c with vars := c.vars.map (fun v => if v.name == varName then f v else v) })

/-- `variable.setValueForMode(modeId, value)` through a handle. -/
def setValueForMode (s : Store) (colName varName modeId : String) (v : VarValue) : Store :=
  updVar s colName varName (fun vr => { vr with valuesByMode := jset vr.valuesByMode modeId v })

/-- `figma.variables.createVariableCollection(name)`: one default mode. -/
def createVariableCollection (s : Store) (name : String) : Store :=
  { s with collections := s.collections ++
      [{ name := name, remote := false, modes := [{ modeId := name ++ "#0", name := "Mode 1" }]
         vars := [] }] }

/-- `collection.addMode(name)`: returns the fresh mode id. -/
def addModeToCollection (c : Collection) (modeName : String) : Collection × String :=
  let id := c.name ++ "#" ++ toString c.modes.length
  ({ c with modes := c.modes ++ [{ modeId := id, name := modeName }] }, id)

/-- `collection.renameMode(modeId, newName)`. -/
def renameModeOfCollection (c : Collection) (modeId newName : String) : Collection :=
  { c with modes := c.modes.map (fun m => if m.modeId == modeId then { m with name := newName } else m) }

/-- `figma.variables.createVariable(name, collection, type)`: appended
with no mode values (host defaults abstracted, see header). -/
def createVariableIn (c : Collection) (name vtype : String) : Collection :=
  { c with vars := c.vars ++
      [{ name := name, resolvedType := vtype, description := "", scopes := [], valuesByMode := [] }] }

/-! ## Entity cache (`VariableCache`) -/

/-- The cache: `collectionName → handle` and
`collectionName ++ "/" ++ variableName → handle`.  Handles are the
identifying names themselves (see header); the source's `initialized`
session flag is per-run memoization and not modeled. -/
structure VariableCache where
  collectionMap : List (String × String)
  variableMap : List (String × (String × String))
deriving DecidableEq, Repr

/-- `getCollection`. -/
def VariableCache.getCollection (cache : VariableCache) (name : String) : Option String :=
  jget cache.collectionMap name

/-- `getVariable`. -/
def VariableCache.getVariable (cache : VariableCache) (key : String) : Option (String × String) :=
  jget cache.variableMap key

/-- `setVariable`. -/
def VariableCache.setVariable (cache : VariableCache) (key : String) (handle : String × String) :
    VariableCache :=
  { cache with variableMap := jset cache.variableMap key handle }

/-- `setCollection`. -/
def VariableCache.setCollection (cache : VariableCache) (name : String) : VariableCache :=
  { cache with collectionMap := jset cache.collectionMap name name }

/-- `removeCollection(name)`: drop the collection's entry and every
variable entry whose key starts with `name ++ "/"`. -/
def VariableCache.removeCollection (cache : VariableCache) (name : String) : VariableCache :=
  { collectionMap := jdel cache.collectionMap name
    variableMap := cache.variableMap.filter (fun kv => !(jsStartsWith kv.1 (name ++ "/"))) }

/-- `rebuild()`: re-derive both maps from the local collections. -/
def VariableCache.rebuild (s : Store) : VariableCache :=
  (getLocalCollections s).foldl
    (fun cache col =>
      col.vars.foldl
        (fun cache v => cache.setVariable (col.name ++ "/" ++ v.name) (col.name, v.name))
        (cache.setCollection col.name))
    { collectionMap := [], variableMap := [] }

/-! ## Type and scope mapping -/

namespace TypeMapper

/-- Host resolved type → document `$type` (default `string`). -/
def toExportType (t : String) : String :=
  if t == "COLOR" then "color"
  else if t == "FLOAT" then "float"
  else if t == "STRING" then "string"
  else if t == "BOOLEAN" then "boolean"
  else "string"

/-- Document `$type` → host resolved type (default `STRING`). -/
def toFigmaType (t : String) : String :=
  if t == "color" then "COLOR"
  else if t == "float" then "FLOAT"
  else if t == "string" then "STRING"
  else if t == "boolean" then "BOOLEAN"
  else "STRING"

/-- `scopesToArray`. -/
def scopesToArray (scopes : List String) : List String :=
  if scopes.isEmpty || scopes.contains "ALL_SCOPES" then ["ALL_SCOPES"] else scopes

/-- `arrayToScopes`. -/
def arrayToScopes (arr : List String) : List String :=
  if arr.contains "ALL_SCOPES" then ["ALL_SCOPES"] else arr

end TypeMapper

end VSE

namespace VSE

/-! ## Naming convention converter -/

inductive NamingConvention where
  | original
  | camelCase
  | kebabCase
  | snakeCase
deriving DecidableEq, Repr

namespace NamingConverter

/-- ASCII `[a-z]`. -/
def isLowerAZ (c : Char) : Bool := 'a' ≤ c && c ≤ 'z'

/-- ASCII `[A-Z]`. -/
def isUpperAZ (c : Char) : Bool := 'A' ≤ c && c ≤ 'Z'

/-- `name.replace(/([a-z])([A-Z])/g, '$1 $2')`: a space between each
lowercase/uppercase pair, scanning left to right past each match. -/
def camelSep : List Char → List Char
  | [] => []
  | [c] => [c]
  | c1 :: c2 :: rest =>
    if isLowerAZ c1 && isUpperAZ c2 then c1 :: ' ' :: c2 :: camelSep rest
    else c1 :: camelSep (c2 :: rest)

/-- The separator class `[\s\/\-_]`. -/
def isSepChar (c : Char) : Bool :=
  c == ' ' || c == '\t' || c == '\n' || c == '\r' || c == '/' || c == '-' || c == '_'

/-- `w.charAt(0).toUpperCase() + w.slice(1)`. -/
def capitalizeWord : List Char → List Char
  | [] => []
  | c :: rest => Char.toUpper c :: rest

/-- `convert(name, convention)`. -/
def convert (name : String) (convention : NamingConvention) : String :=
  match convention with
  | .original => name
  | conv =>
    let words := (((camelSep name.data).splitOnP isSepChar).filter
      (fun w => !w.isEmpty)).map (fun w => w.map Char.toLower)
    match words with
    | [] => name
    | w :: rest =>
      match conv with
      | .camelCase => String.mk (w ++ (rest.map capitalizeWord).flatten)
      | .kebabCase => String.intercalate "-" ((w :: rest).map String.mk)
      | .snakeCase => String.intercalate "_" ((w :: rest).map String.mk)
      | .original => name

/-- `convertPath`. -/
def convertPath (path : String) (convention : NamingConvention) : String :=
  match convention with
  | .original => path
  | conv => String.intercalate "/" ((splitOnChar path '/').map (fun part => convert part conv))

/-- `convertCollectionName`. -/
def convertCollectionName (name : String) (convention : NamingConvention) : String :=
  convert name convention

/-- `convertModeName`. -/
def convertModeName (name : String) (convention : NamingConvention) : String :=
  convert name convention

end NamingConverter

/-! ## Eager alias resolution (`resolveAliasValue`) -/

/-- `resolveAliasValue(variable, preferredModeId, maxDepth)`: follow the
chain through the store, spending one unit of depth per step; on exhausted
depth, a missing value or a dangling target, give up with `''`. -/
def resolveAliasValue (s : Store) (vr : Variable) (preferredModeId : String) :
    ℕ → VarValue
  | 0 => .str ""
  | maxDepth + 1 =>
    let value :=
      match jget vr.valuesByMode preferredModeId with
      | some v => some v
      | none => vr.valuesByMode.head?.map (fun (p : String × VarValue) => p.2)
    match value with
    | none => .str ""
    | some (.alias c n) =>
      match findVariable s c n with
      | some nextVar => resolveAliasValue s nextVar preferredModeId maxDepth
      | none => .str ""
    | some v => v

/-- `isVariableAlias` on live values (`value.type === 'VARIABLE_ALIAS'`). -/
def isVariableAlias (v : VarValue) : Bool :=
  match v with
  | .alias _ _ => true
  | _ => false

end VSE

namespace VSE

/-- The truthy-or fallback `a || b` on JS strings. -/
def strOr (a : Option String) (b : String) : String :=
  match a with
  | some v => if v == "" then b else v
  | none => b

/-! ## Diff engine -/

/-- An entry of `newVariables`. -/
structure VarRef where
  collection : String
  path : String
deriving DecidableEq, Repr

/-- An entry of `modifiedVariables`. -/
structure ModifiedVar where
  collection : String
  path : String
  oldValue : String
  newValue : String
deriving DecidableEq, Repr

/-- The scalar summary block of `ImportDiffResult`. -/
structure DiffSummary where
  collectionsNew : ℕ
  collectionsModified : ℕ
  collectionsUnchanged : ℕ
  variablesNew : ℕ
  variablesModified : ℕ
  variablesUnchanged : ℕ
  stylesNew : ℕ
  stylesModified : ℕ
deriving DecidableEq, Repr

/-- `ImportDiffResult`; style entries are (kind, name) pairs. -/
structure ImportDiffResult where
  newCollections : List String
  modifiedCollections : List String
  unchangedCollections : List String
  newVariables : List VarRef
  modifiedVariables : List ModifiedVar
  unchangedVariables : ℕ
  newStyles : List (String × String)
  modifiedStyles : List (String × String)
  summary : DiffSummary
deriving DecidableEq, Repr

/-- The all-empty initial `ImportDiffResult`. -/
def emptyDiffResult : ImportDiffResult :=
  { newCollections := [], modifiedCollections := [], unchangedCollections := []
    newVariables := [], modifiedVariables := [], unchangedVariables := 0
    newStyles := [], modifiedStyles := []
    summary := { collectionsNew := 0, collectionsModified := 0, collectionsUnchanged := 0
                 variablesNew := 0, variablesModified := 0, variablesUnchanged := 0
                 stylesNew := 0, stylesModified := 0 } }

/-- `valuesAreDifferent(existing, imported)`: missing and alias live
values always count as different; colors compare by lowercased hex;
primitives by strict equality. -/
def valuesAreDifferent (existing : Option VarValue) (imported : JsonVal) : Bool :=
  match existing with
  | none => true
  | some ex =>
    match ex with
    | .alias _ _ => true
    | .color rgba =>
      match imported with
      | .colorBundle cv => !(jsToLower (ColorConverter.toAllFormats rgba).hex == jsToLower cv.hex)
      | _ => true
    | .str v => match imported with | .s w => !(v == w) | _ => true
    | .num v => match imported with | .n w => !(v == w) | _ => true
    | .boolean v => match imported with | .b w => !(v == w) | _ => true

/-- Display rendering of a JS number; display-only (never compared). -/
def jsNumToString (q : ℚ) : String := toString q

/-- `formatValueForDisplay` on a live value. -/
def formatLiveValue (value : Option VarValue) : String :=
  match value with
  | none => "undefined"
  | some (.color rgba) => (ColorConverter.toAllFormats rgba).hex
  | some (.alias _ _) => "\x7balias\x7d"
  | some (.str v) => v
  | some (.num v) => jsNumToString v
  | some (.boolean v) => if v then "true" else "false"

/-- `formatValueForDisplay` on a document `$value`. -/
def formatImportValue (value : JsonVal) : String :=
  match value with
  | .colorBundle cv => cv.hex
  | .s v => v
  | .n v => jsNumToString v
  | .b v => if v then "true" else "false"

/-- Fallback used when a (never dangling in our runs) handle misses. -/
def emptyCollection : Collection :=
  { name := "", remote := false, modes := [], vars := [] }

mutual

/-- `checkVariablesDiff`: walk one mode's tree, classifying each leaf
path against the cache and the live values. -/
def checkVariablesDiff (s : Store) (cache : VariableCache) (modeId : String) :
    List (String × NestedValue) → String → String → ImportDiffResult → ImportDiffResult
  | [], _, _, result => result
  | (key, value) :: rest, collectionName, path, result =>
    checkVariablesDiff s cache modeId rest collectionName path
      (checkVariablesDiffEntry s cache modeId key value collectionName path result)

/-- One entry of the `checkVariablesDiff` walk: classify a leaf, or
recurse into a group under the extended path. -/
def checkVariablesDiffEntry (s : Store) (cache : VariableCache) (modeId key : String) :
    NestedValue → String → String → ImportDiffResult → ImportDiffResult
  | .leaf leafVal, collectionName, path, result =>
    let currentPath := if path == "" then key else path ++ "/" ++ key
    (match cache.getVariable (collectionName ++ "/" ++ currentPath) with
     | none =>
       { result with
         newVariables := result.newVariables ++ [{ collection := collectionName, path := currentPath }]
         summary := { result.summary with variablesNew := result.summary.variablesNew + 1 } }
     | some handle =>
       let existingValue := (findVariable s handle.1 handle.2).bind
         (fun vr => jget vr.valuesByMode modeId)
       if valuesAreDifferent existingValue leafVal.value then
         { result with
           modifiedVariables := result.modifiedVariables ++
             [{ collection := collectionName, path := currentPath
                oldValue := formatLiveValue existingValue
                newValue := formatImportValue leafVal.value }]
           summary := { result.summary with variablesModified := result.summary.variablesModified + 1 } }
       else
         { result with
           unchangedVariables := result.unchangedVariables + 1
           summary := { result.summary with variablesUnchanged := result.summary.variablesUnchanged + 1 } })
  | .group g, collectionName, path, result =>
    let currentPath := if path == "" then key else path ++ "/" ++ key
    checkVariablesDiff s cache modeId g collectionName currentPath result

end

/-- `computeStylesDiff`: name-membership classification per style kind. -/
def computeStylesDiff (s : Store)
    (colorStyles textStyles effectStyles gridStyles : Option (List (String × String)))
    (result : ImportDiffResult) : ImportDiffResult :=
  let step (kind : String) (existing : List (String × String))
      (incoming : Option (List (String × String))) (result : ImportDiffResult) :
      ImportDiffResult :=
    match incoming with
    | none => result
    | some styles =>
      styles.foldl (fun result style =>
        if existing.any (fun e => e.1 == style.1) then
          { result with
            modifiedStyles := result.modifiedStyles ++ [(kind, style.1)]
            summary := { result.summary with stylesModified := result.summary.stylesModified + 1 } }
        else
          { result with
            newStyles := result.newStyles ++ [(kind, style.1)]
            summary := { result.summary with stylesNew := result.summary.stylesNew + 1 } }) result
  let result := step "color" s.paintStyles colorStyles result
  let result := step "text" s.textStyles textStyles result
  let result := step "effect" s.effectStyles effectStyles result
  step "grid" s.gridStyles gridStyles result

/-- `computeImportDiff`: classify every document entry against the live
store.  The source's per-entry `hasModifications` local is set when a
document mode has no live counterpart but is never read; the unmatched
mode is simply skipped, exactly as transcribed here. -/
def computeImportDiff (s : Store) (importData : List ImportItem) : ImportDiffResult :=
  let cache := VariableCache.rebuild s
  importData.foldl (fun result item =>
    match item with
    | .styles c t e g => computeStylesDiff s c t e g result
    | .coll jsonCollectionName content =>
      let collectionName := strOr content.originalName jsonCollectionName
      match cache.getCollection collectionName with
      | none =>
        let varCount := countVariablesInCollection content.modes
        { result with
          newCollections := result.newCollections ++ [collectionName]
          summary := { result.summary with
            collectionsNew := result.summary.collectionsNew + 1
            variablesNew := result.summary.variablesNew + varCount } }
      | some handle =>
        let existingCollection := (findCollection s handle).getD emptyCollection
        let result := content.modes.foldl (fun result modeEntry =>
          match existingCollection.modes.find? (fun m => m.name == modeEntry.1) with
          | none => result
          | some mode => checkVariablesDiff s cache mode.modeId modeEntry.2 collectionName "" result)
          result
        if result.modifiedVariables.any (fun v => v.collection == collectionName) ||
            result.newVariables.any (fun v => v.collection == collectionName) then
          { result with
            modifiedCollections := result.modifiedCollections ++ [collectionName]
            summary := { result.summary with collectionsModified := result.summary.collectionsModified + 1 } }
        else
          { result with
            unchangedCollections := result.unchangedCollections ++ [collectionName]
            summary := { result.summary with collectionsUnchanged := result.summary.collectionsUnchanged + 1 } })
    emptyDiffResult

end VSE

namespace VSE

/-! ## Plan/capacity validator -/

inductive FigmaPlan where
  | starter
  | professional
  | organization
  | enterprise
deriving DecidableEq, Repr

/-- Tier limits; `maxModesPerCollection = none` models `Infinity`. -/
structure PlanLimits where
  plan : FigmaPlan
  maxModesPerCollection : Option ℕ
  canPublishLibraries : Bool
  hasVariableRestApi : Bool
deriving DecidableEq, Repr

/-- `PLAN_LIMITS` keyed by tier. -/
def PLAN_LIMITS (p : FigmaPlan) : PlanLimits :=
  match p with
  | .starter => { plan := p, maxModesPerCollection := some 1
                  canPublishLibraries := false, hasVariableRestApi := false }
  | .professional => { plan := p, maxModesPerCollection := some 10
                       canPublishLibraries := true, hasVariableRestApi := false }
  | .organization => { plan := p, maxModesPerCollection := some 20
                       canPublishLibraries := true, hasVariableRestApi := false }
  | .enterprise => { plan := p, maxModesPerCollection := none
                     canPublishLibraries := true, hasVariableRestApi := true }

/-- Maximum variables per collection (all plans). -/
def MAX_VARIABLES_PER_COLLECTION : ℕ := 5000

/-- `modeCount > currentPlan.maxModesPerCollection` (`Infinity` beats all). -/
def exceedsModeLimit (modeCount : ℕ) (limit : Option ℕ) : Bool :=
  match limit with
  | none => false
  | some l => modeCount > l

/-- Display of the mode limit (`'∞'` for `Infinity`). -/
def modeLimitDisplay (limit : Option ℕ) : String :=
  match limit with
  | none => "∞"
  | some l => toString l

/-- `detectCurrentPlan()`: infer the tier from the highest existing
per-collection mode count. -/
def detectCurrentPlan (s : Store) : PlanLimits :=
  let maxModesFound := (getLocalCollections s).foldl
    (fun most col => if col.modes.length > most then col.modes.length else most) 1
  let inferredPlan : FigmaPlan :=
    if maxModesFound > 20 then .enterprise
    else if maxModesFound > 10 then .organization
    else if maxModesFound > 1 then .professional
    else .professional
  PLAN_LIMITS inferredPlan

/-- The validator's result (the font-dependency advisory reads text-style
font fields, which sit inside the unmodeled style payloads, and is
omitted; it is informational and never affects `errors`/`canImport`). -/
structure PlanValidation where
  currentPlan : PlanLimits
  existingCollections : ℕ
  existingMaxModesInAnyCollection : ℕ
  existingTotalVariables : ℕ
  importingCollections : ℕ
  importingMaxModesInAnyCollection : ℕ
  importingTotalVariables : ℕ
  collectionsExceedingModeLimit : List String
  warnings : List String
  errors : List String
  canImport : Bool
  libraryDependencies : Option (ℕ × List String)
deriving DecidableEq, Repr

/-- JS `Set.add` with insertion order. -/
def setAdd (l : List String) (x : String) : List String :=
  if l.contains x then l else l ++ [x]

/-- The first mode's variable count (`countNestedVariables(firstMode)`),
used by the validator for both the total and the per-collection gate. -/
def firstModeVarCount (modes : List (String × List (String × NestedValue))) : ℕ :=
  match modes.head? with
  | some fm => countNestedVariables fm.2 0
  | none => 0

/-- The document's collection entries (every non-`_styles` item). -/
def collectionEntries (importData : List ImportItem) : List (String × CollectionBody) :=
  importData.filterMap (fun item =>
    match item with
    | .coll name body => some (name, body)
    | .styles _ _ _ _ => none)

/-- `validateImportAgainstPlan(importData, planOverride?)`: a pure
read of the store and the document.  Mode-count exceedance is tracked in
`collectionsExceedingModeLimit` only; the per-collection variable count
over `MAX_VARIABLES_PER_COLLECTION` is the only `errors` source. -/
def validateImportAgainstPlan (s : Store) (importData : List ImportItem)
    (planOverride : Option FigmaPlan) : PlanValidation :=
  let currentPlan :=
    match planOverride with
    | some p => PLAN_LIMITS p
    | none => detectCurrentPlan s
  let collections := getLocalCollections s
  let existingMaxModes := collections.foldl (fun most col => max most col.modes.length) 0
  let existingTotalVars := (collections.map (fun c => c.vars.length)).sum
  let importCollections := collectionEntries importData
  let importingMaxModes := importCollections.foldl
    (fun most e => if e.2.modes.length > most then e.2.modes.length else most) 0
  let collectionsExceedingModeLimit := importCollections.foldl
    (fun acc e =>
      if exceedsModeLimit e.2.modes.length currentPlan.maxModesPerCollection then
        acc ++ ["\"" ++ e.1 ++ "\" (" ++ toString e.2.modes.length ++ " modes, limit: " ++
          modeLimitDisplay currentPlan.maxModesPerCollection ++ ")"]
      else acc) []
  let importingTotalVars := (importCollections.map (fun e => firstModeVarCount e.2.modes)).sum
  let errors := importCollections.foldl
    (fun acc e =>
      let varCount := firstModeVarCount e.2.modes
      if varCount > MAX_VARIABLES_PER_COLLECTION then
        acc ++ ["Collection \"" ++ e.1 ++ "\" has " ++ toString varCount ++
          " variables, exceeds limit of " ++ toString MAX_VARIABLES_PER_COLLECTION]
      else acc) []
  let warnings :=
    (if importingTotalVars > 1000 then
      ["Large import: " ++ toString importingTotalVars ++ " variables. This may take a moment."]
    else []) ++
    (if importCollections.length > 10 then
      ["Importing " ++ toString importCollections.length ++ " collections. Consider importing in batches."]
    else [])
  let libraryScan := importCollections.foldl
    (fun (acc : List String × ℕ) e =>
      e.2.modes.foldl (fun acc modeEntry =>
        (flattenVariables modeEntry.2 "").foldl (fun acc pv =>
          match pv.2.libraryRef, pv.2.collectionName with
          | some lr, some cn =>
            if lr != "" && cn != "" then (setAdd acc.1 cn, acc.2 + 1) else acc
          | _, _ => acc) acc) acc) ([], 0)
  { currentPlan := currentPlan
    existingCollections := collections.length
    existingMaxModesInAnyCollection := existingMaxModes
    existingTotalVariables := existingTotalVars
    importingCollections := importCollections.length
    importingMaxModesInAnyCollection := importingMaxModes
    importingTotalVariables := importingTotalVars
    collectionsExceedingModeLimit := collectionsExceedingModeLimit
    warnings := warnings
    errors := errors
    canImport := errors.isEmpty
    libraryDependencies :=
      if libraryScan.1.length > 0 then some (libraryScan.2, libraryScan.1) else none }

end VSE

namespace VSE

/-! ## Import reconciler (two passes) -/

/-- `ImportOptions`; `customMerge` is `(clearVariables, clearStyles)` and
`collectionBehaviors` maps collection names to `"merge"`/`"replace"`. -/
structure ImportOptions where
  merge : Bool
  overwrite : Bool
  importStyles : Bool
  clearFirst : Bool
  customMerge : Option (Bool × Bool)
  collectionBehaviors : List (String × String)
deriving DecidableEq, Repr

/-- A queued pass-2 work item; `(col, varName)` is the variable handle. -/
structure PendingAlias where
  col : String
  varName : String
  modeId : String
  aliasPath : String
  aliasCollection : String
  fallbackValue : LeafValue
deriving DecidableEq, Repr

/-- The state threaded through Pass 1. -/
structure Pass1State where
  store : Store
  cache : VariableCache
  createdCollections : ℕ
  createdVariables : ℕ
  updatedVariables : ℕ
  skippedVariables : ℕ
  allPendingAliases : List PendingAlias
deriving Repr

/-- The import's result: final store plus its counters (the two alias
counters are the source's Pass-2 locals). -/
structure ImportResult where
  store : Store
  collectionsCreated : ℕ
  variablesCreated : ℕ
  variablesUpdated : ℕ
  variablesSkipped : ℕ
  stylesCreated : ℕ
  stylesUpdated : ℕ
  aliasesResolved : ℕ
  aliasesFailed : ℕ
deriving Repr

/-- Dereference a collection handle, total for the model's internal use
(never dangling on the runs the theorems quantify over). -/
def derefCollection (s : Store) (h : String) : Collection :=
  (findCollection s h).getD emptyCollection

/-- `collection.remove()`. -/
def removeCollectionNamed (s : Store) (name : String) : Store :=
  { s with collections := s.collections.filter (fun c => !(c.name == name)) }

/-- `clearVariables()`: remove every local collection and its variables. -/
def clearVariables (s : Store) : Store :=
  { s with collections := s.collections.filter (fun c => c.remote) }

/-- `clearStyles()`. -/
def clearStyles (s : Store) : Store :=
  { s with paintStyles := [], textStyles := [], effectStyles := [], gridStyles := [] }

/-- `clearAll()`. -/
def clearAll (s : Store) : Store := clearStyles (clearVariables s)

/-- `setRawValue(variable, modeId, value)`: colors go through
`ColorParser.parse` with the alpha rounded to two decimals when below 1;
other types write `$value` directly.  A color bundle under a non-color
`$type` is a non-scalar host write, rejected and swallowed by the
source's catch, so it leaves the store unchanged. -/
def setRawValue (s : Store) (colName varName modeId : String) (value : LeafValue) : Store :=
  if value.vtype == "color" then
    let rgba := ColorParser.parse value.value
    let finalRgba := if rgba.a < 1 then { rgba with a := MathUtils.round2 rgba.a } else rgba
    setValueForMode s colName varName modeId (.color finalRgba)
  else
    match value.value with
    | .s v => setValueForMode s colName varName modeId (.str v)
    | .n v => setValueForMode s colName varName modeId (.num v)
    | .b v => setValueForMode s colName varName modeId (.boolean v)
    | .colorBundle _ => s

/-- `$value.slice(1, -1).replace(/\./g, '/')`. -/
def aliasPathOf (str : String) : String :=
  String.mk (((str.data.drop 1).dropLast).map (fun ch => if ch == '.' then '/' else ch))

/-- `typeof $value === 'string' && $value.startsWith('\x7b')`. -/
def isAliasValue (v : JsonVal) : Bool :=
  match v with
  | .s str => jsStartsWith str "\x7b"
  | _ => false

/-- `collection.addMode(modeName)` through a store handle; also returns
the fresh mode id. -/
def addModeS (s : Store) (colName modeName : String) : Store × String :=
  let c := derefCollection s colName
  let (c2, newId) := addModeToCollection c modeName
  (updateCollection s colName (fun _ => c2), newId)

/-- Pass 1, inner mode loop of one variable: write raw values
immediately through the variable's handle; for an alias reference,
enqueue it and write the temporary raw placeholder at the same time. -/
def processModeValue (handle : String × String) (collectionName path : String)
    (modes : List (String × List (String × NestedValue)))
    (modeMap : List (String × String))
    (acc : Store × List PendingAlias) (modeName : String) :
    Store × List PendingAlias :=
  match jget modeMap modeName with
  | none => acc
  | some modeId =>
    match getValueAtPath ((jget modes modeName).getD []) path with
    | none => acc
    | some modeValue =>
      if isAliasValue modeValue.value then
        let aliasPath :=
          match modeValue.value with
          | .s str => aliasPathOf str
          | _ => ""
        let aliasCollection := strOr modeValue.collectionName collectionName
        let pending : PendingAlias :=
          { col := handle.1, varName := handle.2, modeId := modeId
            aliasPath := aliasPath, aliasCollection := aliasCollection
            fallbackValue := modeValue }
        (setRawValue acc.1 handle.1 handle.2 modeId modeValue, acc.2 ++ [pending])
      else
        (setRawValue acc.1 handle.1 handle.2 modeId modeValue, acc.2)

/-- Pass 1, one `(path, value)` pair: resolve or create the variable,
set description/scopes, then run the mode loop and register the handle
in the cache.  `st` carries `(store, cache, created, updated, skipped,
entry pendings)`. -/
def processVariablePath (options : ImportOptions) (collectionName : String)
    (modes : List (String × List (String × NestedValue)))
    (modeNames : List String) (modeMap : List (String × String))
    (st : Store × VariableCache × ℕ × ℕ × ℕ × List PendingAlias)
    (pv : String × LeafValue) :
    Store × VariableCache × ℕ × ℕ × ℕ × List PendingAlias :=
  let (store, cache, created, updated, skipped, pendings) := st
  let path := pv.1
  let value := pv.2
  let fullPath := collectionName ++ "/" ++ path
  let resolved :=
    match cache.getVariable fullPath with
    | some existingVar =>
      if !options.overwrite then none
      else some (store, existingVar, created, updated + 1)
    | none =>
      some
        (updateCollection store collectionName
          (fun c => createVariableIn c path (TypeMapper.toFigmaType value.vtype)),
         (collectionName, path), created + 1, updated)
  match resolved with
  | none => (store, cache, created, updated, skipped + 1, pendings)
  | some (store, handle, created, updated) =>
    let store :=
      if (value.descr.getD "") != "" then
        updVar store handle.1 handle.2 (fun vr => { vr with description := value.descr.getD "" })
      else store
    let store :=
      updVar store handle.1 handle.2
        (fun vr => { vr with scopes := TypeMapper.arrayToScopes value.scopes })
    let (store, pendings) :=
      modeNames.foldl (processModeValue handle collectionName path modes modeMap) (store, pendings)
    (store, cache.setVariable fullPath handle, created, updated, skipped, pendings)

/-- Pass 1, one collection entry: resolve/replace/create the collection,
reconcile the modes, then process every flattened variable path of the
first mode's tree. -/
def processCollectionEntry (options : ImportOptions) (st : Pass1State)
    (entry : String × CollectionBody) : Pass1State :=
  let jsonCollectionName := entry.1
  let content := entry.2
  let collectionName := strOr content.originalName jsonCollectionName
  let collectionBehavior :=
    strOr (jget options.collectionBehaviors jsonCollectionName)
      (strOr (jget options.collectionBehaviors collectionName) "merge")
  let afterResolve : Option (Store × VariableCache × ℕ) :=
    match st.cache.getCollection collectionName with
    | some _ =>
      if collectionBehavior == "replace" then
        let store := removeCollectionNamed st.store collectionName
        let cache := st.cache.removeCollection collectionName
        some (createVariableCollection store collectionName,
          cache.setCollection collectionName, st.createdCollections + 1)
      else if !options.merge then none
      else some (st.store, st.cache, st.createdCollections)
    | none =>
      some (createVariableCollection st.store collectionName,
        st.cache.setCollection collectionName, st.createdCollections + 1)
  match afterResolve with
  | none => st
  | some (store, cache, createdCollections) =>
    let modeNames := content.modes.map (fun m => m.1)
    let modeMap := (derefCollection store collectionName).modes.foldl
      (fun acc m => jset acc m.name m.modeId) []
    let (store, modeMap) :=
      match modeNames.head? with
      | none => (store, modeMap)
      | some m0 =>
        if (derefCollection store collectionName).modes.length == 1 &&
            (jget modeMap m0).isNone then
          let firstId := ((derefCollection store collectionName).modes.head?.map
            (fun m => m.modeId)).getD ""
          (updateCollection store collectionName
            (fun c => renameModeOfCollection c firstId m0),
           jset modeMap m0 firstId)
        else (store, modeMap)
    let (store, modeMap) :=
      modeNames.foldl
        (fun (acc : Store × List (String × String)) modeName =>
          if (jget acc.2 modeName).isSome then acc
          else
            let (store2, newId) := addModeS acc.1 collectionName modeName
            (store2, jset acc.2 modeName newId))
        (store, modeMap)
    let firstModeVars := (modeNames.head?.bind (fun m0 => jget content.modes m0)).getD []
    let variablePaths := flattenVariables firstModeVars ""
    let (store, cache, created, updated, skipped, entryPendings) :=
      variablePaths.foldl
        (processVariablePath options collectionName content.modes modeNames modeMap)
        (store, cache, st.createdVariables, st.updatedVariables, st.skippedVariables, [])
    { store := store, cache := cache
      createdCollections := createdCollections
      createdVariables := created, updatedVariables := updated, skippedVariables := skipped
      allPendingAliases := st.allPendingAliases ++ entryPendings }

/-- Pass 2: rebuild the cache once, then wire every pending alias whose
target key resolves; a missing target only bumps the failure counter,
leaving the Pass-1 placeholder in place. -/
def runPass2 (store : Store) (pendings : List PendingAlias) : Store × ℕ × ℕ :=
  let cache := VariableCache.rebuild store
  pendings.foldl
    (fun (acc : Store × ℕ × ℕ) pending =>
      match cache.getVariable (pending.aliasCollection ++ "/" ++ pending.aliasPath) with
      | some target =>
        (setValueForMode acc.1 pending.col pending.varName pending.modeId
          (.alias target.1 target.2), acc.2.1 + 1, acc.2.2)
      | none => (acc.1, acc.2.1, acc.2.2 + 1))
    (store, 0, 0)

/-- Upsert one style kind by name (payload codecs abstracted, see
header); returns `(new list, created, updated)`. -/
def importStylesList (existing incoming : List (String × String)) :
    List (String × String) × ℕ × ℕ :=
  incoming.foldl
    (fun (acc : List (String × String) × ℕ × ℕ) style =>
      if acc.1.any (fun e => e.1 == style.1) then
        (acc.1.map (fun e => if e.1 == style.1 then style else e), acc.2.1, acc.2.2 + 1)
      else (acc.1 ++ [style], acc.2.1 + 1, acc.2.2))
    (existing, 0, 0)

/-- Pass 1 over all collection entries of the document. -/
def runPass1 (options : ImportOptions) (s2 : Store) (cache : VariableCache)
    (collectionData : List (String × CollectionBody)) : Pass1State :=
  collectionData.foldl (processCollectionEntry options)
    { store := s2, cache := cache, createdCollections := 0, createdVariables := 0
      updatedVariables := 0, skippedVariables := 0, allPendingAliases := [] }

/-- `importVariables(jsonData, options)` after JSON parsing and format
detection: clearing pre-step, Pass 1 over all collection entries, Pass 2
over the accumulated alias queue, then style import. -/
def importVariables (s0 : Store) (importData : List ImportItem) (options : ImportOptions) :
    ImportResult :=
  let s1 := if options.clearFirst then clearAll s0 else s0
  let s2 :=
    match options.customMerge with
    | some (cv, cs) =>
      if cv && cs then clearAll s1
      else if cv then clearVariables s1
      else if cs then clearStyles s1
      else s1
    | none => s1
  let cache := VariableCache.rebuild s2
  let stylesData := importData.foldl
    (fun acc item =>
      match item with
      | .styles c t e g => some (c, t, e, g)
      | .coll _ _ => acc) none
  let collectionData := collectionEntries importData
  let p1 := runPass1 options s2 cache collectionData
  let (s3, aliasesResolved, aliasesFailed) := runPass2 p1.store p1.allPendingAliases
  let (s4, stylesCreated, stylesUpdated) :=
    match stylesData with
    | some (c, t, e, g) =>
      if options.importStyles then
        let (ps, c1, u1) := importStylesList s3.paintStyles (c.getD [])
        let (ts, c2, u2) := importStylesList s3.textStyles (t.getD [])
        let (es, c3, u3) := importStylesList s3.effectStyles (e.getD [])
        let (gs, c4, u4) := importStylesList s3.gridStyles (g.getD [])
        ({ s3 with paintStyles := ps, textStyles := ts, effectStyles := es, gridStyles := gs },
         c1 + c2 + c3 + c4, u1 + u2 + u3 + u4)
      else (s3, 0, 0)
    | none => (s3, 0, 0)
  { store := s4
    collectionsCreated := p1.createdCollections
    variablesCreated := p1.createdVariables
    variablesUpdated := p1.updatedVariables
    variablesSkipped := p1.skippedVariables
    stylesCreated := stylesCreated, stylesUpdated := stylesUpdated
    aliasesResolved := aliasesResolved, aliasesFailed := aliasesFailed }

end VSE

namespace VSE

/-! ## Snapshot & rollback manager -/

/-- One captured per-mode value: an alias record or a raw value (colors
serialized as hex strings).  A mode absent from the capture (dangling
alias target, unset value — both outside well-formed stores) has no
entry, as after `JSON.stringify`. -/
inductive SnapValue where
  | aliasRef (aliasName aliasCollection : String)
  | raw (value : JsonVal)
deriving DecidableEq, Repr

/-- A captured variable. -/
structure SnapVariable where
  name : String
  vtype : String
  scopes : List String
  values : List (String × SnapValue)
deriving DecidableEq, Repr

/-- A captured collection: `(modeId, modeName)` pairs plus variables. -/
structure SnapCollection where
  name : String
  modes : List (String × String)
  vars : List SnapVariable
deriving DecidableEq, Repr

/-- `UndoSnapshot` (the source keeps `collections`/`styles` as JSON
strings; the model keeps the parsed data). -/
structure UndoSnapshot where
  timestamp : ℕ
  collections : List SnapCollection
  colorStyles : List (String × String)
  txtStyles : List (String × String)
  effStyles : List (String × String)
  grdStyles : List (String × String)
deriving DecidableEq, Repr

/-- Capture one live per-mode value, as `createUndoSnapshot` does: alias
values record the target's name and collection when the target still
exists; colors of COLOR variables serialize to hex; other raw values are
kept as scalars.  (A live color under a non-COLOR resolved type would
make the source's cast crash and is outside well-formed stores.) -/
def snapValueOf (s : Store) (vr : Variable) (modeId : String) : Option SnapValue :=
  match jget vr.valuesByMode modeId with
  | none => none
  | some (.alias c n) =>
    (findVariable s c n).map (fun _ => SnapValue.aliasRef n c)
  | some (.color rgba) =>
    if vr.resolvedType == "COLOR" then some (.raw (.s (ColorConverter.toHex rgba))) else none
  | some (.str v) => some (.raw (.s v))
  | some (.num v) => some (.raw (.n v))
  | some (.boolean v) => some (.raw (.b v))

/-- `createUndoSnapshot()`: capture every local collection, every
variable's typed per-mode values, and the four style stores. -/
def createUndoSnapshot (s : Store) : UndoSnapshot :=
  { timestamp := 0
    collections := (getLocalCollections s).map (fun col =>
      { name := col.name
        modes := col.modes.map (fun m => (m.modeId, m.name))
        vars := col.vars.map (fun vr =>
          { name := vr.name, vtype := vr.resolvedType, scopes := vr.scopes
            values := col.modes.filterMap (fun m =>
              (snapValueOf s vr m.modeId).map (fun sv => (m.name, sv))) }) })
    colorStyles := s.paintStyles, txtStyles := s.textStyles
    effStyles := s.effectStyles, grdStyles := s.gridStyles }

/-- Restore pass 1: recreate one captured collection with its modes and
variables, writing raw values and queueing alias records. -/
def restoreCollection (acc : Store × List PendingAlias) (collSnapshot : SnapCollection) :
    Store × List PendingAlias :=
  let store := createVariableCollection acc.1 collSnapshot.name
  let colName := collSnapshot.name
  let store :=
    match collSnapshot.modes.head? with
    | none => store
    | some (_, firstName) =>
      let firstId := ((derefCollection store colName).modes.head?.map
        (fun m => m.modeId)).getD ""
      let store := updateCollection store colName
        (fun c => renameModeOfCollection c firstId firstName)
      (collSnapshot.modes.drop 1).foldl
        (fun store m => (addModeS store colName m.2).1) store
  let modeMap := (derefCollection store colName).modes.foldl
    (fun acc m => jset acc m.name m.modeId) []
  collSnapshot.vars.foldl
    (fun (acc : Store × List PendingAlias) varSnapshot =>
      let store := updateCollection acc.1 colName
        (fun c => createVariableIn c varSnapshot.name varSnapshot.vtype)
      let store :=
        if varSnapshot.scopes.length > 0 then
          updVar store colName varSnapshot.name (fun vr => { vr with scopes := varSnapshot.scopes })
        else store
      collSnapshot.modes.foldl
        (fun (acc : Store × List PendingAlias) modeSnapshot =>
          match jget modeMap modeSnapshot.2 with
          | none => acc
          | some modeId =>
            match (jget varSnapshot.values modeSnapshot.2 : Option SnapValue) with
            | none => acc
            | some (.aliasRef aliasName aliasCollection) =>
              if aliasName != "" then
                let pending : PendingAlias :=
                  { col := colName
                    varName := varSnapshot.name
                    modeId := modeId
                    aliasPath := aliasName
                    aliasCollection :=
                      if aliasCollection == "" then collSnapshot.name else aliasCollection
                    fallbackValue :=
                      { scopes := [], vtype := varSnapshot.vtype, descr := none
                        value := .s "", collectionName := none, libraryRef := none
                        localValue := none } }
                (acc.1, acc.2 ++ [pending])
              else acc
            | some (.raw value) =>
              let rawValue : VarValue :=
                match value with
                | .s v =>
                  if varSnapshot.vtype == "COLOR" then .color (ColorParser.fromHex v)
                  else .str v
                | .n v => .num v
                | .b v => .boolean v
                | .colorBundle _ => .str ""
              (setValueForMode acc.1 colName varSnapshot.name modeId rawValue, acc.2))
        (store, acc.2))
    (store, acc.2)

/-- Restore pass 1 over the whole snapshot (after the full clear). -/
def restorePass1 (s : Store) (snapshot : UndoSnapshot) : Store × List PendingAlias :=
  snapshot.collections.foldl restoreCollection (s, [])

/-- Restore pass 2: rebuild the cache, then wire each queued alias whose
target key resolves (found targets only; no counters here). -/
def restorePass2 (sp : Store × List PendingAlias) : Store :=
  let cache := VariableCache.rebuild sp.1
  sp.2.foldl
    (fun store pending =>
      match cache.getVariable (pending.aliasCollection ++ "/" ++ pending.aliasPath) with
      | some target =>
        setValueForMode store pending.col pending.varName pending.modeId
          (.alias target.1 target.2)
      | none => store)
    sp.1

/-- Restore step 4: replay the captured styles through the processors. -/
def restoreStyles (s : Store) (snapshot : UndoSnapshot) : Store :=
  let s := if snapshot.colorStyles.length > 0 then
    { s with paintStyles := (importStylesList s.paintStyles snapshot.colorStyles).1 } else s
  let s := if snapshot.txtStyles.length > 0 then
    { s with textStyles := (importStylesList s.textStyles snapshot.txtStyles).1 } else s
  let s := if snapshot.effStyles.length > 0 then
    { s with effectStyles := (importStylesList s.effectStyles snapshot.effStyles).1 } else s
  if snapshot.grdStyles.length > 0 then
    { s with gridStyles := (importStylesList s.gridStyles snapshot.grdStyles).1 } else s

/-- `restoreFromSnapshot(snapshot)`: full clear, then the same two-pass
create-raw-then-wire-aliases replay, then the captured styles. -/
def restoreFromSnapshot (s : Store) (snapshot : UndoSnapshot) : Store :=
  restoreStyles (restorePass2 (restorePass1 (clearAll s) snapshot)) snapshot

/-- The reported outcome of a mutating operation run under the
snapshot/rollback manager. -/
inductive ImportReport where
  | completed
  | rolledBack
  | rollbackFailed
  | failedNoSnapshot
deriving DecidableEq, Repr

/-- The control-flow skeleton of `importVariables`' error handling: the
pre-import snapshot attempt (caught on failure), the guarded operation,
and the automatic `restoreFromSnapshot` attempt inside the catch. -/
def importWithRollback (snapshotOk importThrows restoreThrows : Bool) : ImportReport :=
  if !importThrows then .completed
  else if snapshotOk then
    if !restoreThrows then .rolledBack else .rollbackFailed
  else .failedNoSnapshot

end VSE

namespace VSE

/-! ## Export serializer -/

/-- JS object property assignment: overwrite in place, else append (JS
objects preserve insertion order, which the importer's `Object.keys`
consumes). -/
def objSet {α : Type} (l : List (String × α)) (k : String) (v : α) : List (String × α) :=
  if l.any (fun p => p.1 == k) then l.map (fun p => if p.1 == k then (k, v) else p)
  else l ++ [(k, v)]

/-- The export loop's `Navigate/create nested structure` insertion: walk
`nameParts`, creating a fresh group over a missing key or a leaf met
mid-path, then assign the leaf record at the last part. -/
def insertTree (tree : List (String × NestedValue)) : List String → LeafValue →
    List (String × NestedValue)
  | [], _ => tree
  | [leafName], v => objSet tree leafName (.leaf v)
  | part :: rest, v =>
    let child :=
      match jget tree part with
      | some (.group g) => g
      | _ => []
    objSet tree part (.group (insertTree child rest v))

/-- Build the exported leaf record for one (variable, mode) pair: tag
alias values (with `$collectionName`, and `$libraryRef`/`$localValue`
for remote targets), optionally resolving them eagerly; bundle colors;
pass other scalars through.  An absent live value (outside well-formed
stores) would serialize to a leaf with no `$value`; modeled as `""`. -/
def exportLeafFor (s : Store) (vr : Variable) (modeId : String)
    (namingConvention : NamingConvention) (resolveAliases : Bool) : LeafValue :=
  let value := jget vr.valuesByMode modeId
  let alias3 :
      JsonVal × (Bool × String × Bool) × (Option String × Option JsonVal) :=
    match value with
    | some (.alias c n) =>
      (match findVariable s c n with
       | some aliasVar =>
         let aliasCol := findCollection s c
         let aliasCollection := (aliasCol.map (fun col => col.name)).getD ""
         let isLibraryAlias := (aliasCol.map (fun col => col.remote)).getD false
         if resolveAliases then
           let resolvedValue := resolveAliasValue s aliasVar modeId 10
           let exportValue : JsonVal :=
             match resolvedValue with
             | .color rgba => .colorBundle (ColorConverter.toAllFormats rgba)
             | .str v => .s v
             | .num v => .n v
             | .boolean v => .b v
             | .alias _ _ => .s ""
           (exportValue, (false, aliasCollection, isLibraryAlias), (none, none))
         else
           let aliasPath := String.intercalate "."
             ((splitOnChar aliasVar.name '/').map
               (fun p => NamingConverter.convert p namingConvention))
           let aliasRef := "\x7b" ++ aliasPath ++ "\x7d"
           let localValue : Option JsonVal :=
             if isLibraryAlias then
               match aliasVar.valuesByMode.head?.map (fun (p : String × VarValue) => p.2) with
               | some (.color rgba) => some (.colorBundle (ColorConverter.toAllFormats rgba))
               | some (.alias _ _) => none
               | some (.str v) => some (.s v)
               | some (.num v) => some (.n v)
               | some (.boolean v) => some (.b v)
               | none => none
             else none
           (.s aliasRef, (true, aliasCollection, isLibraryAlias), (some aliasRef, localValue))
       | none => (.s "", (false, "", false), (none, none)))
    | some (.color rgba) => (.colorBundle (ColorConverter.toAllFormats rgba), (false, "", false), (none, none))
    | some (.str v) => (.s v, (false, "", false), (none, none))
    | some (.num v) => (.n v, (false, "", false), (none, none))
    | some (.boolean v) => (.b v, (false, "", false), (none, none))
    | none => (.s "", (false, "", false), (none, none))
  let exportValue := alias3.1
  let isAlias := alias3.2.1.1
  let aliasCollection := alias3.2.1.2.1
  let isLibraryAlias := alias3.2.1.2.2
  let aliasRef := alias3.2.2.1
  let localValue := alias3.2.2.2
  { scopes := TypeMapper.scopesToArray vr.scopes
    vtype := TypeMapper.toExportType vr.resolvedType
    descr := if vr.description != "" then some vr.description else none
    value := exportValue
    collectionName := if isAlias && aliasCollection != "" then some aliasCollection else none
    libraryRef := if isAlias && isLibraryAlias then aliasRef else none
    localValue := if isAlias && isLibraryAlias then localValue else none }

/-- Export one collection: converted names, the selected modes' trees
built leaf by leaf, `$originalName` recorded when conversion changed the
collection's name. -/
def exportCollection (s : Store) (col : Collection)
    (namingConvention : NamingConvention)
    (selectedModes : Option (List (String × List String)))
    (resolveAliases : Bool) : String × CollectionBody :=
  let modesToExport :=
    match selectedModes.bind (fun sm => jget sm col.name) with
    | some allowedModes => col.modes.filter (fun (m : Mode) => allowedModes.contains m.name)
    | none => col.modes
  let exportCollectionName := NamingConverter.convertCollectionName col.name namingConvention
  let modesInit : List (String × List (String × NestedValue)) :=
    modesToExport.foldl
      (fun acc (mode : Mode) => objSet acc (NamingConverter.convertModeName mode.name namingConvention) [])
      []
  let modesFinal := col.vars.foldl
    (fun modesAcc vr =>
      let nameParts := (splitOnChar vr.name '/').map
        (fun part => NamingConverter.convert part namingConvention)
      modesToExport.foldl
        (fun modesAcc (mode : Mode) =>
          let exportModeName := NamingConverter.convertModeName mode.name namingConvention
          let varExport := exportLeafFor s vr mode.modeId namingConvention resolveAliases
          let tree := (jget modesAcc exportModeName).getD []
          objSet modesAcc exportModeName (insertTree tree nameParts varExport))
        modesAcc)
    modesInit
  (exportCollectionName,
   { modes := modesFinal
     originalName := if exportCollectionName != col.name then some col.name else none })

/-- `exportVariables` (variables and styles; the W3C output format, the
`preserveLibraryRefs`/`includeImages` flags and the I/O surface do not
affect the produced document and are omitted). -/
def exportVariables (s : Store) (selectedCollections : Option (List String))
    (styleOptions : Option (Bool × Bool × Bool × Bool))
    (namingConvention : NamingConvention)
    (selectedModes : Option (List (String × List String)))
    (resolveAliases : Bool) : List ImportItem :=
  let collections := getLocalCollections s
  let collections :=
    match selectedCollections with
    | some sel => if sel.length > 0 then collections.filter (fun (c : Collection) => sel.contains c.name) else collections
    | none => collections
  let exportData := collections.map (fun col =>
    let e := exportCollection s col namingConvention selectedModes resolveAliases
    ImportItem.coll e.1 e.2)
  match styleOptions with
  | some (oc, ot, oe, og) =>
    let colorStyles := if oc then some s.paintStyles else none
    let textStyles := if ot then some s.textStyles else none
    let effectStyles := if oe then some s.effectStyles else none
    let gridStyles := if og then some s.gridStyles else none
    if oc || ot || oe || og then
      exportData ++ [ImportItem.styles colorStyles textStyles effectStyles gridStyles]
    else exportData
  | none => exportData

end VSE

namespace VSE

/-! ## Specification views of the diff walk -/

/-- The paths a diff walk classifies as new: leaf paths with no cache
entry. -/
def diffNewOf (cache : VariableCache) (collectionName : String)
    (flat : List (String × LeafValue)) : List VarRef :=
  flat.filterMap (fun pv =>
    match cache.getVariable (collectionName ++ "/" ++ pv.1) with
    | none => some { collection := collectionName, path := pv.1 }
    | some _ => none)

/-- The live value the diff compares against for a cached handle. -/
def liveValueOf (s : Store) (modeId : String) (handle : String × String) : Option VarValue :=
  (findVariable s handle.1 handle.2).bind (fun vr => jget vr.valuesByMode modeId)

/-- The entries a diff walk classifies as modified. -/
def diffModOf (s : Store) (cache : VariableCache) (modeId collectionName : String)
    (flat : List (String × LeafValue)) : List ModifiedVar :=
  flat.filterMap (fun pv =>
    match cache.getVariable (collectionName ++ "/" ++ pv.1) with
    | none => none
    | some handle =>
      if valuesAreDifferent (liveValueOf s modeId handle) pv.2.value then
        some { collection := collectionName, path := pv.1
               oldValue := formatLiveValue (liveValueOf s modeId handle)
               newValue := formatImportValue pv.2.value }
      else none)

/-- The number of leaves a diff walk counts as unchanged. -/
def diffUnchOf (s : Store) (cache : VariableCache) (modeId collectionName : String)
    (flat : List (String × LeafValue)) : ℕ :=
  (flat.filter (fun pv =>
    match cache.getVariable (collectionName ++ "/" ++ pv.1) with
    | none => false
    | some handle => !(valuesAreDifferent (liveValueOf s modeId handle) pv.2.value))).length

/-- New-variable contributions over an entry's mode list (unmatched
document modes contribute nothing). -/
def modesNewContrib (s : Store) (cache : VariableCache) (excol : Collection)
    (collectionName : String) :
    List (String × List (String × NestedValue)) → List VarRef
  | [] => []
  | me :: rest =>
    (match excol.modes.find? (fun m => m.name == me.1) with
     | none => []
     | some _ => diffNewOf cache collectionName (flattenVariables me.2 "")) ++
      modesNewContrib s cache excol collectionName rest

/-- Modified-variable contributions over an entry's mode list. -/
def modesModContrib (s : Store) (cache : VariableCache) (excol : Collection)
    (collectionName : String) :
    List (String × List (String × NestedValue)) → List ModifiedVar
  | [] => []
  | me :: rest =>
    (match excol.modes.find? (fun m => m.name == me.1) with
     | none => []
     | some mode => diffModOf s cache mode.modeId collectionName (flattenVariables me.2 "")) ++
      modesModContrib s cache excol collectionName rest

/-- Unchanged-variable counts over an entry's mode list. -/
def modesUnchContrib (s : Store) (cache : VariableCache) (excol : Collection)
    (collectionName : String) :
    List (String × List (String × NestedValue)) → ℕ
  | [] => 0
  | me :: rest =>
    (match excol.modes.find? (fun m => m.name == me.1) with
     | none => 0
     | some mode => diffUnchOf s cache mode.modeId collectionName (flattenVariables me.2 "")) +
      modesUnchContrib s cache excol collectionName rest

end VSE

namespace VSE

/-! ## Specification views of the import passes -/

/-- The empty file state. -/
def emptyStore : Store :=
  { collections := [], paintStyles := [], textStyles := [], effectStyles := [], gridStyles := [] }

/-- The collection name an entry resolves to (`$originalName || key`). -/
def resolvedName (e : String × CollectionBody) : String :=
  strOr e.2.originalName e.1

/-- One entry processed from a pristine state; Pass 1 over a fresh-named
entry behaves identically from any state (proved below), so this run
defines the entry's contribution. -/
def entryRun (options : ImportOptions) (e : String × CollectionBody) : Pass1State :=
  processCollectionEntry options
    { store := emptyStore, cache := { collectionMap := [], variableMap := [] }
      createdCollections := 0, createdVariables := 0, updatedVariables := 0
      skippedVariables := 0, allPendingAliases := [] } e

/-- The collection an entry builds. -/
def entryCollection (options : ImportOptions) (e : String × CollectionBody) : Option Collection :=
  findCollection (entryRun options e).store (resolvedName e)

/-- The pending-alias queue an entry contributes. -/
def entryPendings (options : ImportOptions) (e : String × CollectionBody) : List PendingAlias :=
  (entryRun options e).allPendingAliases

/-- A pending alias's (variable, mode) slot holds a concrete raw value. -/
def rawValueSet (s : Store) (p : PendingAlias) : Prop :=
  ∃ v, liveValueOf s p.modeId (p.col, p.varName) = some v ∧ isVariableAlias v = false

/-- The raw value `setRawValue` writes for a leaf (`none` when the host
rejects the write: a color bundle under a non-color `$type`). -/
def placeholderValue (value : LeafValue) : Option VarValue :=
  if value.vtype == "color" then
    let rgba := ColorParser.parse value.value
    some (.color (if rgba.a < 1 then { rgba with a := MathUtils.round2 rgba.a } else rgba))
  else
    match value.value with
    | .s v => some (.str v)
    | .n v => some (.num v)
    | .b v => some (.boolean v)
    | .colorBundle _ => none

/-- The store holding exactly one collection: the entry-local view a
fresh-named entry's Pass-1 run reduces to. -/
def singleStore (c : Collection) : Store :=
  { collections := [c], paintStyles := [], textStyles := [], effectStyles := []
    gridStyles := [] }

/-- A character-level no-slash predicate for collection names. -/
def slashFree (s : String) : Prop := '/' ∉ s.data

instance (s : String) : Decidable (slashFree s) := by
  unfold slashFree
  infer_instance

/-- A two-collection document for exercising order independence:
collection `A` carries a raw color `x`. -/
def orderDocA : String × CollectionBody :=
  ("A", { modes := [("M", [("x", .leaf
      { scopes := [], vtype := "color", descr := none, value := .s "#ff0000",
        collectionName := none, libraryRef := none, localValue := none })])],
          originalName := none })

/-- The second collection of the order-independence document: `B`'s
single leaf `y` aliases `A`'s variable `x`. -/
def orderDocB : String × CollectionBody :=
  ("B", { modes := [("M", [("y", .leaf
      { scopes := [], vtype := "color", descr := none, value := .s "\x7bA.x\x7d",
        collectionName := none, libraryRef := none, localValue := none })])],
          originalName := none })

/-- A live STRING variable holding an innocuous raw value. -/
def cexVarX : Variable :=
  { name := "x", resolvedType := "STRING", description := "", scopes := [],
    valuesByMode := [("m1", .str "hello")] }

/-- A live STRING variable whose raw value merely LOOKS like an alias
reference (`"\x7bx\x7d"`); no alias is involved. -/
def cexVarS : Variable :=
  { name := "s", resolvedType := "STRING", description := "", scopes := [],
    valuesByMode := [("m1", .str "\x7bx\x7d")] }

/-- The round-trip counterexample's collection. -/
def cexCollection : Collection :=
  { name := "C", remote := false, modes := [{ modeId := "m1", name := "Mode 1" }],
    vars := [cexVarX, cexVarS] }

/-- The round-trip counterexample's store. -/
def cexStore : Store :=
  { collections := [cexCollection],
    paintStyles := [], textStyles := [], effectStyles := [], gridStyles := [] }

/-- A representative family of live stores for the amended round trip:
one collection `C` with one mode `M`, a STRING variable `x` whose raw
value starts with a letter (so it cannot be mistaken for an alias
reference), a FLOAT variable `n` with an arbitrary numeric value, a
STRING variable `s` aliasing `C.x`, and one style of each kind with an
arbitrary payload. -/
def rtStore (vx0 : String) (q : ℚ) (py1 py2 py3 py4 : String) : Store :=
  { collections := [
      { name := "C", remote := false, modes := [{ modeId := "m1", name := "M" }],
        vars := [
          { name := "x", resolvedType := "STRING", description := "",
            scopes := ["ALL_SCOPES"], valuesByMode := [("m1", .str ("a" ++ vx0))] },
          { name := "n", resolvedType := "FLOAT", description := "",
            scopes := ["ALL_SCOPES"], valuesByMode := [("m1", .num q)] },
          { name := "s", resolvedType := "STRING", description := "",
            scopes := ["ALL_SCOPES"], valuesByMode := [("m1", .alias "C" "x")] }] }],
    paintStyles := [("P", py1)], textStyles := [("T", py2)],
    effectStyles := [("E", py3)], gridStyles := [("G", py4)] }

/-- The document `exportVariables` produces for `rtStore` (proved
below): the alias leaf is serialized as the reference string
`"\x7bx\x7d"` with its `$collectionName`. -/
def rtDoc (vx0 : String) (q : ℚ) (py1 py2 py3 py4 : String) : List ImportItem :=
  [ImportItem.coll "C"
    { modes := [("M",
        [("x", NestedValue.leaf
          { scopes := ["ALL_SCOPES"], vtype := "string", descr := none,
            value := JsonVal.s ("a" ++ vx0), collectionName := none, libraryRef := none,
            localValue := none }),
         ("n", NestedValue.leaf
          { scopes := ["ALL_SCOPES"], vtype := "float", descr := none,
            value := JsonVal.n q, collectionName := none, libraryRef := none,
            localValue := none }),
         ("s", NestedValue.leaf
          { scopes := ["ALL_SCOPES"], vtype := "string", descr := none,
            value := JsonVal.s "\x7bx\x7d", collectionName := some "C", libraryRef := none,
            localValue := none })])],
      originalName := none },
   ImportItem.styles (some [("P", py1)]) (some [("T", py2)]) (some [("E", py3)]) (some [("G", py4)])]

/-- `rtStore` with its mode id relabeled to the freshly created
collection's `"C#0"`: the import's exact output (proved below). -/
def rtStoreImported (vx0 : String) (q : ℚ) (py1 py2 py3 py4 : String) : Store :=
  { collections := [
      { name := "C", remote := false, modes := [{ modeId := "C#0", name := "M" }],
        vars := [
          { name := "x", resolvedType := "STRING", description := "",
            scopes := ["ALL_SCOPES"], valuesByMode := [("C#0", .str ("a" ++ vx0))] },
          { name := "n", resolvedType := "FLOAT", description := "",
            scopes := ["ALL_SCOPES"], valuesByMode := [("C#0", .num q)] },
          { name := "s", resolvedType := "STRING", description := "",
            scopes := ["ALL_SCOPES"], valuesByMode := [("C#0", .alias "C" "x")] }] }],
    paintStyles := [("P", py1)], textStyles := [("T", py2)],
    effectStyles := [("E", py3)], gridStyles := [("G", py4)] }

/-- The amended round trip's import options: `overwrite = true`, with
style import enabled. -/
def rtOpts : ImportOptions :=
  { merge := false, overwrite := true, importStyles := true, clearFirst := false,
    customMerge := none, collectionBehaviors := [] }

end VSE

namespace VSE

/-! ## General lemmas about the map model -/

theorem jget_cons {α : Type} (p : String × α) (l : List (String × α)) (k : String) :
    jget (p :: l) k = if p.1 == k then some p.2 else jget l k := by
  simp only [jget, List.find?]
  cases h : p.1 == k <;> simp [h]

theorem jget_filter_key {α : Type} (P : String → Bool) (l : List (String × α)) (k : String) :
    jget (l.filter (fun p => P p.1)) k = if P k then jget l k else none := by
  induction l with
  | nil => simp [jget]
  | cons p rest ih =>
    rw [List.filter_cons]
    by_cases hpk : p.1 = k
    · subst hpk
      cases hP : P p.1 <;> simp [hP, ih, jget_cons]
    · have hne : (p.1 == k) = false := by simp [beq_iff_eq]; exact hpk
      cases hP : P p.1 <;> simp [hP, ih, jget_cons, hne]

theorem jget_jdel_self {α : Type} (l : List (String × α)) (k : String) :
    jget (jdel l k) k = none := by
  have h := jget_filter_key (fun s => s != k) l k
  simpa [jdel] using h

theorem jget_jdel_ne {α : Type} (l : List (String × α)) (k k' : String) (h : k' ≠ k) :
    jget (jdel l k) k' = jget l k' := by
  have h2 := jget_filter_key (fun s => s != k) l k'
  simp only [jdel]
  rw [h2, if_pos]
  simp only [bne_iff_ne, ne_eq]
  exact h

/-- A binding found through `jget` is a member. -/
theorem jget_mem {α : Type} {l : List (String × α)} {k : String} {v : α}
    (h : jget l k = some v) : (k, v) ∈ l := by
  simp only [jget] at h
  rcases hfind : List.find? (fun p => p.1 == k) l with _ | p
  · rw [hfind] at h
    simp at h
  · rw [hfind] at h
    simp at h
    have hmem := List.mem_of_find?_eq_some hfind
    have hpred := List.find?_some hfind
    rcases p with ⟨a, b⟩
    have ha : a = k := by simpa [beq_iff_eq] using hpred
    have hb : b = v := h
    subst ha
    subst hb
    exact hmem

end VSE

namespace VSE

/-! ## C10: cache `removeCollection` frame property -/

/-- C10: `VariableCache.removeCollection(name)` deletes the collection
handle stored under `name` together with exactly those cached variable
entries whose key starts with `name ++ "/"`, and leaves every other
cache entry (collections and variables) unchanged. -/
theorem removeCollection_frame (cache : VariableCache) (name : String) :
    ((cache.removeCollection name).getCollection name = none) ∧
    (∀ n, n ≠ name →
      (cache.removeCollection name).getCollection n = cache.getCollection n) ∧
    (∀ k, jsStartsWith k (name ++ "/") = true →
      (cache.removeCollection name).getVariable k = none) ∧
    (∀ k, jsStartsWith k (name ++ "/") = false →
      (cache.removeCollection name).getVariable k = cache.getVariable k) := by
  refine ⟨?_, ?_, ?_, ?_⟩
  · exact jget_jdel_self _ _
  · intro n hn
    exact jget_jdel_ne _ _ _ hn
  · intro k hk
    have h := jget_filter_key (fun s => !(jsStartsWith s (name ++ "/"))) cache.variableMap k
    simp only [VariableCache.removeCollection, VariableCache.getVariable]
    rw [h, hk]
    simp
  · intro k hk
    have h := jget_filter_key (fun s => !(jsStartsWith s (name ++ "/"))) cache.variableMap k
    simp only [VariableCache.removeCollection, VariableCache.getVariable]
    rw [h, hk]
    simp

/-- Witness for C10 on a concrete two-collection cache. -/
theorem removeCollection_frame_witness :
    (({ collectionMap := [("A", "A"), ("B", "B")]
        variableMap := [("A/x", ("A", "x")), ("B/y", ("B", "y"))] } :
        VariableCache).removeCollection "A").getCollection "B" =
      ({ collectionMap := [("A", "A"), ("B", "B")]
         variableMap := [("A/x", ("A", "x")), ("B/y", ("B", "y"))] } :
        VariableCache).getCollection "B" ∧
    (({ collectionMap := [("A", "A"), ("B", "B")]
        variableMap := [("A/x", ("A", "x")), ("B/y", ("B", "y"))] } :
        VariableCache).removeCollection "A").getVariable "A/x" = none := by
  constructor
  · exact (removeCollection_frame
      { collectionMap := [("A", "A"), ("B", "B")]
        variableMap := [("A/x", ("A", "x")), ("B/y", ("B", "y"))] } "A").2.1 "B" (by decide)
  · exact (removeCollection_frame
      { collectionMap := [("A", "A"), ("B", "B")]
        variableMap := [("A/x", ("A", "x")), ("B/y", ("B", "y"))] } "A").2.2.1 "A/x" (by decide)

/-! ## C9: bounded alias resolution -/

/-- A found variable lives in some collection of the store. -/
theorem findVariable_mem {s : Store} {c n : String} {vr : Variable}
    (h : findVariable s c n = some vr) :
    ∃ col ∈ s.collections, vr ∈ col.vars := by
  simp only [findVariable, findCollection, Option.bind_eq_some] at h
  obtain ⟨col, hcol, hvar⟩ := h
  exact ⟨col, List.mem_of_find?_eq_some hcol, List.mem_of_find?_eq_some hvar⟩

/-- C9: eager alias resolution cannot loop: on a store whose every
per-mode value is itself an alias (so every chain, including cyclic
ones, never reaches a scalar), `resolveAliasValue` returns the empty
value for every depth bound — each recursive step spends one unit of the
bound (default 10) and exhaustion yields `''` instead of divergence. -/
theorem resolveAliasValue_allAlias (s : Store) (vr : Variable) (m : String) (d : ℕ)
    (hs : ∀ c ∈ s.collections, ∀ v ∈ c.vars, ∀ p ∈ v.valuesByMode, isVariableAlias p.2 = true)
    (hv : ∀ p ∈ vr.valuesByMode, isVariableAlias p.2 = true) :
    resolveAliasValue s vr m d = .str "" := by
  induction d generalizing vr with
  | zero => rfl
  | succ d ih =>
    rw [resolveAliasValue]
    rcases hg : jget vr.valuesByMode m with _ | v
    · rcases hh : vr.valuesByMode.head? with _ | p
      · simp [hg, hh]
      · have hmem : p ∈ vr.valuesByMode := List.mem_of_mem_head? hh
        have halias := hv p hmem
        rcases p with ⟨k, pv⟩
        rcases pv with v | v | v | v | ⟨c, n⟩
        · simp [isVariableAlias] at halias
        · simp [isVariableAlias] at halias
        · simp [isVariableAlias] at halias
        · simp [isVariableAlias] at halias
        · simp only [hg, hh]
          rcases hf : findVariable s c n with _ | nextVar
          · simp [hf]
          · obtain ⟨col, hcolmem, hvarmem⟩ := findVariable_mem hf
            simpa [hf] using ih nextVar (hs col hcolmem nextVar hvarmem)
    · have halias := hv (m, v) (jget_mem hg)
      rcases v with v | v | v | v | ⟨c, n⟩
      · simp [isVariableAlias] at halias
      · simp [isVariableAlias] at halias
      · simp [isVariableAlias] at halias
      · simp [isVariableAlias] at halias
      · simp only [hg]
        rcases hf : findVariable s c n with _ | nextVar
        · simp [hf]
        · obtain ⟨col, hcolmem, hvarmem⟩ := findVariable_mem hf
          simpa [hf] using ih nextVar (hs col hcolmem nextVar hvarmem)

/-- Witness for C9: a two-variable cyclic alias chain at the default
depth bound 10. -/
theorem resolveAliasValue_allAlias_witness :
    resolveAliasValue
      (⟨[⟨"A", false, [⟨"A#0", "M"⟩],
          [⟨"x", "COLOR", "", [], [("A#0", VarValue.alias "A" "y")]⟩,
           ⟨"y", "COLOR", "", [], [("A#0", VarValue.alias "A" "x")]⟩]⟩],
        [], [], [], []⟩ : Store)
      ⟨"x", "COLOR", "", [], [("A#0", VarValue.alias "A" "y")]⟩
      "A#0" 10 = .str "" := by
  exact resolveAliasValue_allAlias _ _ "A#0" 10 (by decide) (by decide)

end VSE

namespace VSE

/-! ## C5: plan/capacity validator -/

/-- Closed form of the validator's append-if folds (`Prop` condition). -/
theorem foldl_append_ite {α β : Type} (P : α → Prop) [DecidablePred P] (f : α → β)
    (l : List α) (init : List β) :
    l.foldl (fun acc e => if P e then acc ++ [f e] else acc) init
      = init ++ (l.filter (fun e => decide (P e))).map f := by
  induction l generalizing init with
  | nil => simp
  | cons a rest ih =>
    by_cases hP : P a
    · simp [hP, ih, List.filter_cons]
    · simp [hP, ih, List.filter_cons]

/-- Closed form of the validator's append-if folds (`Bool` condition). -/
theorem foldl_append_if {α β : Type} (P : α → Bool) (f : α → β)
    (l : List α) (init : List β) :
    l.foldl (fun acc e => if P e then acc ++ [f e] else acc) init
      = init ++ (l.filter P).map f := by
  induction l generalizing init with
  | nil => simp
  | cons a rest ih =>
    cases hP : P a
    · simp [hP, ih, List.filter_cons]
    · simp [hP, ih, List.filter_cons]

/-- C5: plan validation emits one named error per collection whose
first-mode variable count exceeds the fixed ceiling of 5000, and
`canImport` is false exactly when such a collection exists; a collection
over the tier's mode ceiling only lands in
`collectionsExceedingModeLimit`, never in `errors`, so it cannot block
import; totals over 1000 variables or 10 collections surface only in
`warnings`.  The validator is a pure read: it takes the store as input
and returns a report without producing a new store. -/
theorem validateImportAgainstPlan_spec (s : Store) (importData : List ImportItem)
    (planOverride : Option FigmaPlan) :
    (validateImportAgainstPlan s importData planOverride).errors
      = ((collectionEntries importData).filter
          (fun (e : String × CollectionBody) =>
            decide (firstModeVarCount e.2.modes > MAX_VARIABLES_PER_COLLECTION))).map
          (fun e => "Collection \"" ++ e.1 ++ "\" has " ++ toString (firstModeVarCount e.2.modes) ++
            " variables, exceeds limit of " ++ toString MAX_VARIABLES_PER_COLLECTION) ∧
    ((validateImportAgainstPlan s importData planOverride).canImport = true ↔
      ∀ e ∈ collectionEntries importData,
        firstModeVarCount e.2.modes ≤ MAX_VARIABLES_PER_COLLECTION) ∧
    (validateImportAgainstPlan s importData planOverride).collectionsExceedingModeLimit
      = ((collectionEntries importData).filter
          (fun (e : String × CollectionBody) => exceedsModeLimit e.2.modes.length
            (validateImportAgainstPlan s importData planOverride).currentPlan.maxModesPerCollection)).map
          (fun e => "\"" ++ e.1 ++ "\" (" ++ toString e.2.modes.length ++ " modes, limit: " ++
            modeLimitDisplay
              (validateImportAgainstPlan s importData planOverride).currentPlan.maxModesPerCollection ++ ")") ∧
    (((collectionEntries importData).map
        (fun (e : String × CollectionBody) => firstModeVarCount e.2.modes)).sum > 1000 ∨
        (collectionEntries importData).length > 10 ↔
      (validateImportAgainstPlan s importData planOverride).warnings ≠ []) := by
  have hE : (validateImportAgainstPlan s importData planOverride).errors
      = ((collectionEntries importData).filter
          (fun (e : String × CollectionBody) =>
            decide (firstModeVarCount e.2.modes > MAX_VARIABLES_PER_COLLECTION))).map
          (fun e => "Collection \"" ++ e.1 ++ "\" has " ++ toString (firstModeVarCount e.2.modes) ++
            " variables, exceeds limit of " ++ toString MAX_VARIABLES_PER_COLLECTION) :=
    foldl_append_ite
      (fun (e : String × CollectionBody) =>
        firstModeVarCount e.2.modes > MAX_VARIABLES_PER_COLLECTION) _ _ []
  refine ⟨hE, ?_, ?_, ?_⟩
  · show (validateImportAgainstPlan s importData planOverride).errors.isEmpty = true ↔ _
    rw [hE]
    simp only [List.isEmpty_iff, List.map_eq_nil_iff, List.filter_eq_nil_iff]
    constructor
    · intro h e he
      simpa using h e he
    · intro h e he
      simpa using h e he
  · exact foldl_append_if
      (fun (e : String × CollectionBody) => exceedsModeLimit e.2.modes.length
        (validateImportAgainstPlan s importData planOverride).currentPlan.maxModesPerCollection) _ _ []
  · have hW : (validateImportAgainstPlan s importData planOverride).warnings
        = (if ((collectionEntries importData).map
              (fun (e : String × CollectionBody) => firstModeVarCount e.2.modes)).sum > 1000 then
            ["Large import: " ++ toString (((collectionEntries importData).map
              (fun (e : String × CollectionBody) => firstModeVarCount e.2.modes)).sum) ++
              " variables. This may take a moment."]
          else []) ++
          (if (collectionEntries importData).length > 10 then
            ["Importing " ++ toString (collectionEntries importData).length ++
              " collections. Consider importing in batches."]
          else []) := rfl
    rw [hW]
    by_cases h1 : ((collectionEntries importData).map
        (fun (e : String × CollectionBody) => firstModeVarCount e.2.modes)).sum > 1000 <;>
      by_cases h2 : (collectionEntries importData).length > 10 <;>
        simp [h1, h2]

end VSE

namespace VSE

/-! ## Diff walk characterization -/

mutual

theorem checkVariablesDiff_spec (s : Store) (cache : VariableCache) (modeId : String) :
    ∀ (tree : List (String × NestedValue)) (collectionName path : String)
      (result : ImportDiffResult),
    checkVariablesDiff s cache modeId tree collectionName path result =
      { result with
        newVariables := result.newVariables ++
          diffNewOf cache collectionName (flattenVariables tree path)
        modifiedVariables := result.modifiedVariables ++
          diffModOf s cache modeId collectionName (flattenVariables tree path)
        unchangedVariables := result.unchangedVariables +
          diffUnchOf s cache modeId collectionName (flattenVariables tree path)
        summary := { result.summary with
          variablesNew := result.summary.variablesNew +
            (diffNewOf cache collectionName (flattenVariables tree path)).length
          variablesModified := result.summary.variablesModified +
            (diffModOf s cache modeId collectionName (flattenVariables tree path)).length
          variablesUnchanged := result.summary.variablesUnchanged +
            diffUnchOf s cache modeId collectionName (flattenVariables tree path) } }
  | [], cn, p, result => by
    simp [checkVariablesDiff, flattenVariables, diffNewOf, diffModOf, diffUnchOf]
  | (key, val) :: rest, cn, p, result => by
    simp only [checkVariablesDiff]
    rw [checkVariablesDiffEntry_spec s cache modeId key val cn p result]
    rw [checkVariablesDiff_spec s cache modeId rest cn p]
    simp only [flattenVariables]
    simp [diffNewOf, diffModOf, diffUnchOf, List.filterMap_append, List.filter_append,
      List.append_assoc, List.length_append]
    omega

theorem checkVariablesDiffEntry_spec (s : Store) (cache : VariableCache) (modeId key : String) :
    ∀ (val : NestedValue) (collectionName path : String) (result : ImportDiffResult),
    checkVariablesDiffEntry s cache modeId key val collectionName path result =
      { result with
        newVariables := result.newVariables ++
          diffNewOf cache collectionName (flattenEntry key val path)
        modifiedVariables := result.modifiedVariables ++
          diffModOf s cache modeId collectionName (flattenEntry key val path)
        unchangedVariables := result.unchangedVariables +
          diffUnchOf s cache modeId collectionName (flattenEntry key val path)
        summary := { result.summary with
          variablesNew := result.summary.variablesNew +
            (diffNewOf cache collectionName (flattenEntry key val path)).length
          variablesModified := result.summary.variablesModified +
            (diffModOf s cache modeId collectionName (flattenEntry key val path)).length
          variablesUnchanged := result.summary.variablesUnchanged +
            diffUnchOf s cache modeId collectionName (flattenEntry key val path) } }
  | .leaf a, cn, p, result => by
    simp only [checkVariablesDiffEntry, flattenEntry]
    set cp := (if p == "" then key else p ++ "/" ++ key) with hcp
    rcases hv : cache.getVariable (cn ++ "/" ++ cp) with _ | handle
    · simp [hv, diffNewOf, diffModOf, diffUnchOf]
    · rcases hd : valuesAreDifferent ((findVariable s handle.1 handle.2).bind
          (fun vr => jget vr.valuesByMode modeId)) a.value with _ | _
      · simp [hv, hd, diffNewOf, diffModOf, diffUnchOf, liveValueOf]
      · simp [hv, hd, diffNewOf, diffModOf, diffUnchOf, liveValueOf]
  | .group g, cn, p, result => by
    simp only [checkVariablesDiffEntry]
    rw [checkVariablesDiff_spec s cache modeId g cn (if p == "" then key else p ++ "/" ++ key)]
    simp [flattenEntry]

end

end VSE

namespace VSE

theorem diffModesFold_spec (s : Store) (cache : VariableCache) (excol : Collection)
    (cn : String) (modesList : List (String × List (String × NestedValue)))
    (result : ImportDiffResult) :
    modesList.foldl (fun result modeEntry =>
      match excol.modes.find? (fun m => m.name == modeEntry.1) with
      | none => result
      | some mode => checkVariablesDiff s cache mode.modeId modeEntry.2 cn "" result) result
    = { result with
        newVariables := result.newVariables ++ modesNewContrib s cache excol cn modesList
        modifiedVariables := result.modifiedVariables ++ modesModContrib s cache excol cn modesList
        unchangedVariables := result.unchangedVariables + modesUnchContrib s cache excol cn modesList
        summary := { result.summary with
          variablesNew := result.summary.variablesNew +
            (modesNewContrib s cache excol cn modesList).length
          variablesModified := result.summary.variablesModified +
            (modesModContrib s cache excol cn modesList).length
          variablesUnchanged := result.summary.variablesUnchanged +
            modesUnchContrib s cache excol cn modesList } } := by
  induction modesList generalizing result with
  | nil => simp [modesNewContrib, modesModContrib, modesUnchContrib]
  | cons me rest ih =>
    simp only [List.foldl_cons]
    rcases hf : excol.modes.find? (fun m => m.name == me.1) with _ | mode
    · simp only [hf]
      rw [ih]
      simp [modesNewContrib, modesModContrib, modesUnchContrib, hf]
    · simp only [hf]
      rw [checkVariablesDiff_spec]
      rw [ih]
      simp [modesNewContrib, modesModContrib, modesUnchContrib, hf, List.append_assoc]
      omega

/-- Members of `diffNewOf` all carry the walked collection's name. -/
theorem diffNewOf_collection {cache : VariableCache} {cn : String}
    {flat : List (String × LeafValue)} {r : VarRef} (h : r ∈ diffNewOf cache cn flat) :
    r.collection = cn := by
  simp only [diffNewOf, List.mem_filterMap] at h
  obtain ⟨pv, _, hr⟩ := h
  rcases hl : cache.getVariable (cn ++ "/" ++ pv.1) with _ | hd
  · simp [hl] at hr
    subst hr
    rfl
  · simp [hl] at hr

/-- Members of `diffModOf` all carry the walked collection's name. -/
theorem diffModOf_collection {s : Store} {cache : VariableCache} {modeId cn : String}
    {flat : List (String × LeafValue)} {r : ModifiedVar}
    (h : r ∈ diffModOf s cache modeId cn flat) : r.collection = cn := by
  simp only [diffModOf, List.mem_filterMap] at h
  obtain ⟨pv, _, hr⟩ := h
  rcases hl : cache.getVariable (cn ++ "/" ++ pv.1) with _ | hd
  · simp [hl] at hr
  · simp [hl] at hr
    obtain ⟨_, rfl⟩ := hr
    rfl

/-- Members of `modesNewContrib` all carry the collection's name. -/
theorem modesNewContrib_collection {s : Store} {cache : VariableCache} {excol : Collection}
    {cn : String} {modesList : List (String × List (String × NestedValue))} {r : VarRef}
    (h : r ∈ modesNewContrib s cache excol cn modesList) : r.collection = cn := by
  induction modesList with
  | nil => simp [modesNewContrib] at h
  | cons me rest ih =>
    simp only [modesNewContrib, List.mem_append] at h
    rcases h with h | h
    · rcases hf : excol.modes.find? (fun m => m.name == me.1) with _ | mode
      · rw [hf] at h
        simp at h
      · rw [hf] at h
        exact diffNewOf_collection h
    · exact ih h

/-- Members of `modesModContrib` all carry the collection's name. -/
theorem modesModContrib_collection {s : Store} {cache : VariableCache} {excol : Collection}
    {cn : String} {modesList : List (String × List (String × NestedValue))} {r : ModifiedVar}
    (h : r ∈ modesModContrib s cache excol cn modesList) : r.collection = cn := by
  induction modesList with
  | nil => simp [modesModContrib] at h
  | cons me rest ih =>
    simp only [modesModContrib, List.mem_append] at h
    rcases h with h | h
    · rcases hf : excol.modes.find? (fun m => m.name == me.1) with _ | mode
      · rw [hf] at h
        simp at h
      · rw [hf] at h
        exact diffModOf_collection h
    · exact ih h

end VSE

namespace VSE

theorem computeImportDiff_single_existing (s : Store) (name : String) (body : CollectionBody)
    (h : String)
    (hexist : (VariableCache.rebuild s).getCollection (strOr body.originalName name) = some h) :
    (computeImportDiff s [ImportItem.coll name body]).newVariables
      = modesNewContrib s (VariableCache.rebuild s)
          ((findCollection s h).getD emptyCollection) (strOr body.originalName name) body.modes ∧
    (computeImportDiff s [ImportItem.coll name body]).modifiedVariables
      = modesModContrib s (VariableCache.rebuild s)
          ((findCollection s h).getD emptyCollection) (strOr body.originalName name) body.modes ∧
    (computeImportDiff s [ImportItem.coll name body]).modifiedCollections
      = (if (modesModContrib s (VariableCache.rebuild s)
              ((findCollection s h).getD emptyCollection) (strOr body.originalName name)
              body.modes).any (fun v => v.collection == strOr body.originalName name) ||
            (modesNewContrib s (VariableCache.rebuild s)
              ((findCollection s h).getD emptyCollection) (strOr body.originalName name)
              body.modes).any (fun v => v.collection == strOr body.originalName name) then
          [strOr body.originalName name] else []) ∧
    (computeImportDiff s [ImportItem.coll name body]).unchangedCollections
      = (if (modesModContrib s (VariableCache.rebuild s)
              ((findCollection s h).getD emptyCollection) (strOr body.originalName name)
              body.modes).any (fun v => v.collection == strOr body.originalName name) ||
            (modesNewContrib s (VariableCache.rebuild s)
              ((findCollection s h).getD emptyCollection) (strOr body.originalName name)
              body.modes).any (fun v => v.collection == strOr body.originalName name) then
          ([] : List String) else [strOr body.originalName name]) := by
  simp only [computeImportDiff, List.foldl_cons, List.foldl_nil, hexist]
  rw [diffModesFold_spec]
  by_cases hc : ((modesModContrib s (VariableCache.rebuild s)
        ((findCollection s h).getD emptyCollection) (strOr body.originalName name)
        body.modes).any (fun v => v.collection == strOr body.originalName name) ||
      (modesNewContrib s (VariableCache.rebuild s)
        ((findCollection s h).getD emptyCollection) (strOr body.originalName name)
        body.modes).any (fun v => v.collection == strOr body.originalName name)) = true
  · simp only [emptyDiffResult] at hc ⊢
    simp [hc]
  · simp only [emptyDiffResult] at hc ⊢
    simp [hc]

end VSE

namespace VSE

theorem mem_diffNewOf {cache : VariableCache} {cn : String} {flat : List (String × LeafValue)}
    {pv : String × LeafValue} (hpv : pv ∈ flat)
    (hmiss : cache.getVariable (cn ++ "/" ++ pv.1) = none) :
    ({ collection := cn, path := pv.1 } : VarRef) ∈ diffNewOf cache cn flat := by
  simp only [diffNewOf, List.mem_filterMap]
  exact ⟨pv, hpv, by simp [hmiss]⟩

theorem mem_diffModOf {s : Store} {cache : VariableCache} {modeId cn : String}
    {flat : List (String × LeafValue)} {pv : String × LeafValue} {hd : String × String}
    (hpv : pv ∈ flat) (hhit : cache.getVariable (cn ++ "/" ++ pv.1) = some hd)
    (hdiff : valuesAreDifferent (liveValueOf s modeId hd) pv.2.value = true) :
    ({ collection := cn, path := pv.1, oldValue := formatLiveValue (liveValueOf s modeId hd),
       newValue := formatImportValue pv.2.value } : ModifiedVar) ∈
      diffModOf s cache modeId cn flat := by
  simp only [diffModOf, List.mem_filterMap]
  exact ⟨pv, hpv, by simp [hhit, hdiff]⟩

theorem mem_modesNewContrib {s : Store} {cache : VariableCache} {excol : Collection}
    {cn : String} {modesList : List (String × List (String × NestedValue))}
    {me : String × List (String × NestedValue)} {x : VarRef}
    (hme : me ∈ modesList) (hf : (excol.modes.find? (fun m => m.name == me.1)).isSome)
    (hx : x ∈ diffNewOf cache cn (flattenVariables me.2 "")) :
    x ∈ modesNewContrib s cache excol cn modesList := by
  induction modesList with
  | nil => simp at hme
  | cons a rest ih =>
    rcases List.mem_cons.mp hme with rfl | hmem
    · rcases ho : excol.modes.find? (fun m => m.name == me.1) with _ | mode
      · rw [ho] at hf
        simp at hf
      · simp only [modesNewContrib, ho, List.mem_append]
        exact Or.inl hx
    · simp only [modesNewContrib, List.mem_append]
      exact Or.inr (ih hmem)

theorem mem_modesModContrib {s : Store} {cache : VariableCache} {excol : Collection}
    {cn : String} {modesList : List (String × List (String × NestedValue))}
    {me : String × List (String × NestedValue)} {mode : Mode} {x : ModifiedVar}
    (hme : me ∈ modesList) (hf : excol.modes.find? (fun m => m.name == me.1) = some mode)
    (hx : x ∈ diffModOf s cache mode.modeId cn (flattenVariables me.2 "")) :
    x ∈ modesModContrib s cache excol cn modesList := by
  induction modesList with
  | nil => simp at hme
  | cons a rest ih =>
    rcases List.mem_cons.mp hme with rfl | hmem
    · simp only [modesModContrib, hf, List.mem_append]
      exact Or.inl hx
    · simp only [modesModContrib, List.mem_append]
      exact Or.inr (ih hmem)

/-- An alias live value always counts as different. -/
theorem valuesAreDifferent_alias (c n : String) (v : JsonVal) :
    valuesAreDifferent (some (.alias c n)) v = true := by
  cases v <;> rfl

end VSE

namespace VSE

theorem any_eq_nonempty {α : Type} (f : α → String) (rn : String) (l : List α)
    (hall : ∀ r ∈ l, f r = rn) : (l.any (fun v => f v == rn) = true ↔ l ≠ []) := by
  cases l with
  | nil => simp
  | cons a rest =>
    simp only [List.any_cons, Bool.or_eq_true, beq_iff_eq]
    constructor
    · intro _ hcon
      cases hcon
    · intro _
      exact Or.inl (hall a (List.mem_cons_self a rest))

/-- C6: the diff engine classifies a document path with no cached live
variable as new; an existing variable whose live value is an alias as
modified; a color variable as unchanged exactly when its live RGBA value
normalized to hex equals the incoming hex case-insensitively; and an
existing collection as modified exactly when at least one of its
variables was classified new or modified, otherwise unchanged. -/
theorem computeImportDiff_policy (s : Store) (name : String) (body : CollectionBody)
    (h : String)
    (hexist : (VariableCache.rebuild s).getCollection (strOr body.originalName name) = some h) :
    (∀ me ∈ body.modes, ∀ mode : Mode,
      ((findCollection s h).getD emptyCollection).modes.find? (fun m => m.name == me.1)
          = some mode →
      ∀ pv ∈ flattenVariables me.2 "",
        ((VariableCache.rebuild s).getVariable (strOr body.originalName name ++ "/" ++ pv.1)
            = none →
          ({ collection := strOr body.originalName name, path := pv.1 } : VarRef) ∈
            (computeImportDiff s [ImportItem.coll name body]).newVariables) ∧
        (∀ hd c n,
          (VariableCache.rebuild s).getVariable (strOr body.originalName name ++ "/" ++ pv.1)
              = some hd →
          liveValueOf s mode.modeId hd = some (.alias c n) →
          ∃ e ∈ (computeImportDiff s [ImportItem.coll name body]).modifiedVariables,
            e.collection = strOr body.originalName name ∧ e.path = pv.1)) ∧
    (∀ (rgba : RGBA) (cv : ExportColorValue),
      valuesAreDifferent (some (.color rgba)) (.colorBundle cv) = false ↔
        jsToLower (ColorConverter.toHex rgba) = jsToLower cv.hex) ∧
    (strOr body.originalName name ∈
        (computeImportDiff s [ImportItem.coll name body]).modifiedCollections ↔
      (computeImportDiff s [ImportItem.coll name body]).newVariables ≠ [] ∨
        (computeImportDiff s [ImportItem.coll name body]).modifiedVariables ≠ []) ∧
    (strOr body.originalName name ∈
        (computeImportDiff s [ImportItem.coll name body]).unchangedCollections ↔
      (computeImportDiff s [ImportItem.coll name body]).newVariables = [] ∧
        (computeImportDiff s [ImportItem.coll name body]).modifiedVariables = []) := by
  obtain ⟨hNew, hMod, hModC, hUnchC⟩ := computeImportDiff_single_existing s name body h hexist
  have hanyM := any_eq_nonempty (fun v : ModifiedVar => v.collection)
    (strOr body.originalName name)
    (modesModContrib s (VariableCache.rebuild s) ((findCollection s h).getD emptyCollection)
      (strOr body.originalName name) body.modes)
    (fun r hr => modesModContrib_collection hr)
  have hanyN := any_eq_nonempty (fun v : VarRef => v.collection)
    (strOr body.originalName name)
    (modesNewContrib s (VariableCache.rebuild s) ((findCollection s h).getD emptyCollection)
      (strOr body.originalName name) body.modes)
    (fun r hr => modesNewContrib_collection hr)
  refine ⟨?_, ?_, ?_, ?_⟩
  · intro me hme mode hfind pv hpv
    constructor
    · intro hmiss
      rw [hNew]
      exact mem_modesNewContrib hme (by simp [hfind]) (mem_diffNewOf hpv hmiss)
    · intro hd c n hhit hlive
      rw [hMod]
      refine ⟨_, mem_modesModContrib hme hfind (mem_diffModOf hpv hhit ?_), rfl, rfl⟩
      rw [hlive]
      exact valuesAreDifferent_alias c n pv.2.value
  · intro rgba cv
    simp [valuesAreDifferent, ColorConverter.toAllFormats]
  · rw [hModC, hNew, hMod]
    by_cases hcond : ((modesModContrib s (VariableCache.rebuild s)
          ((findCollection s h).getD emptyCollection) (strOr body.originalName name)
          body.modes).any (fun v => v.collection == strOr body.originalName name) ||
        (modesNewContrib s (VariableCache.rebuild s)
          ((findCollection s h).getD emptyCollection) (strOr body.originalName name)
          body.modes).any (fun v => v.collection == strOr body.originalName name)) = true
    · rw [if_pos hcond]
      simp only [Bool.or_eq_true] at hcond
      refine iff_of_true (List.mem_singleton.mpr rfl) ?_
      rcases hcond with hc | hc
      · exact Or.inr (hanyM.mp hc)
      · exact Or.inl (hanyN.mp hc)
    · rw [if_neg hcond]
      simp only [Bool.or_eq_true, not_or] at hcond
      obtain ⟨hm, hn⟩ := hcond
      refine iff_of_false (by simp) ?_
      rintro (hne | hne)
      · exact hn (hanyN.mpr hne)
      · exact hm (hanyM.mpr hne)
  · rw [hUnchC, hNew, hMod]
    by_cases hcond : ((modesModContrib s (VariableCache.rebuild s)
          ((findCollection s h).getD emptyCollection) (strOr body.originalName name)
          body.modes).any (fun v => v.collection == strOr body.originalName name) ||
        (modesNewContrib s (VariableCache.rebuild s)
          ((findCollection s h).getD emptyCollection) (strOr body.originalName name)
          body.modes).any (fun v => v.collection == strOr body.originalName name)) = true
    · rw [if_pos hcond]
      simp only [Bool.or_eq_true] at hcond
      refine iff_of_false (by simp) ?_
      rintro ⟨hn0, hm0⟩
      rcases hcond with hc | hc
      · exact (hanyM.mp hc) hm0
      · exact (hanyN.mp hc) hn0
    · rw [if_neg hcond]
      simp only [Bool.or_eq_true, not_or] at hcond
      obtain ⟨hm, hn⟩ := hcond
      refine iff_of_true (List.mem_singleton.mpr rfl) ?_
      constructor
      · by_contra hne
        exact hn (hanyN.mpr hne)
      · by_contra hne
        exact hm (hanyM.mpr hne)

end VSE

namespace VSE

/-- Witness for C6 on a concrete store and document: the unseen path
`z` is reported new, and the variable `a` whose live value is an alias
is reported modified. -/
theorem computeImportDiff_policy_witness :
    ({ collection := "C", path := "z" } : VarRef) ∈
      (computeImportDiff
        (⟨[⟨"C", false, [⟨"C#0", "M"⟩],
            [⟨"x", "FLOAT", "", [], [("C#0", VarValue.num 1)]⟩,
             ⟨"a", "FLOAT", "", [], [("C#0", VarValue.alias "C" "x")]⟩]⟩], [], [], [], []⟩ : Store)
        [ImportItem.coll "C"
          ⟨[("M", [("x", NestedValue.leaf ⟨[], "float", none, JsonVal.n 1, none, none, none⟩),
                   ("a", NestedValue.leaf ⟨[], "float", none, JsonVal.n 2, none, none, none⟩),
                   ("z", NestedValue.leaf ⟨[], "float", none, JsonVal.n 3, none, none, none⟩)])],
           none⟩]).newVariables ∧
    ∃ e ∈ (computeImportDiff
        (⟨[⟨"C", false, [⟨"C#0", "M"⟩],
            [⟨"x", "FLOAT", "", [], [("C#0", VarValue.num 1)]⟩,
             ⟨"a", "FLOAT", "", [], [("C#0", VarValue.alias "C" "x")]⟩]⟩], [], [], [], []⟩ : Store)
        [ImportItem.coll "C"
          ⟨[("M", [("x", NestedValue.leaf ⟨[], "float", none, JsonVal.n 1, none, none, none⟩),
                   ("a", NestedValue.leaf ⟨[], "float", none, JsonVal.n 2, none, none, none⟩),
                   ("z", NestedValue.leaf ⟨[], "float", none, JsonVal.n 3, none, none, none⟩)])],
           none⟩]).modifiedVariables, e.collection = "C" ∧ e.path = "a" := by
  have h := computeImportDiff_policy
    (⟨[⟨"C", false, [⟨"C#0", "M"⟩],
        [⟨"x", "FLOAT", "", [], [("C#0", VarValue.num 1)]⟩,
         ⟨"a", "FLOAT", "", [], [("C#0", VarValue.alias "C" "x")]⟩]⟩], [], [], [], []⟩ : Store)
    "C"
    ⟨[("M", [("x", NestedValue.leaf ⟨[], "float", none, JsonVal.n 1, none, none, none⟩),
             ("a", NestedValue.leaf ⟨[], "float", none, JsonVal.n 2, none, none, none⟩),
             ("z", NestedValue.leaf ⟨[], "float", none, JsonVal.n 3, none, none, none⟩)])],
      none⟩
    "C" (by decide)
  constructor
  · exact (h.1 ("M", [("x", NestedValue.leaf ⟨[], "float", none, JsonVal.n 1, none, none, none⟩),
        ("a", NestedValue.leaf ⟨[], "float", none, JsonVal.n 2, none, none, none⟩),
        ("z", NestedValue.leaf ⟨[], "float", none, JsonVal.n 3, none, none, none⟩)])
      (by decide) ⟨"C#0", "M"⟩ (by decide)
      ("z", ⟨[], "float", none, JsonVal.n 3, none, none, none⟩) (by decide)).1 (by decide)
  · exact (h.1 ("M", [("x", NestedValue.leaf ⟨[], "float", none, JsonVal.n 1, none, none, none⟩),
        ("a", NestedValue.leaf ⟨[], "float", none, JsonVal.n 2, none, none, none⟩),
        ("z", NestedValue.leaf ⟨[], "float", none, JsonVal.n 3, none, none, none⟩)])
      (by decide) ⟨"C#0", "M"⟩ (by decide)
      ("a", ⟨[], "float", none, JsonVal.n 2, none, none, none⟩) (by decide)).2
      ("C", "a") "C" "x" (by decide) (by decide)

end VSE

namespace VSE

theorem modesNewContrib_filter (s : Store) (cache : VariableCache) (excol : Collection)
    (cn : String) (modesList : List (String × List (String × NestedValue))) :
    modesNewContrib s cache excol cn (modesList.filter
      (fun me => (excol.modes.find? (fun m => m.name == me.1)).isSome))
      = modesNewContrib s cache excol cn modesList := by
  induction modesList with
  | nil => rfl
  | cons me rest ih =>
    rw [List.filter_cons]
    rcases hf : excol.modes.find? (fun m => m.name == me.1) with _ | mode
    · simp only [hf, Option.isSome_none, Bool.false_eq_true, if_false, ih,
        modesNewContrib]
      simp [hf]
    · simp only [hf, Option.isSome_some, if_true, modesNewContrib, ih]

theorem modesModContrib_filter (s : Store) (cache : VariableCache) (excol : Collection)
    (cn : String) (modesList : List (String × List (String × NestedValue))) :
    modesModContrib s cache excol cn (modesList.filter
      (fun me => (excol.modes.find? (fun m => m.name == me.1)).isSome))
      = modesModContrib s cache excol cn modesList := by
  induction modesList with
  | nil => rfl
  | cons me rest ih =>
    rw [List.filter_cons]
    rcases hf : excol.modes.find? (fun m => m.name == me.1) with _ | mode
    · simp only [hf, Option.isSome_none, Bool.false_eq_true, if_false, ih,
        modesModContrib]
      simp [hf]
    · simp only [hf, Option.isSome_some, if_true, modesModContrib, ih]

/-- C7 (amended): a document mode with no matching live mode is skipped
entirely by the diff — removing every unmatched mode from the entry
leaves the classified variables and the collection classification
unchanged, so an unmatched mode never by itself marks the collection
modified. -/
theorem computeImportDiff_unmatched_modes_skipped (s : Store) (name : String)
    (body : CollectionBody) (h : String)
    (hexist : (VariableCache.rebuild s).getCollection (strOr body.originalName name) = some h) :
    (computeImportDiff s [ImportItem.coll name body]).newVariables
      = (computeImportDiff s [ImportItem.coll name
          ⟨body.modes.filter (fun me =>
            (((findCollection s h).getD emptyCollection).modes.find?
              (fun m => m.name == me.1)).isSome), body.originalName⟩]).newVariables ∧
    (computeImportDiff s [ImportItem.coll name body]).modifiedVariables
      = (computeImportDiff s [ImportItem.coll name
          ⟨body.modes.filter (fun me =>
            (((findCollection s h).getD emptyCollection).modes.find?
              (fun m => m.name == me.1)).isSome), body.originalName⟩]).modifiedVariables ∧
    (computeImportDiff s [ImportItem.coll name body]).modifiedCollections
      = (computeImportDiff s [ImportItem.coll name
          ⟨body.modes.filter (fun me =>
            (((findCollection s h).getD emptyCollection).modes.find?
              (fun m => m.name == me.1)).isSome), body.originalName⟩]).modifiedCollections ∧
    (computeImportDiff s [ImportItem.coll name body]).unchangedCollections
      = (computeImportDiff s [ImportItem.coll name
          ⟨body.modes.filter (fun me =>
            (((findCollection s h).getD emptyCollection).modes.find?
              (fun m => m.name == me.1)).isSome), body.originalName⟩]).unchangedCollections := by
  obtain ⟨hN1, hM1, hC1, hU1⟩ := computeImportDiff_single_existing s name body h hexist
  obtain ⟨hN2, hM2, hC2, hU2⟩ := computeImportDiff_single_existing s name
    ⟨body.modes.filter (fun me =>
      (((findCollection s h).getD emptyCollection).modes.find?
        (fun m => m.name == me.1)).isSome), body.originalName⟩ h hexist
  have hNf := modesNewContrib_filter s (VariableCache.rebuild s)
    ((findCollection s h).getD emptyCollection) (strOr body.originalName name) body.modes
  have hMf := modesModContrib_filter s (VariableCache.rebuild s)
    ((findCollection s h).getD emptyCollection) (strOr body.originalName name) body.modes
  refine ⟨?_, ?_, ?_, ?_⟩
  · rw [hN1, hN2]
    exact hNf.symm
  · rw [hM1, hM2]
    exact hMf.symm
  · rw [hC1, hC2, hNf, hMf]
  · rw [hU1, hU2, hNf, hMf]

/-- Counterexample to C7 as stated: the live collection `C` has only the
mode `Light`; the document entry carries an extra `Dark` mode (no live
counterpart) whose value even differs, yet the diff classifies `C` as
unchanged, not modified. -/
theorem computeImportDiff_unmatched_mode_counterexample :
    (∃ me ∈ ([("Light", [("x", NestedValue.leaf
          ⟨[], "float", none, JsonVal.n 1, none, none, none⟩)]),
        ("Dark", [("x", NestedValue.leaf
          ⟨[], "float", none, JsonVal.n 2, none, none, none⟩)])] :
        List (String × List (String × NestedValue))),
      (((findCollection
          (⟨[⟨"C", false, [⟨"C#0", "Light"⟩],
              [⟨"x", "FLOAT", "", [], [("C#0", VarValue.num 1)]⟩]⟩], [], [], [], []⟩ : Store)
          "C").getD emptyCollection).modes.find? (fun m => m.name == me.1)) = none) ∧
    (computeImportDiff
      (⟨[⟨"C", false, [⟨"C#0", "Light"⟩],
          [⟨"x", "FLOAT", "", [], [("C#0", VarValue.num 1)]⟩]⟩], [], [], [], []⟩ : Store)
      [ImportItem.coll "C"
        ⟨[("Light", [("x", NestedValue.leaf ⟨[], "float", none, JsonVal.n 1, none, none, none⟩)]),
          ("Dark", [("x", NestedValue.leaf ⟨[], "float", none, JsonVal.n 2, none, none, none⟩)])],
         none⟩]).modifiedCollections = [] ∧
    (computeImportDiff
      (⟨[⟨"C", false, [⟨"C#0", "Light"⟩],
          [⟨"x", "FLOAT", "", [], [("C#0", VarValue.num 1)]⟩]⟩], [], [], [], []⟩ : Store)
      [ImportItem.coll "C"
        ⟨[("Light", [("x", NestedValue.leaf ⟨[], "float", none, JsonVal.n 1, none, none, none⟩)]),
          ("Dark", [("x", NestedValue.leaf ⟨[], "float", none, JsonVal.n 2, none, none, none⟩)])],
         none⟩]).unchangedCollections = ["C"] := by
  refine ⟨⟨("Dark", [("x", NestedValue.leaf ⟨[], "float", none, JsonVal.n 2, none, none, none⟩)]),
    by decide, by decide⟩, by decide, by decide⟩

/-- Witness for the amended C7 on the counterexample's store and
document: dropping the unmatched `Dark` mode leaves the classification
unchanged. -/
theorem computeImportDiff_unmatched_modes_skipped_witness :
    (computeImportDiff
      (⟨[⟨"C", false, [⟨"C#0", "Light"⟩],
          [⟨"x", "FLOAT", "", [], [("C#0", VarValue.num 1)]⟩]⟩], [], [], [], []⟩ : Store)
      [ImportItem.coll "C"
        ⟨[("Light", [("x", NestedValue.leaf ⟨[], "float", none, JsonVal.n 1, none, none, none⟩)]),
          ("Dark", [("x", NestedValue.leaf ⟨[], "float", none, JsonVal.n 2, none, none, none⟩)])],
         none⟩]).unchangedCollections
      = (computeImportDiff
        (⟨[⟨"C", false, [⟨"C#0", "Light"⟩],
            [⟨"x", "FLOAT", "", [], [("C#0", VarValue.num 1)]⟩]⟩], [], [], [], []⟩ : Store)
        [ImportItem.coll "C"
          ⟨[("Light", [("x", NestedValue.leaf ⟨[], "float", none, JsonVal.n 1, none, none, none⟩)])],
           none⟩]).unchangedCollections := by
  have h := (computeImportDiff_unmatched_modes_skipped
    (⟨[⟨"C", false, [⟨"C#0", "Light"⟩],
        [⟨"x", "FLOAT", "", [], [("C#0", VarValue.num 1)]⟩]⟩], [], [], [], []⟩ : Store)
    "C"
    ⟨[("Light", [("x", NestedValue.leaf ⟨[], "float", none, JsonVal.n 1, none, none, none⟩)]),
      ("Dark", [("x", NestedValue.leaf ⟨[], "float", none, JsonVal.n 2, none, none, none⟩)])],
     none⟩
    "C" (by decide)).2.2.2
  rw [h]
  have hfilter : ([("Light", [("x", NestedValue.leaf
        (⟨[], "float", none, JsonVal.n 1, none, none, none⟩ : LeafValue))]),
      ("Dark", [("x", NestedValue.leaf
        (⟨[], "float", none, JsonVal.n 2, none, none, none⟩ : LeafValue))])].filter
      (fun me =>
        (((findCollection
          (⟨[⟨"C", false, [⟨"C#0", "Light"⟩],
              [⟨"x", "FLOAT", "", [], [("C#0", VarValue.num 1)]⟩]⟩],
            [], [], [], []⟩ : Store) "C").getD emptyCollection).modes.find?
          (fun m => m.name == me.1)).isSome))
      = [("Light", [("x", NestedValue.leaf
          (⟨[], "float", none, JsonVal.n 1, none, none, none⟩ : LeafValue))])] := by decide
  rw [hfilter]

end VSE

namespace VSE

/-! ## Store operation algebra -/

theorem find?_map_pres {α : Type} (g : α → α) (P : α → Bool) (hg : ∀ a, P (g a) = P a)
    (l : List α) : (l.map g).find? P = (l.find? P).map g := by
  induction l with
  | nil => rfl
  | cons a rest ih =>
    simp only [List.map_cons, List.find?]
    rw [hg a]
    cases hP : P a
    · simpa using ih
    · simp

theorem findCollection_updateCollection (s : Store) (n : String) (f : Collection → Collection)
    (nm : String) (hf : ∀ c, (f c).name = c.name) :
    findCollection (updateCollection s n f) nm
      = (findCollection s nm).map (fun c => if c.name == n then f c else c) := by
  simp only [findCollection, updateCollection]
  exact find?_map_pres _ _ (fun c => by
    by_cases hc : c.name = n
    · simp [hc, hf]
    · simp [hc]) s.collections

theorem findCollection_updateCollection_ne (s : Store) (n : String) (f : Collection → Collection)
    (nm : String) (hf : ∀ c, (f c).name = c.name) (hne : nm ≠ n) :
    findCollection (updateCollection s n f) nm = findCollection s nm := by
  rw [findCollection_updateCollection s n f nm hf]
  rcases hfind : findCollection s nm with _ | c
  · rfl
  · have hname : c.name = nm := by
      have := List.find?_some hfind
      simpa [beq_iff_eq] using this
    have hb : (c.name == n) = false := by
      simp [beq_iff_eq, hname]
      exact hne
    simp [hb]
    exact fun h => absurd (hname.symm.trans h) hne

theorem findCollection_updateCollection_self (s : Store) (n : String) (f : Collection → Collection)
    (hf : ∀ c, (f c).name = c.name) :
    findCollection (updateCollection s n f) n = (findCollection s n).map f := by
  rw [findCollection_updateCollection s n f n hf]
  rcases hfind : findCollection s n with _ | c
  · rfl
  · have hname : c.name = n := by
      have := List.find?_some hfind
      simpa [beq_iff_eq] using this
    simp [hname]

theorem findCollection_createVariableCollection (s : Store) (n nm : String) :
    findCollection (createVariableCollection s n) nm
      = (findCollection s nm).or
          (if n == nm then
            some { name := n, remote := false, modes := [{ modeId := n ++ "#0", name := "Mode 1" }]
                   vars := [] }
          else none) := by
  simp only [findCollection, createVariableCollection, List.find?_append]
  congr 1
  simp only [List.find?]
  cases h : (n == nm) <;> simp [h]

theorem findCollection_createVariableCollection_ne (s : Store) (n nm : String) (hne : nm ≠ n) :
    findCollection (createVariableCollection s n) nm = findCollection s nm := by
  rw [findCollection_createVariableCollection]
  have : (n == nm) = false := by
    simp [beq_iff_eq]
    exact fun e => hne e.symm
  rw [this]
  simp

theorem findCollection_createVariableCollection_self (s : Store) (n : String)
    (hnone : findCollection s n = none) :
    findCollection (createVariableCollection s n) n
      = some { name := n, remote := false, modes := [{ modeId := n ++ "#0", name := "Mode 1" }]
               vars := [] } := by
  rw [findCollection_createVariableCollection, hnone]
  simp

theorem findCollection_eq_none (s : Store) (n : String)
    (h : ∀ c ∈ s.collections, c.name ≠ n) : findCollection s n = none := by
  simp only [findCollection, List.find?_eq_none]
  intro c hc
  simp [beq_iff_eq]
  exact h c hc

/-- Styles do not affect collection lookups. -/
theorem findCollection_clearStyles (s : Store) (nm : String) :
    findCollection (clearStyles s) nm = findCollection s nm := rfl

end VSE

namespace VSE

/-! ## Frame lemmas for variable lookups and live values -/

theorem find?_filter_imp {α : Type} (P Q : α → Bool) (l : List α)
    (h : ∀ a, P a = true → Q a = true) : (l.filter Q).find? P = l.find? P := by
  induction l with
  | nil => rfl
  | cons a rest ih =>
    rw [List.filter_cons]
    cases hP : P a
    · cases hQ : Q a
      · simpa [List.find?, hP] using ih
      · simp [List.find?, hP, ih]
    · rw [h a hP]
      simp [List.find?, hP]

theorem findCollection_removeCollectionNamed_ne (s : Store) (n nm : String) (h : nm ≠ n) :
    findCollection (removeCollectionNamed s n) nm = findCollection s nm := by
  simp only [findCollection, removeCollectionNamed]
  refine find?_filter_imp _ _ _ ?_
  intro c hc
  have : c.name = nm := by simpa [beq_iff_eq] using hc
  simp [beq_iff_eq, this]
  exact h

theorem findCollection_removeCollectionNamed_self (s : Store) (n : String) :
    findCollection (removeCollectionNamed s n) n = none := by
  simp only [findCollection, removeCollectionNamed, List.find?_eq_none]
  intro c hc
  have := List.mem_filter.mp hc
  simpa using this.2

theorem findVariable_updateCollection_ne (s : Store) (n : String) (f : Collection → Collection)
    (c v : String) (hf : ∀ c, (f c).name = c.name) (hne : c ≠ n) :
    findVariable (updateCollection s n f) c v = findVariable s c v := by
  simp only [findVariable]
  rw [findCollection_updateCollection_ne s n f c hf hne]

theorem findVariable_updVar (s : Store) (cn vn : String) (f : Variable → Variable)
    (hf : ∀ vr, (f vr).name = vr.name) (c v : String) :
    findVariable (updVar s cn vn f) c v =
      if c = cn ∧ v = vn then (findVariable s cn vn).map f else findVariable s c v := by
  have hname : ∀ col : Collection,
      ((fun c => { c with vars := c.vars.map (fun vr => if vr.name == vn then f vr else vr) } :
        Collection → Collection) col).name = col.name := fun _ => rfl
  by_cases hc : c = cn
  · subst hc
    simp only [findVariable, updVar]
    rw [findCollection_updateCollection_self s c _ hname]
    rcases hcol : findCollection s c with _ | col
    · simp
    · simp only [Option.map_some', Option.some_bind]
      have hfind := find?_map_pres (fun vr => if vr.name == vn then f vr else vr)
        (fun vr => vr.name == v)
        (fun vr => by
          by_cases hv : vr.name = vn
          · simp [hv, hf]
          · simp [hv]) col.vars
      rw [hfind]
      by_cases hvv : v = vn
      · subst hvv
        simp only [and_self, if_pos rfl]
        rcases hvar : col.vars.find? (fun vr => vr.name == v) with _ | vr
        · rw [hvar]; rfl
        · rw [hvar]
          have hn : vr.name = v := by simpa [beq_iff_eq] using List.find?_some hvar
          simp [hn]
      · rw [if_neg (by simp [hvv])]
        rcases hvar : col.vars.find? (fun vr => vr.name == v) with _ | vr
        · rw [hvar]; rfl
        · rw [hvar]
          have hn : vr.name = v := by simpa [beq_iff_eq] using List.find?_some hvar
          simp [hn, hvv]
  · rw [if_neg (by simp [hc])]
    exact findVariable_updateCollection_ne s cn _ c v hname hc

theorem liveValueOf_setValueForMode (s : Store) (cn vn mid : String) (val : VarValue)
    (m : String) (h : String × String) :
    liveValueOf (setValueForMode s cn vn mid val) m h =
      if h.1 = cn ∧ h.2 = vn ∧ m = mid ∧ (findVariable s cn vn).isSome then some val
      else if h.1 = cn ∧ h.2 = vn then
        (findVariable s cn vn).bind (fun vr => jget (jset vr.valuesByMode mid val) m)
      else liveValueOf s m h := by
  simp only [liveValueOf, setValueForMode]
  rw [findVariable_updVar s cn vn
    (fun vr => { vr with valuesByMode := jset vr.valuesByMode mid val }) (fun _ => rfl) h.1 h.2]
  by_cases hcv : h.1 = cn ∧ h.2 = vn
  · rw [if_pos hcv]
    rcases hvar : findVariable s cn vn with _ | vr
    · simp [hvar, hcv]
    · by_cases hm : m = mid
      · subst hm
        simp [hvar, hcv, jget_jset_self]
      · simp [hvar, hcv, hm]
  · rw [if_neg hcv, if_neg (by rintro ⟨a, b, _, _⟩; exact hcv ⟨a, b⟩), if_neg hcv]

theorem liveValueOf_setValueForMode_frame (s : Store) (cn vn mid : String) (val : VarValue)
    (m : String) (h : String × String) (hne : ¬(h.1 = cn ∧ h.2 = vn ∧ m = mid)) :
    liveValueOf (setValueForMode s cn vn mid val) m h = liveValueOf s m h := by
  rw [liveValueOf_setValueForMode]
  rw [if_neg (by rintro ⟨a, b, c, _⟩; exact hne ⟨a, b, c⟩)]
  by_cases hcv : h.1 = cn ∧ h.2 = vn
  · rw [if_pos hcv]
    have hm : m ≠ mid := fun e => hne ⟨hcv.1, hcv.2, e⟩
    simp only [liveValueOf, hcv.1, hcv.2]
    rcases findVariable s cn vn with _ | vr
    · rfl
    · simp only [Option.some_bind]
      exact jget_jset_ne vr.valuesByMode mid m val hm
  · rw [if_neg hcv]

theorem rawValueSet_setValueForMode (s : Store) (cn vn mid : String) (val : VarValue)
    (p : PendingAlias) (hval : isVariableAlias val = false) (hp : rawValueSet s p) :
    rawValueSet (setValueForMode s cn vn mid val) p := by
  by_cases hhit : p.col = cn ∧ p.varName = vn ∧ p.modeId = mid
  · rcases hp with ⟨w, hw, _⟩
    have hw' : (findVariable s p.col p.varName).bind
        (fun vr => jget vr.valuesByMode p.modeId) = some w := hw
    rw [hhit.1, hhit.2.1] at hw'
    have hsome : (findVariable s cn vn).isSome := by
      rcases hfv : findVariable s cn vn with _ | vr
      · rw [hfv] at hw'; simp at hw'
      · rfl
    refine ⟨val, ?_, hval⟩
    rw [liveValueOf_setValueForMode]
    rw [if_pos ⟨hhit.1, hhit.2.1, hhit.2.2, hsome⟩]
  · rcases hp with ⟨w, hw, hraw⟩
    refine ⟨w, ?_, hraw⟩
    rw [liveValueOf_setValueForMode_frame s cn vn mid val p.modeId (p.col, p.varName) hhit]
    exact hw

theorem findVariable_updateCollection_varsPres (s : Store) (n : String)
    (f : Collection → Collection) (c v : String)
    (hf : ∀ col, (f col).name = col.name ∧ (f col).vars = col.vars) :
    findVariable (updateCollection s n f) c v = findVariable s c v := by
  by_cases hc : c = n
  · subst hc
    simp only [findVariable]
    rw [findCollection_updateCollection_self s c f (fun col => (hf col).1)]
    rcases findCollection s c with _ | col
    · rfl
    · simp [(hf col).2]
  · exact findVariable_updateCollection_ne s n f c v (fun col => (hf col).1) hc

theorem liveValueOf_updateCollection_varsPres (s : Store) (n : String)
    (f : Collection → Collection) (m : String) (h : String × String)
    (hf : ∀ col, (f col).name = col.name ∧ (f col).vars = col.vars) :
    liveValueOf (updateCollection s n f) m h = liveValueOf s m h := by
  simp only [liveValueOf]
  rw [findVariable_updateCollection_varsPres s n f h.1 h.2 hf]

theorem findVariable_pres_createVariableIn (s : Store) (n name t : String) (c v : String)
    (vr : Variable) (h : findVariable s c v = some vr) :
    findVariable (updateCollection s n (fun col => createVariableIn col name t)) c v
      = some vr := by
  by_cases hc : c = n
  · subst hc
    simp only [findVariable] at h ⊢
    rw [findCollection_updateCollection_self s c
      (fun col => createVariableIn col name t) (fun _ => rfl)]
    rcases hcol : findCollection s c with _ | col
    · rw [hcol] at h; simp at h
    · rw [hcol] at h
      simp only [Option.some_bind] at h
      simp only [Option.map_some', Option.some_bind, createVariableIn, List.find?_append, h]
      rfl
  · rw [findVariable_updateCollection_ne s n
      (fun col => createVariableIn col name t) c v (fun _ => rfl) hc]
    exact h

theorem findVariable_createVariableIn_isSome (s : Store) (n name t : String)
    (h : (findCollection s n).isSome) :
    (findVariable (updateCollection s n (fun col => createVariableIn col name t)) n
      name).isSome := by
  simp only [findVariable]
  rw [findCollection_updateCollection_self s n
    (fun col => createVariableIn col name t) (fun _ => rfl)]
  rcases hcol : findCollection s n with _ | col
  · rw [hcol] at h; simp at h
  · simp only [Option.map_some', Option.some_bind, createVariableIn, List.find?_append]
    rcases hfv : col.vars.find? (fun v => v.name == name) with _ | vr
    · rw [hfv]
      simp [List.find?]
    · rw [hfv]
      rfl

theorem findVariable_pres_createVariableCollection (s : Store) (n : String) (c v : String)
    (vr : Variable) (h : findVariable s c v = some vr) :
    findVariable (createVariableCollection s n) c v = some vr := by
  simp only [findVariable] at h ⊢
  rcases hcol : findCollection s c with _ | col
  · rw [hcol] at h; simp at h
  · rw [findCollection_createVariableCollection, hcol]
    rw [hcol] at h
    simpa using h

theorem findVariable_pres_removeCollectionNamed (s : Store) (n : String) (c v : String)
    (hne : c ≠ n) :
    findVariable (removeCollectionNamed s n) c v = findVariable s c v := by
  simp only [findVariable]
  rw [findCollection_removeCollectionNamed_ne s n c hne]

theorem rawValueSet_updateCollection_varsPres (s : Store) (n : String)
    (f : Collection → Collection) (p : PendingAlias)
    (hf : ∀ col, (f col).name = col.name ∧ (f col).vars = col.vars)
    (hp : rawValueSet s p) : rawValueSet (updateCollection s n f) p := by
  rcases hp with ⟨w, hw, hraw⟩
  exact ⟨w, by rw [liveValueOf_updateCollection_varsPres s n f _ _ hf]; exact hw, hraw⟩

theorem rawValueSet_createVariableIn (s : Store) (n name t : String) (p : PendingAlias)
    (hp : rawValueSet s p) :
    rawValueSet (updateCollection s n (fun col => createVariableIn col name t)) p := by
  rcases hp with ⟨w, hw, hraw⟩
  simp only [liveValueOf] at hw
  rcases hfv : findVariable s p.col p.varName with _ | vr
  · rw [hfv] at hw; simp at hw
  · rw [hfv] at hw
    refine ⟨w, ?_, hraw⟩
    simp only [liveValueOf]
    rw [findVariable_pres_createVariableIn s n name t p.col p.varName vr hfv]
    exact hw

theorem rawValueSet_createVariableCollection (s : Store) (n : String) (p : PendingAlias)
    (hp : rawValueSet s p) : rawValueSet (createVariableCollection s n) p := by
  rcases hp with ⟨w, hw, hraw⟩
  simp only [liveValueOf] at hw
  rcases hfv : findVariable s p.col p.varName with _ | vr
  · rw [hfv] at hw; simp at hw
  · rw [hfv] at hw
    refine ⟨w, ?_, hraw⟩
    simp only [liveValueOf]
    rw [findVariable_pres_createVariableCollection s n p.col p.varName vr hfv]
    exact hw

theorem rawValueSet_removeCollectionNamed (s : Store) (n : String) (p : PendingAlias)
    (hne : p.col ≠ n) (hp : rawValueSet s p) : rawValueSet (removeCollectionNamed s n) p := by
  rcases hp with ⟨w, hw, hraw⟩
  refine ⟨w, ?_, hraw⟩
  simp only [liveValueOf] at hw ⊢
  rw [findVariable_pres_removeCollectionNamed s n p.col p.varName hne]
  exact hw

end VSE

namespace VSE

/-! ## Slash-delimited cache keys -/

theorem append_slash_inj (a : List Char) :
    ∀ (b p q : List Char), '/' ∉ a → '/' ∉ b →
      a ++ '/' :: p = b ++ '/' :: q → a = b ∧ p = q := by
  induction a with
  | nil =>
    intro b p q _ hb h
    cases b with
    | nil => simpa using h
    | cons c b' =>
      exfalso
      simp only [List.nil_append, List.cons_append, List.cons.injEq] at h
      exact hb (h.1 ▸ List.mem_cons_self c b')
  | cons c a' ih =>
    intro b p q ha hb h
    cases b with
    | nil =>
      exfalso
      simp only [List.cons_append, List.nil_append, List.cons.injEq] at h
      exact ha (h.1 ▸ List.mem_cons_self c a')
    | cons d b' =>
      simp only [List.cons_append, List.cons.injEq] at h
      have ha' : '/' ∉ a' := fun hm => ha (List.mem_cons_of_mem c hm)
      have hb' : '/' ∉ b' := fun hm => hb (List.mem_cons_of_mem d hm)
      obtain ⟨h1, h2⟩ := ih b' p q ha' hb' h.2
      exact ⟨by rw [h.1, h1], h2⟩

theorem slashKey_data (c v : String) : (c ++ "/" ++ v).data = c.data ++ '/' :: v.data := by
  rw [String.data_append, String.data_append]
  simp

theorem slashKey_inj (c1 v1 c2 v2 : String) (h1 : slashFree c1) (h2 : slashFree c2)
    (h : c1 ++ "/" ++ v1 = c2 ++ "/" ++ v2) : c1 = c2 ∧ v1 = v2 := by
  have hd : c1.data ++ '/' :: v1.data = c2.data ++ '/' :: v2.data := by
    rw [← slashKey_data, ← slashKey_data, h]
  obtain ⟨e1, e2⟩ := append_slash_inj c1.data c2.data v1.data v2.data h1 h2 hd
  exact ⟨String.ext e1, String.ext e2⟩

theorem jsStartsWith_iff (s pre : String) :
    jsStartsWith s pre = true ↔ ∃ r, s.data = pre.data ++ r := by
  constructor
  · intro h
    simp only [jsStartsWith, beq_iff_eq] at h
    refine ⟨s.data.drop pre.data.length, ?_⟩
    conv_lhs => rw [← List.take_append_drop pre.data.length s.data]
    rw [h]
  · rintro ⟨r, hr⟩
    simp only [jsStartsWith, beq_iff_eq, hr]
    exact List.take_left pre.data r

theorem slashKey_not_prefix (cn cn' v : String) (h1 : slashFree cn) (h2 : slashFree cn')
    (hne : cn' ≠ cn) : jsStartsWith (cn ++ "/" ++ v) (cn' ++ "/") = false := by
  by_contra hcontra
  have hs : jsStartsWith (cn ++ "/" ++ v) (cn' ++ "/") = true := by
    cases h : jsStartsWith (cn ++ "/" ++ v) (cn' ++ "/")
    · exact absurd h hcontra
    · rfl
  obtain ⟨r, hr⟩ := (jsStartsWith_iff _ _).mp hs
  rw [slashKey_data, String.data_append] at hr
  have hr' : cn.data ++ '/' :: v.data = cn'.data ++ '/' :: r := by
    simpa using hr
  obtain ⟨e, _⟩ := append_slash_inj cn.data cn'.data v.data r h1 h2 hr'
  exact hne (String.ext e.symm)

theorem slashKey_prefix (cn v : String) :
    jsStartsWith (cn ++ "/" ++ v) (cn ++ "/") = true := by
  rw [jsStartsWith_iff]
  refine ⟨v.data, ?_⟩
  rw [slashKey_data, String.data_append]
  simp

/-! ## Pass 2 of the restore replay agrees with the importer's Pass 2 -/

theorem pass2_store_agree (cache : VariableCache) (ps : List PendingAlias) :
    ∀ (s : Store) (k1 k2 : ℕ),
      (ps.foldl
        (fun (acc : Store × ℕ × ℕ) pending =>
          match cache.getVariable (pending.aliasCollection ++ "/" ++ pending.aliasPath) with
          | some target =>
            (setValueForMode acc.1 pending.col pending.varName pending.modeId
              (.alias target.1 target.2), acc.2.1 + 1, acc.2.2)
          | none => (acc.1, acc.2.1, acc.2.2 + 1)) (s, k1, k2)).1
      = ps.foldl
          (fun store pending =>
            match cache.getVariable (pending.aliasCollection ++ "/" ++ pending.aliasPath) with
            | some target =>
              setValueForMode store pending.col pending.varName pending.modeId
                (.alias target.1 target.2)
            | none => store) s := by
  induction ps with
  | nil => intro s k1 k2; rfl
  | cons p rest ih =>
    intro s k1 k2
    simp only [List.foldl_cons]
    rcases cache.getVariable (p.aliasCollection ++ "/" ++ p.aliasPath) with _ | target
    · exact ih s k1 (k2 + 1)
    · exact ih _ (k1 + 1) k2

theorem restorePass2_eq_runPass2 (sp : Store × List PendingAlias) :
    restorePass2 sp = (runPass2 sp.1 sp.2).1 :=
  (pass2_store_agree (VariableCache.rebuild sp.1) sp.2 sp.1 0 0).symm

end VSE

namespace VSE

/-- **C4**: when the guarded import throws, exactly one of the three
outcomes is reported — rolled back (snapshot captured, restore
succeeded), rollback failed (snapshot captured, restore threw), or no
snapshot available — never `completed`; and the automatic restore is the
full clear, then the snapshot replay through the same two-pass
create-raw-then-wire-aliases algorithm as the importer (its store effect
equals the importer's Pass 2 on the replayed queue), then the captured
styles. -/
theorem importWithRollback_trichotomy (s : Store) (snap : UndoSnapshot)
    (snapshotOk restoreThrows : Bool) :
    importWithRollback snapshotOk true restoreThrows =
        (if snapshotOk then
          (if restoreThrows then ImportReport.rollbackFailed else ImportReport.rolledBack)
        else ImportReport.failedNoSnapshot)
    ∧ importWithRollback snapshotOk true restoreThrows ≠ ImportReport.completed
    ∧ restoreFromSnapshot s snap
        = restoreStyles (restorePass2 (restorePass1 (clearAll s) snap)) snap
    ∧ restorePass2 (restorePass1 (clearAll s) snap)
        = (runPass2 (restorePass1 (clearAll s) snap).1
            (restorePass1 (clearAll s) snap).2).1 := by
  refine ⟨?_, ?_, rfl, restorePass2_eq_runPass2 _⟩
  · cases snapshotOk <;> cases restoreThrows <;> rfl
  · cases snapshotOk <;> cases restoreThrows <;> simp [importWithRollback]

end VSE

namespace VSE

/-! ## Pass 2 characterization: counters and frame -/

theorem pass2_fold_failed (cache : VariableCache) (ps : List PendingAlias) :
    ∀ (s : Store) (k1 k2 : ℕ),
      (ps.foldl
        (fun (acc : Store × ℕ × ℕ) pending =>
          match cache.getVariable (pending.aliasCollection ++ "/" ++ pending.aliasPath) with
          | some target =>
            (setValueForMode acc.1 pending.col pending.varName pending.modeId
              (.alias target.1 target.2), acc.2.1 + 1, acc.2.2)
          | none => (acc.1, acc.2.1, acc.2.2 + 1)) (s, k1, k2)).2.2
      = k2 + (ps.filter (fun q =>
          (cache.getVariable (q.aliasCollection ++ "/" ++ q.aliasPath)).isNone)).length := by
  induction ps with
  | nil => intro s k1 k2; simp
  | cons q rest ih =>
    intro s k1 k2
    simp only [List.foldl_cons, List.filter_cons]
    rcases hq : cache.getVariable (q.aliasCollection ++ "/" ++ q.aliasPath) with _ | target
    · simp only [hq]
      rw [ih s k1 (k2 + 1), if_pos (by rfl)]
      simp only [List.length_cons]
      omega
    · simp only [hq]
      rw [ih _ (k1 + 1) k2, if_neg (by simp [hq])]

theorem pass2_fold_resolved (cache : VariableCache) (ps : List PendingAlias) :
    ∀ (s : Store) (k1 k2 : ℕ),
      (ps.foldl
        (fun (acc : Store × ℕ × ℕ) pending =>
          match cache.getVariable (pending.aliasCollection ++ "/" ++ pending.aliasPath) with
          | some target =>
            (setValueForMode acc.1 pending.col pending.varName pending.modeId
              (.alias target.1 target.2), acc.2.1 + 1, acc.2.2)
          | none => (acc.1, acc.2.1, acc.2.2 + 1)) (s, k1, k2)).2.1
      = k1 + (ps.filter (fun q =>
          (cache.getVariable (q.aliasCollection ++ "/" ++ q.aliasPath)).isSome)).length := by
  induction ps with
  | nil => intro s k1 k2; simp
  | cons q rest ih =>
    intro s k1 k2
    simp only [List.foldl_cons, List.filter_cons]
    rcases hq : cache.getVariable (q.aliasCollection ++ "/" ++ q.aliasPath) with _ | target
    · simp only [hq]
      rw [ih s k1 (k2 + 1), if_neg (by simp [hq])]
    · simp only [hq]
      rw [ih _ (k1 + 1) k2, if_pos (by rfl)]
      simp only [List.length_cons]
      omega

theorem pass2_fold_frame (cache : VariableCache) (ps : List PendingAlias) :
    ∀ (s : Store) (k1 k2 : ℕ) (m : String) (h : String × String),
      (∀ q ∈ ps,
        (cache.getVariable (q.aliasCollection ++ "/" ++ q.aliasPath)).isSome = true →
        ¬(q.col = h.1 ∧ q.varName = h.2 ∧ q.modeId = m)) →
      liveValueOf
        (ps.foldl
          (fun (acc : Store × ℕ × ℕ) pending =>
            match cache.getVariable (pending.aliasCollection ++ "/" ++ pending.aliasPath) with
            | some target =>
              (setValueForMode acc.1 pending.col pending.varName pending.modeId
                (.alias target.1 target.2), acc.2.1 + 1, acc.2.2)
            | none => (acc.1, acc.2.1, acc.2.2 + 1)) (s, k1, k2)).1 m h
      = liveValueOf s m h := by
  induction ps with
  | nil => intro s k1 k2 m h _; rfl
  | cons q rest ih =>
    intro s k1 k2 m h hfr
    simp only [List.foldl_cons]
    rcases hq : cache.getVariable (q.aliasCollection ++ "/" ++ q.aliasPath) with _ | target
    · exact ih s k1 (k2 + 1) m h (fun r hr => hfr r (List.mem_cons_of_mem q hr))
    · rw [ih _ (k1 + 1) k2 m h (fun r hr => hfr r (List.mem_cons_of_mem q hr))]
      have hq' := hfr q (List.mem_cons_self q rest) (by rw [hq]; rfl)
      exact liveValueOf_setValueForMode_frame s q.col q.varName q.modeId
        (.alias target.1 target.2) m h
        (fun hc => hq' ⟨hc.1.symm, hc.2.1.symm, hc.2.2.symm⟩)

end VSE

namespace VSE

/-- **C3** (amended): a pending alias whose target key misses the
rebuilt cache at Pass-2 time never throws (the pass is total): it leaves
the dependent variable's per-mode slot exactly as Pass 1 left it — the
raw placeholder parsed from the leaf's `$value` (never `$localValue`,
which the importer ignores; see the counterexample) — and the run's
failed-alias counter counts exactly the missing-target pendings, hence
is positive.  The frame hypothesis rules out another pending
(necessarily a different alias) being wired onto the same
(variable, mode) slot. -/
theorem runPass2_unresolved_degradation (store : Store) (ps : List PendingAlias)
    (p : PendingAlias) (hp : p ∈ ps)
    (hmiss : (VariableCache.rebuild store).getVariable
      (p.aliasCollection ++ "/" ++ p.aliasPath) = none)
    (hframe : ∀ q ∈ ps,
      ((VariableCache.rebuild store).getVariable
        (q.aliasCollection ++ "/" ++ q.aliasPath)).isSome = true →
      ¬(q.col = p.col ∧ q.varName = p.varName ∧ q.modeId = p.modeId)) :
    (runPass2 store ps).2.2
      = (ps.filter (fun q =>
          ((VariableCache.rebuild store).getVariable
            (q.aliasCollection ++ "/" ++ q.aliasPath)).isNone)).length
    ∧ 0 < (runPass2 store ps).2.2
    ∧ liveValueOf (runPass2 store ps).1 p.modeId (p.col, p.varName)
        = liveValueOf store p.modeId (p.col, p.varName) := by
  have he : runPass2 store ps
      = ps.foldl
          (fun (acc : Store × ℕ × ℕ) pending =>
            match (VariableCache.rebuild store).getVariable
              (pending.aliasCollection ++ "/" ++ pending.aliasPath) with
            | some target =>
              (setValueForMode acc.1 pending.col pending.varName pending.modeId
                (.alias target.1 target.2), acc.2.1 + 1, acc.2.2)
            | none => (acc.1, acc.2.1, acc.2.2 + 1)) (store, 0, 0) := rfl
  rw [he]
  have hcount := pass2_fold_failed (VariableCache.rebuild store) ps store 0 0
  refine ⟨by rw [hcount]; omega, ?_, ?_⟩
  · rw [hcount]
    have hmem : p ∈ ps.filter (fun q =>
        ((VariableCache.rebuild store).getVariable
          (q.aliasCollection ++ "/" ++ q.aliasPath)).isNone) :=
      List.mem_filter.mpr ⟨hp, by rw [hmiss]; rfl⟩
    have := List.length_pos.mpr (List.ne_nil_of_mem hmem)
    omega
  · exact pass2_fold_frame (VariableCache.rebuild store) ps store 0 0 p.modeId
      (p.col, p.varName) (fun q hq hs => hframe q hq hs)

/-- Witness for the amended C3 theorem: one pending alias targeting the
absent collection `D` over a store holding its Pass-1 placeholder. -/
theorem runPass2_unresolved_degradation_witness :
    (runPass2
        { collections := [{ name := "C", remote := false
                            modes := [{ modeId := "m", name := "M" }]
                            vars := [{ name := "x", resolvedType := "STRING", description := ""
                                       scopes := [], valuesByMode := [("m", .str "ph")] }] }]
          paintStyles := [], textStyles := [], effectStyles := [], gridStyles := [] }
        [{ col := "C", varName := "x", modeId := "m", aliasPath := "y", aliasCollection := "D"
           fallbackValue := { scopes := [], vtype := "string", descr := none, value := .s "ph"
                              collectionName := none, libraryRef := none, localValue := none } }]).2.2
      = 1
    ∧ liveValueOf
        (runPass2
          { collections := [{ name := "C", remote := false
                              modes := [{ modeId := "m", name := "M" }]
                              vars := [{ name := "x", resolvedType := "STRING", description := ""
                                         scopes := [], valuesByMode := [("m", .str "ph")] }] }]
            paintStyles := [], textStyles := [], effectStyles := [], gridStyles := [] }
          [{ col := "C", varName := "x", modeId := "m", aliasPath := "y", aliasCollection := "D"
             fallbackValue := { scopes := [], vtype := "string", descr := none, value := .s "ph"
                                collectionName := none, libraryRef := none,
                                localValue := none } }]).1 "m" ("C", "x")
      = some (.str "ph") := by
  have h := runPass2_unresolved_degradation
    { collections := [{ name := "C", remote := false
                        modes := [{ modeId := "m", name := "M" }]
                        vars := [{ name := "x", resolvedType := "STRING", description := ""
                                   scopes := [], valuesByMode := [("m", .str "ph")] }] }]
      paintStyles := [], textStyles := [], effectStyles := [], gridStyles := [] }
    [{ col := "C", varName := "x", modeId := "m", aliasPath := "y", aliasCollection := "D"
       fallbackValue := { scopes := [], vtype := "string", descr := none, value := .s "ph"
                          collectionName := none, libraryRef := none, localValue := none } }]
    { col := "C", varName := "x", modeId := "m", aliasPath := "y", aliasCollection := "D"
      fallbackValue := { scopes := [], vtype := "string", descr := none, value := .s "ph"
                         collectionName := none, libraryRef := none, localValue := none } }
    (by decide) (by decide) (by decide)
  refine ⟨?_, ?_⟩
  · rw [h.1]; decide
  · rw [h.2.2]; decide

/-- **C3** (counterexample to the claim as stated): the importer never
reads a leaf's `$localValue` — importing the same document with the
`$localValue` fallback present (red) and absent yields the identical
store; the failed alias leaves the variable holding the Pass-1 parse of
the alias string `$value` (black), not the red `$localValue` fallback
the claim promises. -/
theorem import_localValue_ignored_counterexample :
    (importVariables emptyStore
      [ .coll "C" { modes := [("M1", [("x", .leaf
          { scopes := [], vtype := "color", descr := none, value := .s "\x7bMissing.token\x7d",
            collectionName := none, libraryRef := none,
            localValue := some (.s "#ff0000") })])], originalName := none } ]
      { merge := false, overwrite := true, importStyles := false, clearFirst := false,
        customMerge := none, collectionBehaviors := [] }).store
      = (importVariables emptyStore
        [ .coll "C" { modes := [("M1", [("x", .leaf
            { scopes := [], vtype := "color", descr := none, value := .s "\x7bMissing.token\x7d",
              collectionName := none, libraryRef := none,
              localValue := none })])], originalName := none } ]
        { merge := false, overwrite := true, importStyles := false, clearFirst := false,
          customMerge := none, collectionBehaviors := [] }).store
    ∧ (importVariables emptyStore
        [ .coll "C" { modes := [("M1", [("x", .leaf
            { scopes := [], vtype := "color", descr := none, value := .s "\x7bMissing.token\x7d",
              collectionName := none, libraryRef := none,
              localValue := some (.s "#ff0000") })])], originalName := none } ]
        { merge := false, overwrite := true, importStyles := false, clearFirst := false,
          customMerge := none, collectionBehaviors := [] }).aliasesFailed = 1
    ∧ liveValueOf (importVariables emptyStore
        [ .coll "C" { modes := [("M1", [("x", .leaf
            { scopes := [], vtype := "color", descr := none, value := .s "\x7bMissing.token\x7d",
              collectionName := none, libraryRef := none,
              localValue := some (.s "#ff0000") })])], originalName := none } ]
        { merge := false, overwrite := true, importStyles := false, clearFirst := false,
          customMerge := none, collectionBehaviors := [] }).store "C#0" ("C", "x")
        = some (.color { r := 0, g := 0, b := 0, a := 1 })
    ∧ (VarValue.color { r := 0, g := 0, b := 0, a := 1 })
        ≠ .color { r := 1, g := 0, b := 0, a := 1 } := by
  refine ⟨by decide, by decide, by decide, by decide⟩

end VSE

namespace VSE

/-! ## Map-model and store-shape utilities for the import passes -/

theorem jget_append {α : Type} (l1 l2 : List (String × α)) (k : String) :
    jget (l1 ++ l2) k = (jget l1 k).or (jget l2 k) := by
  simp only [jget, List.find?_append]
  rcases hf : l1.find? (fun p => p.1 == k) with _ | p <;> rw [hf] <;> rfl

theorem jget_eq_none_iff {α : Type} (l : List (String × α)) (k : String) :
    jget l k = none ↔ ∀ kv ∈ l, kv.1 ≠ k := by
  simp only [jget, Option.map_eq_none', List.find?_eq_none, beq_iff_eq]

theorem filter_bne_of_not_mem {α : Type} (l : List (String × α)) (k : String)
    (h : ∀ kv ∈ l, kv.1 ≠ k) : l.filter (fun p => p.1 != k) = l := by
  induction l with
  | nil => rfl
  | cons kv rest ih =>
    rw [List.filter_cons, if_pos]
    · rw [ih (fun q hq => h q (List.mem_cons_of_mem kv hq))]
    · simp only [bne_iff_ne, ne_eq]
      exact h kv (List.mem_cons_self kv rest)

theorem jset_append_right_frame {α : Type} (l1 l2 : List (String × α)) (k : String) (v : α)
    (h : ∀ kv ∈ l2, kv.1 ≠ k) : jset (l1 ++ l2) k v = jset l1 k v ++ l2 := by
  simp only [jset, List.filter_append]
  rw [filter_bne_of_not_mem l2 k h]
  rfl

theorem string_append_left_cancel {a b c : String} (h : a ++ b = a ++ c) : b = c := by
  have hd : a.data ++ b.data = a.data ++ c.data := by
    rw [← String.data_append, ← String.data_append, h]
  exact String.ext (List.append_cancel_left hd)

theorem map_id_of_no_name (cn : String) (f : Collection → Collection) (l : List Collection)
    (h : ∀ col ∈ l, col.name ≠ cn) :
    l.map (fun c => if c.name == cn then f c else c) = l := by
  induction l with
  | nil => rfl
  | cons col rest ih =>
    simp only [List.map_cons]
    rw [if_neg (by simp [beq_iff_eq]; exact h col (List.mem_cons_self col rest)),
      ih (fun q hq => h q (List.mem_cons_of_mem col hq))]

theorem updateCollection_append_shape (base : Store) (c : Collection) (cn : String)
    (f : Collection → Collection) (hbase : ∀ col ∈ base.collections, col.name ≠ cn)
    (hc : c.name = cn) :
    updateCollection { base with collections := base.collections ++ [c] } cn f
      = { base with collections := base.collections ++ [f c] } := by
  simp only [updateCollection, List.map_append]
  rw [map_id_of_no_name cn f base.collections hbase]
  simp [hc]

theorem findCollection_append_last (base : Store) (c : Collection) (cn : String)
    (hbase : ∀ col ∈ base.collections, col.name ≠ cn) (hc : c.name = cn) :
    findCollection { base with collections := base.collections ++ [c] } cn = some c := by
  simp only [findCollection, List.find?_append]
  have h1 : base.collections.find? (fun col => col.name == cn) = none := by
    rw [List.find?_eq_none]
    intro col hcol
    simp [beq_iff_eq]
    exact hbase col hcol
  rw [h1]
  simp [List.find?, hc]

theorem findCollection_append_other (base : Store) (c : Collection) (cn nm : String)
    (hc : c.name = cn) (hne : nm ≠ cn) :
    findCollection { base with collections := base.collections ++ [c] } nm
      = findCollection base nm := by
  simp only [findCollection, List.find?_append]
  rcases hfind : base.collections.find? (fun col => col.name == nm) with _ | col <;> rw [hfind]
  · simp only [Option.none_or, List.find?]
    have hb : (c.name == nm) = false := by
      simp [beq_iff_eq, hc]
      exact fun e => hne e.symm
    rw [hb]
  · rfl

theorem derefCollection_append_last (base : Store) (c : Collection) (cn : String)
    (hbase : ∀ col ∈ base.collections, col.name ≠ cn) (hc : c.name = cn) :
    derefCollection { base with collections := base.collections ++ [c] } cn = c := by
  simp only [derefCollection]
  rw [findCollection_append_last base c cn hbase hc]
  rfl

/-- `rawValueSet` over an ambient store reduces to the entry's own
collection when the pending points into it. -/
theorem rawValueSet_append_iff (base : Store) (c : Collection) (cn : String)
    (hbase : ∀ col ∈ base.collections, col.name ≠ cn) (hc : c.name = cn)
    (p : PendingAlias) (hp : p.col = cn) :
    (rawValueSet { base with collections := base.collections ++ [c] } p ↔
      rawValueSet (singleStore c) p) := by
  have h1 : findCollection { base with collections := base.collections ++ [c] } p.col
      = some c := by
    rw [hp]; exact findCollection_append_last base c cn hbase hc
  have h2 : findCollection (singleStore c) p.col = some c := by
    rw [hp]
    simp [singleStore, findCollection, List.find?, hc]
  constructor
  · rintro ⟨w, hw, hraw⟩
    refine ⟨w, ?_, hraw⟩
    simp only [liveValueOf, findVariable] at hw ⊢
    rw [h1] at hw
    rw [h2]
    exact hw
  · rintro ⟨w, hw, hraw⟩
    refine ⟨w, ?_, hraw⟩
    simp only [liveValueOf, findVariable] at hw ⊢
    rw [h2] at hw
    rw [h1]
    exact hw

end VSE

namespace VSE

/-! ## Entry-local shape of the Pass-1 write operations -/

theorem any_name_map_pres (l : List Variable) (g : Variable → Variable)
    (hg : ∀ vr, (g vr).name = vr.name) (n : String) :
    (l.map g).any (fun w => w.name == n) = l.any (fun w => w.name == n) := by
  induction l with
  | nil => rfl
  | cons vr rest ih =>
    simp only [List.map_cons, List.any_cons, hg, ih]

theorem findVariable_single (c : Collection) (cn vn : String) (hc : c.name = cn) :
    findVariable (singleStore c) cn vn = c.vars.find? (fun w => w.name == vn) := by
  simp [findVariable, singleStore, findCollection, List.find?, hc]

theorem findVariable_single_isSome (c : Collection) (cn vn : String) (hc : c.name = cn)
    (h : c.vars.any (fun w => w.name == vn) = true) :
    (findVariable (singleStore c) cn vn).isSome = true := by
  rw [findVariable_single c cn vn hc, List.find?_isSome]
  exact List.any_eq_true.mp h

theorem placeholderValue_not_alias (value : LeafValue) (w : VarValue)
    (h : placeholderValue value = some w) : isVariableAlias w = false := by
  simp only [placeholderValue] at h
  by_cases hvt : (value.vtype == "color") = true
  · rw [if_pos hvt] at h
    cases h
    rfl
  · rw [if_neg hvt] at h
    rcases hval : value.value with v | v | v | v <;> rw [hval] at h <;> simp at h
    · rw [← h]; rfl
    · rw [← h]; rfl
    · rw [← h]; rfl

theorem setValueForMode_single (c : Collection) (cn vn mid : String) (v : VarValue)
    (hc : c.name = cn) :
    setValueForMode (singleStore c) cn vn mid v
      = singleStore { c with vars := c.vars.map (fun vr =>
          if vr.name == vn then { vr with valuesByMode := jset vr.valuesByMode mid v }
          else vr) } := by
  simp [setValueForMode, updVar, updateCollection, singleStore, hc]

theorem setValueForMode_append_shape (base : Store) (c : Collection) (cn : String)
    (hbase : ∀ col ∈ base.collections, col.name ≠ cn) (hc : c.name = cn)
    (vn mid : String) (v : VarValue) :
    setValueForMode { base with collections := base.collections ++ [c] } cn vn mid v
      = { base with collections := base.collections ++ [{ c with vars := c.vars.map (fun vr =>
          if vr.name == vn then { vr with valuesByMode := jset vr.valuesByMode mid v }
          else vr) }] } := by
  simp only [setValueForMode, updVar]
  rw [updateCollection_append_shape base c cn _ hbase hc]

/-- `setRawValue` through a handle into the entry's own collection:
its whole effect is a transformation of that collection, uniform in the
ambient store; the written slot holds the leaf's placeholder. -/
theorem setRawValue_shape (c : Collection) (cn : String) (hc : c.name = cn)
    (vn mid : String) (value : LeafValue) :
    ∃ c' : Collection,
      (∀ base : Store, (∀ col ∈ base.collections, col.name ≠ cn) →
        setRawValue { base with collections := base.collections ++ [c] } cn vn mid value
          = { base with collections := base.collections ++ [c'] })
      ∧ setRawValue (singleStore c) cn vn mid value = singleStore c'
      ∧ c'.name = cn ∧ c'.remote = c.remote ∧ c'.modes = c.modes
      ∧ (∀ n, c.vars.any (fun w => w.name == n) = true →
          c'.vars.any (fun w => w.name == n) = true)
      ∧ (∀ q, rawValueSet (singleStore c) q → rawValueSet (singleStore c') q)
      ∧ (∀ w, placeholderValue value = some w →
          c.vars.any (fun x => x.name == vn) = true →
          liveValueOf (singleStore c') mid (cn, vn) = some w) := by
  by_cases hvt : (value.vtype == "color") = true
  · refine
      ⟨{ c with
           vars := c.vars.map (fun vr =>
             if vr.name == vn then
               { vr with
                   valuesByMode := jset vr.valuesByMode mid
                     (VarValue.color
                       (let rgba := ColorParser.parse value.value
                        if rgba.a < 1 then { rgba with a := MathUtils.round2 rgba.a }
                        else rgba)) }
             else vr) },
       ?_, ?_, hc, rfl, rfl, ?_, ?_, ?_⟩
    · intro base hbase
      simp only [setRawValue, if_pos hvt]
      exact setValueForMode_append_shape base c cn hbase hc vn mid _
    · simp only [setRawValue, if_pos hvt]
      exact setValueForMode_single c cn vn mid _ hc
    · intro n h
      rw [any_name_map_pres]
      · exact h
      · intro vr
        by_cases h2 : vr.name = vn <;> simp [h2]
    · intro q hq
      rw [← setValueForMode_single c cn vn mid _ hc]
      exact rawValueSet_setValueForMode _ cn vn mid _ q rfl hq
    · intro w hw hvar
      simp only [placeholderValue, if_pos hvt] at hw
      rw [← setValueForMode_single c cn vn mid _ hc,
        liveValueOf_setValueForMode,
        if_pos ⟨rfl, rfl, rfl, findVariable_single_isSome c cn vn hc hvar⟩, ← hw]
  · rcases hval : value.value with v | v | v | v
    · refine
        ⟨{ c with
             vars := c.vars.map (fun vr =>
               if vr.name == vn then
                 { vr with valuesByMode := jset vr.valuesByMode mid (VarValue.str v) }
               else vr) },
         ?_, ?_, hc, rfl, rfl, ?_, ?_, ?_⟩
      · intro base hbase
        simp only [setRawValue, if_neg hvt, hval]
        exact setValueForMode_append_shape base c cn hbase hc vn mid _
      · simp only [setRawValue, if_neg hvt, hval]
        exact setValueForMode_single c cn vn mid _ hc
      · intro n h
        rw [any_name_map_pres]
        · exact h
        · intro vr
          by_cases h2 : vr.name = vn <;> simp [h2]
      · intro q hq
        rw [← setValueForMode_single c cn vn mid _ hc]
        exact rawValueSet_setValueForMode _ cn vn mid _ q rfl hq
      · intro w hw hvar
        simp only [placeholderValue, if_neg hvt, hval] at hw
        rw [← setValueForMode_single c cn vn mid _ hc,
          liveValueOf_setValueForMode,
          if_pos ⟨rfl, rfl, rfl, findVariable_single_isSome c cn vn hc hvar⟩, ← hw]
    · refine
        ⟨{ c with
             vars := c.vars.map (fun vr =>
               if vr.name == vn then
                 { vr with valuesByMode := jset vr.valuesByMode mid (VarValue.num v) }
               else vr) },
         ?_, ?_, hc, rfl, rfl, ?_, ?_, ?_⟩
      · intro base hbase
        simp only [setRawValue, if_neg hvt, hval]
        exact setValueForMode_append_shape base c cn hbase hc vn mid _
      · simp only [setRawValue, if_neg hvt, hval]
        exact setValueForMode_single c cn vn mid _ hc
      · intro n h
        rw [any_name_map_pres]
        · exact h
        · intro vr
          by_cases h2 : vr.name = vn <;> simp [h2]
      · intro q hq
        rw [← setValueForMode_single c cn vn mid _ hc]
        exact rawValueSet_setValueForMode _ cn vn mid _ q rfl hq
      · intro w hw hvar
        simp only [placeholderValue, if_neg hvt, hval] at hw
        rw [← setValueForMode_single c cn vn mid _ hc,
          liveValueOf_setValueForMode,
          if_pos ⟨rfl, rfl, rfl, findVariable_single_isSome c cn vn hc hvar⟩, ← hw]
    · refine
        ⟨{ c with
             vars := c.vars.map (fun vr =>
               if vr.name == vn then
                 { vr with valuesByMode := jset vr.valuesByMode mid (VarValue.boolean v) }
               else vr) },
         ?_, ?_, hc, rfl, rfl, ?_, ?_, ?_⟩
      · intro base hbase
        simp only [setRawValue, if_neg hvt, hval]
        exact setValueForMode_append_shape base c cn hbase hc vn mid _
      · simp only [setRawValue, if_neg hvt, hval]
        exact setValueForMode_single c cn vn mid _ hc
      · intro n h
        rw [any_name_map_pres]
        · exact h
        · intro vr
          by_cases h2 : vr.name = vn <;> simp [h2]
      · intro q hq
        rw [← setValueForMode_single c cn vn mid _ hc]
        exact rawValueSet_setValueForMode _ cn vn mid _ q rfl hq
      · intro w hw hvar
        simp only [placeholderValue, if_neg hvt, hval] at hw
        rw [← setValueForMode_single c cn vn mid _ hc,
          liveValueOf_setValueForMode,
          if_pos ⟨rfl, rfl, rfl, findVariable_single_isSome c cn vn hc hvar⟩, ← hw]
    · refine ⟨c, ?_, ?_, hc, rfl, rfl, fun n h => h, fun q hq => hq, ?_⟩
      · intro base hbase
        simp only [setRawValue, if_neg hvt, hval]
      · simp only [setRawValue, if_neg hvt, hval]
      · intro w hw hvar
        simp only [placeholderValue, if_neg hvt, hval] at hw
        exact absurd hw (by simp)

end VSE

namespace VSE

/-- One step of the Pass-1 inner mode loop is an entry-local collection
transformation, uniform in the ambient store; every pending it enqueues
targets the entry's own collection and already holds its placeholder. -/
theorem processModeValue_shape (handle : String × String) (cn path : String)
    (modes : List (String × List (String × NestedValue)))
    (modeMap : List (String × String)) (modeName : String)
    (c : Collection) (hc : c.name = cn) (hh : handle.1 = cn)
    (hvar : c.vars.any (fun w => w.name == handle.2) = true) :
    ∃ (c' : Collection) (δ : List PendingAlias),
      c'.name = cn ∧ c'.remote = c.remote ∧ c'.modes = c.modes
      ∧ (∀ n, c.vars.any (fun w => w.name == n) = true →
          c'.vars.any (fun w => w.name == n) = true)
      ∧ (∀ q, rawValueSet (singleStore c) q → rawValueSet (singleStore c') q)
      ∧ (∀ q ∈ δ, q.col = cn ∧ rawValueSet (singleStore c') q)
      ∧ ∀ (base : Store) (ps : List PendingAlias),
          (∀ col ∈ base.collections, col.name ≠ cn) →
          processModeValue handle cn path modes modeMap
            ({ base with collections := base.collections ++ [c] }, ps) modeName
            = ({ base with collections := base.collections ++ [c'] }, ps ++ δ) := by
  rcases hmm : jget modeMap modeName with _ | modeId
  · refine ⟨c, [], hc, rfl, rfl, fun n h => h, fun q h => h, by simp, ?_⟩
    intro base ps hbase
    simp only [processModeValue, hmm, List.append_nil]
  · rcases hgv : getValueAtPath ((jget modes modeName).getD []) path with _ | mv
    · refine ⟨c, [], hc, rfl, rfl, fun n h => h, fun q h => h, by simp, ?_⟩
      intro base ps hbase
      simp only [processModeValue, hmm, hgv, List.append_nil]
    · obtain ⟨c', hA, hB, hC, hD, hE, hF, hG, hH⟩ :=
        setRawValue_shape c cn hc handle.2 modeId mv
      by_cases hia : isAliasValue mv.value = true
      · rcases hval : mv.value with str | q | b | cb
        rotate_left
        · rw [hval] at hia; simp [isAliasValue] at hia
        · rw [hval] at hia; simp [isAliasValue] at hia
        · rw [hval] at hia; simp [isAliasValue] at hia
        · have hpv : ∃ w, placeholderValue mv = some w := by
            simp only [placeholderValue, hval]
            by_cases h : (mv.vtype == "color") = true
            · rw [if_pos h]; exact ⟨_, rfl⟩
            · rw [if_neg h]; exact ⟨_, rfl⟩
          obtain ⟨w, hw⟩ := hpv
          refine ⟨c',
            [{ col := handle.1, varName := handle.2, modeId := modeId
               aliasPath := aliasPathOf str
               aliasCollection := strOr mv.collectionName cn
               fallbackValue := mv }], hC, hD, hE, hF, hG, ?_, ?_⟩
          · intro q hq
            rw [List.mem_singleton] at hq
            subst hq
            refine ⟨hh, ?_⟩
            refine ⟨w, ?_, placeholderValue_not_alias mv w hw⟩
            have := hH w hw hvar
            simpa [hh] using this
          · intro base ps hbase
            simp only [processModeValue, hmm, hgv, hval, isAliasValue, jsStartsWith] at *
            rw [if_pos hia]
            rw [hh, hA base hbase]
      · refine ⟨c', [], hC, hD, hE, hF, hG, by simp, ?_⟩
        intro base ps hbase
        simp only [processModeValue, hmm, hgv]
        rw [if_neg hia]
        rw [hh, hA base hbase, List.append_nil]

end VSE

namespace VSE

/-- The whole Pass-1 mode loop of one variable, as an entry-local
collection transformation. -/
theorem processModeValue_fold_shape (handle : String × String) (cn path : String)
    (modes : List (String × List (String × NestedValue)))
    (modeMap : List (String × String)) (hh : handle.1 = cn) :
    ∀ (mns : List String) (c : Collection), c.name = cn →
      c.vars.any (fun w => w.name == handle.2) = true →
      ∃ (c' : Collection) (δ : List PendingAlias),
        c'.name = cn ∧ c'.remote = c.remote ∧ c'.modes = c.modes
        ∧ (∀ n, c.vars.any (fun w => w.name == n) = true →
            c'.vars.any (fun w => w.name == n) = true)
        ∧ (∀ q, rawValueSet (singleStore c) q → rawValueSet (singleStore c') q)
        ∧ (∀ q ∈ δ, q.col = cn ∧ rawValueSet (singleStore c') q)
        ∧ ∀ (base : Store) (ps : List PendingAlias),
            (∀ col ∈ base.collections, col.name ≠ cn) →
            mns.foldl (processModeValue handle cn path modes modeMap)
              ({ base with collections := base.collections ++ [c] }, ps)
              = ({ base with collections := base.collections ++ [c'] }, ps ++ δ) := by
  intro mns
  induction mns with
  | nil =>
    intro c hc hvar
    exact ⟨c, [], hc, rfl, rfl, fun n h => h, fun q h => h, by simp,
      fun base ps hbase => by simp⟩
  | cons m rest ih =>
    intro c hc hvar
    obtain ⟨c1, δ1, hc1, hrem1, hmod1, hany1, hmono1, hpend1, heq1⟩ :=
      processModeValue_shape handle cn path modes modeMap m c hc hh hvar
    obtain ⟨c2, δ2, hc2, hrem2, hmod2, hany2, hmono2, hpend2, heq2⟩ :=
      ih c1 hc1 (hany1 handle.2 hvar)
    refine ⟨c2, δ1 ++ δ2, hc2, hrem2.trans hrem1, hmod2.trans hmod1,
      fun n h => hany2 n (hany1 n h), fun q h => hmono2 q (hmono1 q h), ?_, ?_⟩
    · intro q hq
      rcases List.mem_append.mp hq with h1 | h2
      · obtain ⟨hcol, hrv⟩ := hpend1 q h1
        exact ⟨hcol, hmono2 q hrv⟩
      · exact hpend2 q h2
    · intro base ps hbase
      simp only [List.foldl_cons]
      rw [heq1 base ps hbase, heq2 base (ps ++ δ1) hbase, List.append_assoc]

end VSE

namespace VSE

/-! ## Entry-local shape of variable creation and metadata writes -/

theorem jget_not_prefixed_none {α : Type} (l : List (String × α)) (cn fp : String)
    (hl : ∀ kv ∈ l, jsStartsWith kv.1 (cn ++ "/") = false)
    (hfp : jsStartsWith fp (cn ++ "/") = true) : jget l fp = none := by
  rw [jget_eq_none_iff]
  intro kv hkv he
  rw [← he] at hfp
  rw [hl kv hkv] at hfp
  exact Bool.false_ne_true hfp

theorem updateCollection_single (c : Collection) (cn : String) (f : Collection → Collection)
    (hc : c.name = cn) : updateCollection (singleStore c) cn f = singleStore (f c) := by
  simp [updateCollection, singleStore, hc]

theorem liveValueOf_updVar_valuesPres (s : Store) (cn vn : String) (f : Variable → Variable)
    (hf : ∀ vr, (f vr).name = vr.name ∧ (f vr).valuesByMode = vr.valuesByMode)
    (m : String) (h : String × String) :
    liveValueOf (updVar s cn vn f) m h = liveValueOf s m h := by
  simp only [liveValueOf]
  rw [findVariable_updVar s cn vn f (fun vr => (hf vr).1) h.1 h.2]
  by_cases hcv : h.1 = cn ∧ h.2 = vn
  · rw [if_pos hcv, hcv.1, hcv.2]
    rcases hfv : findVariable s cn vn with _ | vr
    · rfl
    · simp [(hf vr).2]
  · rw [if_neg hcv]

theorem rawValueSet_updVar (s : Store) (cn vn : String) (f : Variable → Variable)
    (hf : ∀ vr, (f vr).name = vr.name ∧ (f vr).valuesByMode = vr.valuesByMode)
    (q : PendingAlias) (hq : rawValueSet s q) : rawValueSet (updVar s cn vn f) q := by
  rcases hq with ⟨w, hw, hraw⟩
  refine ⟨w, ?_, hraw⟩
  rw [liveValueOf_updVar_valuesPres s cn vn f hf]
  exact hw

theorem any_createVariableIn_self (c : Collection) (path t : String) :
    (createVariableIn c path t).vars.any (fun w => w.name == path) = true := by
  simp [createVariableIn]

theorem any_createVariableIn_mono (c : Collection) (path t n : String)
    (h : c.vars.any (fun w => w.name == n) = true) :
    (createVariableIn c path t).vars.any (fun w => w.name == n) = true := by
  simp [createVariableIn]
  rcases List.any_eq_true.mp h with ⟨w, hw, hwn⟩
  exact Or.inl ⟨w, hw, by simpa using hwn⟩

theorem rawValueSet_single_createVariableIn (c : Collection) (cn path t : String)
    (hc : c.name = cn) (q : PendingAlias) (hq : rawValueSet (singleStore c) q) :
    rawValueSet (singleStore (createVariableIn c path t)) q := by
  rw [show singleStore (createVariableIn c path t)
      = updateCollection (singleStore c) cn (fun col => createVariableIn col path t) from
    (updateCollection_single c cn (fun col => createVariableIn col path t) hc).symm]
  exact rawValueSet_createVariableIn (singleStore c) cn path t q hq

end VSE

namespace VSE

/-- A per-variable metadata write (description or scopes) through the
entry's collection, as an entry-local collection transformation. -/
theorem updVarMap_shape (c : Collection) (cn vn : String) (f : Variable → Variable)
    (hf : ∀ vr, (f vr).name = vr.name ∧ (f vr).valuesByMode = vr.valuesByMode)
    (hc : c.name = cn) :
    ∃ c1 : Collection,
      c1.name = cn ∧ c1.remote = c.remote ∧ c1.modes = c.modes
      ∧ (∀ n, c.vars.any (fun w => w.name == n) = true →
          c1.vars.any (fun w => w.name == n) = true)
      ∧ (∀ q, rawValueSet (singleStore c) q → rawValueSet (singleStore c1) q)
      ∧ ∀ base : Store, (∀ col ∈ base.collections, col.name ≠ cn) →
          updVar { base with collections := base.collections ++ [c] } cn vn f
            = { base with collections := base.collections ++ [c1] } := by
  refine
    ⟨{ c with
         vars := c.vars.map (fun vr => if vr.name == vn then f vr else vr) },
     hc, rfl, rfl, ?_, ?_, ?_⟩
  · intro n h
    rw [any_name_map_pres]
    · exact h
    · intro vr
      by_cases h2 : vr.name = vn <;> simp [h2, (hf vr).1]
  · intro q hq
    have hs : updVar (singleStore c) cn vn f
        = singleStore
            { c with
                vars := c.vars.map (fun vr => if vr.name == vn then f vr else vr) } := by
      simp only [updVar]
      rw [updateCollection_single c cn _ hc]
    rw [← hs]
    exact rawValueSet_updVar _ cn vn f hf q hq
  · intro base hbase
    simp only [updVar]
    exact updateCollection_append_shape base c cn _ hbase hc

/-- The description/scopes writes plus the mode loop of one resolved
variable handle, as one entry-local collection transformation. -/
theorem varPipeline_shape (cn path : String) (value : LeafValue)
    (modes : List (String × List (String × NestedValue)))
    (modeNames : List String) (modeMap : List (String × String))
    (c : Collection) (hc : c.name = cn)
    (hvar : c.vars.any (fun w => w.name == path) = true) :
    ∃ (c' : Collection) (δ : List PendingAlias),
      c'.name = cn ∧ c'.remote = c.remote ∧ c'.modes = c.modes
      ∧ (∀ n, c.vars.any (fun w => w.name == n) = true →
          c'.vars.any (fun w => w.name == n) = true)
      ∧ (∀ q, rawValueSet (singleStore c) q → rawValueSet (singleStore c') q)
      ∧ (∀ q ∈ δ, q.col = cn ∧ rawValueSet (singleStore c') q)
      ∧ ∀ (base : Store) (ps : List PendingAlias),
          (∀ col ∈ base.collections, col.name ≠ cn) →
          modeNames.foldl (processModeValue (cn, path) cn path modes modeMap)
            (updVar
              (if ((value.descr.getD "") != "") = true then
                updVar { base with collections := base.collections ++ [c] } cn path
                  (fun vr => { vr with description := value.descr.getD "" })
              else { base with collections := base.collections ++ [c] })
              cn path (fun vr => { vr with scopes := TypeMapper.arrayToScopes value.scopes }),
             ps)
          = ({ base with collections := base.collections ++ [c'] }, ps ++ δ) := by
  by_cases hd : ((value.descr.getD "") != "") = true
  · obtain ⟨c1, hc1, hrem1, hmod1, hany1, hmono1, heq1⟩ :=
      updVarMap_shape c cn path (fun vr => { vr with description := value.descr.getD "" })
        (fun _ => ⟨rfl, rfl⟩) hc
    obtain ⟨c2, hc2, hrem2, hmod2, hany2, hmono2, heq2⟩ :=
      updVarMap_shape c1 cn path
        (fun vr => { vr with scopes := TypeMapper.arrayToScopes value.scopes })
        (fun _ => ⟨rfl, rfl⟩) hc1
    obtain ⟨c3, δ, hc3, hrem3, hmod3, hany3, hmono3, hpend3, heq3⟩ :=
      processModeValue_fold_shape (cn, path) cn path modes modeMap rfl modeNames c2 hc2
        (hany2 path (hany1 path hvar))
    refine ⟨c3, δ, hc3, hrem3.trans (hrem2.trans hrem1), hmod3.trans (hmod2.trans hmod1),
      fun n h => hany3 n (hany2 n (hany1 n h)),
      fun q hq => hmono3 q (hmono2 q (hmono1 q hq)), hpend3, ?_⟩
    intro base ps hbase
    rw [if_pos hd, heq1 base hbase, heq2 base hbase, heq3 base ps hbase]
  · obtain ⟨c2, hc2, hrem2, hmod2, hany2, hmono2, heq2⟩ :=
      updVarMap_shape c cn path
        (fun vr => { vr with scopes := TypeMapper.arrayToScopes value.scopes })
        (fun _ => ⟨rfl, rfl⟩) hc
    obtain ⟨c3, δ, hc3, hrem3, hmod3, hany3, hmono3, hpend3, heq3⟩ :=
      processModeValue_fold_shape (cn, path) cn path modes modeMap rfl modeNames c2 hc2
        (hany2 path hvar)
    refine ⟨c3, δ, hc3, hrem3.trans hrem2, hmod3.trans hmod2,
      fun n h => hany3 n (hany2 n h),
      fun q hq => hmono3 q (hmono2 q hq), hpend3, ?_⟩
    intro base ps hbase
    rw [if_neg hd, heq2 base hbase, heq3 base ps hbase]

end VSE

namespace VSE

/-- One `(path, value)` pair of Pass 1: an entry-local transformation of
the collection and of the cache's entry-owned keys, uniform in the
ambient store, foreign cache entries and counter values. -/
theorem processVariablePath_shape (options : ImportOptions) (cn : String)
    (modes : List (String × List (String × NestedValue)))
    (modeNames : List String) (modeMap : List (String × String))
    (pv : String × LeafValue) (c : Collection) (ν : List (String × (String × String)))
    (hc : c.name = cn)
    (hν : ∀ kv ∈ ν, ∃ p, kv.1 = cn ++ "/" ++ p ∧ kv.2 = (cn, p) ∧
      c.vars.any (fun w => w.name == p) = true) :
    ∃ (c' : Collection) (ν' : List (String × (String × String))) (δ : List PendingAlias)
      (dcr dup dsk : ℕ),
      c'.name = cn ∧ c'.remote = c.remote ∧ c'.modes = c.modes
      ∧ (∀ n, c.vars.any (fun w => w.name == n) = true →
          c'.vars.any (fun w => w.name == n) = true)
      ∧ (∀ q, rawValueSet (singleStore c) q → rawValueSet (singleStore c') q)
      ∧ (∀ kv ∈ ν', ∃ p, kv.1 = cn ++ "/" ++ p ∧ kv.2 = (cn, p) ∧
          c'.vars.any (fun w => w.name == p) = true)
      ∧ (∀ q ∈ δ, q.col = cn ∧ rawValueSet (singleStore c') q)
      ∧ ∀ (base : Store) (CM : List (String × String))
          (baseVM : List (String × (String × String))) (ps : List PendingAlias)
          (cr up sk : ℕ),
          (∀ col ∈ base.collections, col.name ≠ cn) →
          (∀ kv ∈ baseVM, jsStartsWith kv.1 (cn ++ "/") = false) →
          processVariablePath options cn modes modeNames modeMap
            ({ base with collections := base.collections ++ [c] },
             { collectionMap := CM, variableMap := ν ++ baseVM }, cr, up, sk, ps) pv
            = ({ base with collections := base.collections ++ [c'] },
               { collectionMap := CM, variableMap := ν' ++ baseVM },
               cr + dcr, up + dup, sk + dsk, ps ++ δ) := by
  have hfp : jsStartsWith (cn ++ "/" ++ pv.1) (cn ++ "/") = true := slashKey_prefix cn pv.1
  have hbaseNe : ∀ (baseVM : List (String × (String × String))),
      (∀ kv ∈ baseVM, jsStartsWith kv.1 (cn ++ "/") = false) →
      ∀ kv ∈ baseVM, kv.1 ≠ (cn ++ "/" ++ pv.1) := by
    intro baseVM hb kv hkv he
    rw [← he] at hfp
    rw [hb kv hkv] at hfp
    exact Bool.false_ne_true hfp
  rcases hlook : jget ν (cn ++ "/" ++ pv.1) with _ | h
  · -- cache miss: the variable is created in the entry's collection
    obtain ⟨c', δ, hc', hrem, hmod, hany, hmono, hpend, heq⟩ :=
      varPipeline_shape cn pv.1 pv.2 modes modeNames modeMap
        (createVariableIn c pv.1 (TypeMapper.toFigmaType pv.2.vtype)) hc
        (any_createVariableIn_self c pv.1 _)
    refine ⟨c', jset ν (cn ++ "/" ++ pv.1) (cn, pv.1), δ, 1, 0, 0,
      hc', hrem, hmod,
      fun n h => hany n (any_createVariableIn_mono c pv.1 _ n h),
      fun q hq => hmono q (rawValueSet_single_createVariableIn c cn pv.1 _ hc q hq),
      ?_, hpend, ?_⟩
    · intro kv hkv
      simp only [jset] at hkv
      rcases List.mem_cons.mp hkv with hkv | hkv
      · subst hkv
        exact ⟨pv.1, rfl, rfl, hany pv.1 (any_createVariableIn_self c pv.1 _)⟩
      · obtain ⟨p, hkey, hh, hp⟩ := hν kv (List.mem_of_mem_filter hkv)
        exact ⟨p, hkey, hh, hany p (any_createVariableIn_mono c pv.1 _ p hp)⟩
    · intro base CM baseVM ps cr up sk hbase hbaseVM
      have hget : VariableCache.getVariable
          { collectionMap := CM, variableMap := ν ++ baseVM } (cn ++ "/" ++ pv.1) = none := by
        simp only [VariableCache.getVariable]
        rw [jget_append, hlook, Option.none_or]
        exact jget_not_prefixed_none baseVM cn _ hbaseVM hfp
      simp only [processVariablePath, hget]
      rw [updateCollection_append_shape base c cn _ hbase hc]
      rw [heq base ps hbase]
      simp only [VariableCache.setVariable]
      rw [jset_append_right_frame ν baseVM (cn ++ "/" ++ pv.1) (cn, pv.1)
        (hbaseNe baseVM hbaseVM)]
      rfl
  · -- cache hit: the handle is the entry's own earlier registration
    have hmem := jget_mem hlook
    obtain ⟨p, hkey, hh, hpany⟩ := hν (cn ++ "/" ++ pv.1, h) hmem
    have hp1 : pv.1 = p := string_append_left_cancel hkey
    subst hp1
    have hh' : h = (cn, pv.1) := hh
    by_cases hov : options.overwrite = true
    · obtain ⟨c', δ, hc', hrem, hmod, hany, hmono, hpend, heq⟩ :=
        varPipeline_shape cn pv.1 pv.2 modes modeNames modeMap c hc hpany
      refine ⟨c', jset ν (cn ++ "/" ++ pv.1) (cn, pv.1), δ, 0, 1, 0,
        hc', hrem, hmod, hany, hmono, ?_, hpend, ?_⟩
      · intro kv hkv
        simp only [jset] at hkv
        rcases List.mem_cons.mp hkv with hkv | hkv
        · subst hkv
          exact ⟨pv.1, rfl, rfl, hany pv.1 hpany⟩
        · obtain ⟨p2, hkey2, hh2, hp2⟩ := hν kv (List.mem_of_mem_filter hkv)
          exact ⟨p2, hkey2, hh2, hany p2 hp2⟩
      · intro base CM baseVM ps cr up sk hbase hbaseVM
        have hget : VariableCache.getVariable
            { collectionMap := CM, variableMap := ν ++ baseVM } (cn ++ "/" ++ pv.1)
            = some (cn, pv.1) := by
          simp only [VariableCache.getVariable]
          rw [jget_append, hlook, Option.or_some]
          rw [hh']
        simp only [processVariablePath, hget, hov, Bool.not_true, Bool.false_eq_true,
          if_false]
        rw [heq base ps hbase]
        simp only [VariableCache.setVariable]
        rw [jset_append_right_frame ν baseVM (cn ++ "/" ++ pv.1) (cn, pv.1)
          (hbaseNe baseVM hbaseVM)]
        rfl
    · refine ⟨c, ν, [], 0, 0, 1, hc, rfl, rfl, fun n h => h, fun q hq => hq, hν,
        by simp, ?_⟩
      intro base CM baseVM ps cr up sk hbase hbaseVM
      have hget : VariableCache.getVariable
          { collectionMap := CM, variableMap := ν ++ baseVM } (cn ++ "/" ++ pv.1)
          = some (cn, pv.1) := by
        simp only [VariableCache.getVariable]
        rw [jget_append, hlook, Option.or_some]
        rw [hh']
      have hov' : options.overwrite = false := by
        cases hoo : options.overwrite
        · rfl
        · exact absurd hoo hov
      simp only [processVariablePath, hget, hov', Bool.not_false, if_true,
        List.append_nil]
      rfl

end VSE

namespace VSE

/-- The whole Pass-1 variable loop of one entry: an entry-local
transformation of the collection and the cache's entry-owned keys. -/
theorem processVariablePath_fold_shape (options : ImportOptions) (cn : String)
    (modes : List (String × List (String × NestedValue)))
    (modeNames : List String) (modeMap : List (String × String)) :
    ∀ (pvs : List (String × LeafValue)) (c : Collection)
      (ν : List (String × (String × String))),
      c.name = cn →
      (∀ kv ∈ ν, ∃ p, kv.1 = cn ++ "/" ++ p ∧ kv.2 = (cn, p) ∧
        c.vars.any (fun w => w.name == p) = true) →
      ∃ (c' : Collection) (ν' : List (String × (String × String))) (δ : List PendingAlias)
        (dcr dup dsk : ℕ),
        c'.name = cn ∧ c'.remote = c.remote ∧ c'.modes = c.modes
        ∧ (∀ n, c.vars.any (fun w => w.name == n) = true →
            c'.vars.any (fun w => w.name == n) = true)
        ∧ (∀ q, rawValueSet (singleStore c) q → rawValueSet (singleStore c') q)
        ∧ (∀ kv ∈ ν', ∃ p, kv.1 = cn ++ "/" ++ p ∧ kv.2 = (cn, p) ∧
            c'.vars.any (fun w => w.name == p) = true)
        ∧ (∀ q ∈ δ, q.col = cn ∧ rawValueSet (singleStore c') q)
        ∧ ∀ (base : Store) (CM : List (String × String))
            (baseVM : List (String × (String × String))) (ps : List PendingAlias)
            (cr up sk : ℕ),
            (∀ col ∈ base.collections, col.name ≠ cn) →
            (∀ kv ∈ baseVM, jsStartsWith kv.1 (cn ++ "/") = false) →
            pvs.foldl (processVariablePath options cn modes modeNames modeMap)
              ({ base with collections := base.collections ++ [c] },
               { collectionMap := CM, variableMap := ν ++ baseVM }, cr, up, sk, ps)
              = ({ base with collections := base.collections ++ [c'] },
                 { collectionMap := CM, variableMap := ν' ++ baseVM },
                 cr + dcr, up + dup, sk + dsk, ps ++ δ) := by
  intro pvs
  induction pvs with
  | nil =>
    intro c ν hc hν
    refine ⟨c, ν, [], 0, 0, 0, hc, rfl, rfl, fun n h => h, fun q h => h, hν, by simp, ?_⟩
    intro base CM baseVM ps cr up sk hbase hbaseVM
    simp
  | cons pv rest ih =>
    intro c ν hc hν
    obtain ⟨c1, ν1, δ1, a1, b1, s1, hc1, hrem1, hmod1, hany1, hmono1, hν1, hpend1, heq1⟩ :=
      processVariablePath_shape options cn modes modeNames modeMap pv c ν hc hν
    obtain ⟨c2, ν2, δ2, a2, b2, s2, hc2, hrem2, hmod2, hany2, hmono2, hν2, hpend2, heq2⟩ :=
      ih c1 ν1 hc1 hν1
    refine ⟨c2, ν2, δ1 ++ δ2, a1 + a2, b1 + b2, s1 + s2, hc2,
      hrem2.trans hrem1, hmod2.trans hmod1,
      fun n h => hany2 n (hany1 n h), fun q h => hmono2 q (hmono1 q h), hν2, ?_, ?_⟩
    · intro q hq
      rcases List.mem_append.mp hq with h1 | h2
      · obtain ⟨hcol, hrv⟩ := hpend1 q h1
        exact ⟨hcol, hmono2 q hrv⟩
      · exact hpend2 q h2
    · intro base CM baseVM ps cr up sk hbase hbaseVM
      simp only [List.foldl_cons]
      rw [heq1 base CM baseVM ps cr up sk hbase hbaseVM,
        heq2 base CM baseVM (ps ++ δ1) (cr + a1) (up + b1) (sk + s1) hbase hbaseVM]
      simp only [Nat.add_assoc, List.append_assoc]

end VSE

namespace VSE

/-- The Pass-1 missing-mode creation loop: an entry-local collection
transformation that leaves the variables untouched. -/
theorem addModes_fold_shape (cn : String) :
    ∀ (mns : List String) (c : Collection) (mm : List (String × String)), c.name = cn →
      ∃ (c2 : Collection) (mm2 : List (String × String)),
        c2.name = cn ∧ c2.remote = c.remote ∧ c2.vars = c.vars
        ∧ ∀ base : Store, (∀ col ∈ base.collections, col.name ≠ cn) →
            mns.foldl
              (fun (acc : Store × List (String × String)) modeName =>
                if (jget acc.2 modeName).isSome then acc
                else
                  let (store2, newId) := addModeS acc.1 cn modeName
                  (store2, jset acc.2 modeName newId))
              ({ base with collections := base.collections ++ [c] }, mm)
              = ({ base with collections := base.collections ++ [c2] }, mm2) := by
  intro mns
  induction mns with
  | nil =>
    intro c mm hc
    exact ⟨c, mm, hc, rfl, rfl, fun base hbase => rfl⟩
  | cons m rest ih =>
    intro c mm hc
    by_cases hm : (jget mm m).isSome = true
    · obtain ⟨c2, mm2, hc2, hrem2, hvars2, heq2⟩ := ih c mm hc
      refine ⟨c2, mm2, hc2, hrem2, hvars2, ?_⟩
      intro base hbase
      simp only [List.foldl_cons, if_pos hm]
      exact heq2 base hbase
    · obtain ⟨c2, mm2, hc2, hrem2, hvars2, heq2⟩ :=
        ih { c with modes := c.modes ++
              [{ modeId := c.name ++ "#" ++ toString c.modes.length, name := m }] }
          (jset mm m (c.name ++ "#" ++ toString c.modes.length)) hc
      refine ⟨c2, mm2, hc2, hrem2, hvars2, ?_⟩
      intro base hbase
      simp only [List.foldl_cons, if_neg hm]
      have haddm : addModeS { base with collections := base.collections ++ [c] } cn m
          = (updateCollection { base with collections := base.collections ++ [c] } cn
              (fun _ => { c with modes := c.modes ++
                [{ modeId := c.name ++ "#" ++ toString c.modes.length, name := m }] }),
             c.name ++ "#" ++ toString c.modes.length) := by
        simp only [addModeS]
        rw [derefCollection_append_last base c cn hbase hc]
        rfl
      rw [haddm]
      rw [updateCollection_append_shape base c cn _ hbase hc]
      exact heq2 base hbase

end VSE

namespace VSE

/-- One fresh-named entry of Pass 1, from any state whose store, cache
and collection map do not know the entry's resolved name: its whole
effect appends one collection (built by the entry alone), registers the
entry's cache keys, and appends the entry's pending aliases — uniformly
in the ambient state. -/
theorem processCollectionEntry_shape (options : ImportOptions) (e : String × CollectionBody) :
    ∃ (cE : Collection) (νE : List (String × (String × String))) (δ : List PendingAlias)
      (dv du ds : ℕ),
      cE.name = resolvedName e ∧ cE.remote = false
      ∧ (∀ kv ∈ νE, ∃ p, kv.1 = resolvedName e ++ "/" ++ p ∧ kv.2 = (resolvedName e, p) ∧
          cE.vars.any (fun w => w.name == p) = true)
      ∧ (∀ q ∈ δ, q.col = resolvedName e ∧ rawValueSet (singleStore cE) q)
      ∧ ∀ st : Pass1State,
          st.cache.getCollection (resolvedName e) = none →
          (∀ col ∈ st.store.collections, col.name ≠ resolvedName e) →
          (∀ kv ∈ st.cache.variableMap,
            jsStartsWith kv.1 (resolvedName e ++ "/") = false) →
          processCollectionEntry options st e
            = { store := { st.store with collections := st.store.collections ++ [cE] }
                cache := { collectionMap := jset st.cache.collectionMap (resolvedName e)
                             (resolvedName e)
                           variableMap := νE ++ st.cache.variableMap }
                createdCollections := st.createdCollections + 1
                createdVariables := st.createdVariables + dv
                updatedVariables := st.updatedVariables + du
                skippedVariables := st.skippedVariables + ds
                allPendingAliases := st.allPendingAliases ++ δ } := by
  have hcn : strOr e.2.originalName e.1 = resolvedName e := rfl
  rcases hhd : (e.2.modes.map (fun m => m.1)).head? with _ | m0
  · -- the entry has no modes: no rename, no mode additions, no variables
    obtain ⟨c2, mm2, hc2, hrem2, hvars2, heq2⟩ :=
      addModes_fold_shape (resolvedName e) (e.2.modes.map (fun m => m.1))
        { name := resolvedName e, remote := false
          modes := [{ modeId := resolvedName e ++ "#0", name := "Mode 1" }], vars := [] }
        (List.foldl (fun (acc : List (String × String)) (m : Mode) => jset acc m.name m.modeId) []
          ([{ modeId := resolvedName e ++ "#0", name := "Mode 1" }] : List Mode))
        rfl
    obtain ⟨c', ν', δ, dv, du, ds, hc', hrem', hmod', hany', hmono', hν', hpend', heq'⟩ :=
      processVariablePath_fold_shape options (resolvedName e) e.2.modes
        (e.2.modes.map (fun m => m.1)) mm2
        (flattenVariables
          (((e.2.modes.map (fun m => m.1)).head?.bind
            (fun m0 => jget e.2.modes m0)).getD []) "")
        c2 [] hc2 (by intro kv h; cases h)
    refine ⟨c', ν', δ, dv, du, ds, hc', by rw [hrem', hrem2]; try rfl, hν', hpend', ?_⟩
    intro st hres hstore hkeys
    have heq2i := heq2 st.store hstore
    have heqi := heq' st.store
      (jset st.cache.collectionMap (resolvedName e) (resolvedName e))
      st.cache.variableMap [] st.createdVariables st.updatedVariables st.skippedVariables
      hstore hkeys
    simp only [processCollectionEntry, hcn, hres, createVariableCollection, hhd,
      List.nil_append] at heq2i heqi ⊢
    rw [derefCollection_append_last st.store _ (resolvedName e) hstore rfl]
    rw [heq2i]
    simp only [VariableCache.setCollection, heqi]
  · -- the entry has a first mode
    by_cases hcond :
        (({ name := resolvedName e, remote := false
            modes := [{ modeId := resolvedName e ++ "#0", name := "Mode 1" }]
            vars := [] } : Collection).modes.length == 1
          && (jget (List.foldl (fun (acc : List (String × String)) (m : Mode) => jset acc m.name m.modeId) []
                ({ name := resolvedName e, remote := false
                   modes := [{ modeId := resolvedName e ++ "#0", name := "Mode 1" }]
                   vars := [] } : Collection).modes) m0).isNone) = true
    · -- the single default mode is renamed to the first document mode
      obtain ⟨c2, mm2, hc2, hrem2, hvars2, heq2⟩ :=
        addModes_fold_shape (resolvedName e) (e.2.modes.map (fun m => m.1))
          (renameModeOfCollection
            { name := resolvedName e, remote := false
              modes := [{ modeId := resolvedName e ++ "#0", name := "Mode 1" }], vars := [] }
            ((({ name := resolvedName e, remote := false
                 modes := [{ modeId := resolvedName e ++ "#0", name := "Mode 1" }]
                 vars := [] } : Collection).modes.head?.map (fun m => m.modeId)).getD "") m0)
          (jset (List.foldl (fun (acc : List (String × String)) (m : Mode) => jset acc m.name m.modeId) []
              ({ name := resolvedName e, remote := false
                 modes := [{ modeId := resolvedName e ++ "#0", name := "Mode 1" }]
                 vars := [] } : Collection).modes) m0
            ((({ name := resolvedName e, remote := false
                 modes := [{ modeId := resolvedName e ++ "#0", name := "Mode 1" }]
                 vars := [] } : Collection).modes.head?.map (fun m => m.modeId)).getD ""))
          rfl
      obtain ⟨c', ν', δ, dv, du, ds, hc', hrem', hmod', hany', hmono', hν', hpend', heq'⟩ :=
        processVariablePath_fold_shape options (resolvedName e) e.2.modes
          (e.2.modes.map (fun m => m.1)) mm2
          (flattenVariables
            (((e.2.modes.map (fun m => m.1)).head?.bind
              (fun m0 => jget e.2.modes m0)).getD []) "")
          c2 [] hc2 (by intro kv h; cases h)
      refine ⟨c', ν', δ, dv, du, ds, hc', by rw [hrem', hrem2]; try rfl, hν', hpend', ?_⟩
      intro st hres hstore hkeys
      have heq2i := heq2 st.store hstore
      have heqi := heq' st.store
        (jset st.cache.collectionMap (resolvedName e) (resolvedName e))
        st.cache.variableMap [] st.createdVariables st.updatedVariables st.skippedVariables
        hstore hkeys
      simp only [processCollectionEntry, hcn, hres, createVariableCollection, hhd,
        List.nil_append] at heq2i heqi ⊢
      rw [derefCollection_append_last st.store _ (resolvedName e) hstore rfl]
      rw [if_pos hcond]
      rw [updateCollection_append_shape st.store _ (resolvedName e) _ hstore rfl]
      rw [heq2i]
      simp only [VariableCache.setCollection, heqi]
    · -- the first document mode already matches, or several modes exist
      obtain ⟨c2, mm2, hc2, hrem2, hvars2, heq2⟩ :=
        addModes_fold_shape (resolvedName e) (e.2.modes.map (fun m => m.1))
          { name := resolvedName e, remote := false
            modes := [{ modeId := resolvedName e ++ "#0", name := "Mode 1" }], vars := [] }
          (List.foldl (fun (acc : List (String × String)) (m : Mode) => jset acc m.name m.modeId) []
            ([{ modeId := resolvedName e ++ "#0", name := "Mode 1" }] : List Mode))
          rfl
      obtain ⟨c', ν', δ, dv, du, ds, hc', hrem', hmod', hany', hmono', hν', hpend', heq'⟩ :=
        processVariablePath_fold_shape options (resolvedName e) e.2.modes
          (e.2.modes.map (fun m => m.1)) mm2
          (flattenVariables
            (((e.2.modes.map (fun m => m.1)).head?.bind
              (fun m0 => jget e.2.modes m0)).getD []) "")
          c2 [] hc2 (by intro kv h; cases h)
      refine ⟨c', ν', δ, dv, du, ds, hc', by rw [hrem', hrem2]; try rfl, hν', hpend', ?_⟩
      intro st hres hstore hkeys
      have heq2i := heq2 st.store hstore
      have heqi := heq' st.store
        (jset st.cache.collectionMap (resolvedName e) (resolvedName e))
        st.cache.variableMap [] st.createdVariables st.updatedVariables st.skippedVariables
        hstore hkeys
      simp only [processCollectionEntry, hcn, hres, createVariableCollection, hhd,
        List.nil_append] at heq2i heqi ⊢
      rw [derefCollection_append_last st.store _ (resolvedName e) hstore rfl]
      rw [if_neg hcond]
      rw [heq2i]
      simp only [VariableCache.setCollection, heqi]

end VSE

namespace VSE

/-- The pristine run of one entry (its contribution), with the
uniform-in-state equation restated through the pristine run's own
components. -/
theorem entryRun_facts (options : ImportOptions) (e : String × CollectionBody) :
    ∃ cE : Collection,
      (entryRun options e).store = singleStore cE
      ∧ entryCollection options e = some cE
      ∧ cE.name = resolvedName e ∧ cE.remote = false
      ∧ (∀ q ∈ entryPendings options e, q.col = resolvedName e ∧ rawValueSet (singleStore cE) q)
      ∧ (∀ kv ∈ (entryRun options e).cache.variableMap,
          ∃ p, kv.1 = resolvedName e ++ "/" ++ p ∧ kv.2 = (resolvedName e, p))
      ∧ ∀ st : Pass1State,
          st.cache.getCollection (resolvedName e) = none →
          (∀ col ∈ st.store.collections, col.name ≠ resolvedName e) →
          (∀ kv ∈ st.cache.variableMap,
            jsStartsWith kv.1 (resolvedName e ++ "/") = false) →
          processCollectionEntry options st e
            = { store := { st.store with collections := st.store.collections ++ [cE] }
                cache := { collectionMap := jset st.cache.collectionMap (resolvedName e)
                             (resolvedName e)
                           variableMap := (entryRun options e).cache.variableMap
                             ++ st.cache.variableMap }
                createdCollections := st.createdCollections + 1
                createdVariables := st.createdVariables + (entryRun options e).createdVariables
                updatedVariables := st.updatedVariables + (entryRun options e).updatedVariables
                skippedVariables := st.skippedVariables + (entryRun options e).skippedVariables
                allPendingAliases := st.allPendingAliases ++ entryPendings options e } := by
  obtain ⟨cE, νE, δ, dv, du, ds, hname, hrem, hν, hpend, hall⟩ :=
    processCollectionEntry_shape options e
  have h0 := hall
    { store := emptyStore, cache := { collectionMap := [], variableMap := [] }
      createdCollections := 0, createdVariables := 0, updatedVariables := 0
      skippedVariables := 0, allPendingAliases := [] }
    rfl (by intro col h; cases h) (by intro kv h; cases h)
  have hrun : entryRun options e
      = { store := singleStore cE
          cache := { collectionMap := jset [] (resolvedName e) (resolvedName e)
                     variableMap := νE ++ [] }
          createdCollections := 1, createdVariables := 0 + dv, updatedVariables := 0 + du
          skippedVariables := 0 + ds, allPendingAliases := [] ++ δ } := by
    show processCollectionEntry options
      { store := emptyStore, cache := { collectionMap := [], variableMap := [] }
        createdCollections := 0, createdVariables := 0, updatedVariables := 0
        skippedVariables := 0, allPendingAliases := [] } e = _
    rw [h0]
    rfl
  have hstoreE : (entryRun options e).store = singleStore cE := by rw [hrun]
  have hvm : (entryRun options e).cache.variableMap = νE := by rw [hrun]; simp
  have hpends : entryPendings options e = δ := by
    rw [entryPendings, hrun]
    simp
  have hdv : (entryRun options e).createdVariables = dv := by rw [hrun]; simp
  have hdu : (entryRun options e).updatedVariables = du := by rw [hrun]; simp
  have hds : (entryRun options e).skippedVariables = ds := by rw [hrun]; simp
  refine ⟨cE, hstoreE, ?_, hname, hrem, ?_, ?_, ?_⟩
  · rw [entryCollection, hstoreE]
    simp [singleStore, findCollection, List.find?, hname]
  · intro q hq
    rw [hpends] at hq
    exact hpend q hq
  · intro kv hkv
    rw [hvm] at hkv
    obtain ⟨p, h1, h2, _⟩ := hν kv hkv
    exact ⟨p, h1, h2⟩
  · intro st hres hstore hkeys
    rw [hall st hres hstore hkeys, hvm, hpends, hdv, hdu, hds]

end VSE

namespace VSE

/-- Pass 1 over distinct slash-free fresh-named entries: the store gains
exactly each entry's own collection, in order; styles are untouched; the
pending-alias queue is the concatenation of the entries' own queues. -/
theorem runPass1_fold_shape (options : ImportOptions) :
    ∀ (entries : List (String × CollectionBody)) (st : Pass1State) (done : List String),
      (∀ e ∈ entries, slashFree (resolvedName e)) →
      List.Pairwise (fun a b => resolvedName a ≠ resolvedName b) entries →
      (∀ e ∈ entries, st.cache.getCollection (resolvedName e) = none) →
      (∀ e ∈ entries, ∀ col ∈ st.store.collections, col.name ≠ resolvedName e) →
      (∀ kv ∈ st.cache.variableMap,
        ∃ c0 p0, kv.1 = c0 ++ "/" ++ p0 ∧ slashFree c0 ∧ c0 ∈ done) →
      (∀ e ∈ entries, resolvedName e ∉ done) →
      ((entries.foldl (processCollectionEntry options) st).store.collections
          = st.store.collections
            ++ entries.map (fun e => (entryCollection options e).getD emptyCollection))
      ∧ (entries.foldl (processCollectionEntry options) st).store.paintStyles
          = st.store.paintStyles
      ∧ (entries.foldl (processCollectionEntry options) st).store.textStyles
          = st.store.textStyles
      ∧ (entries.foldl (processCollectionEntry options) st).store.effectStyles
          = st.store.effectStyles
      ∧ (entries.foldl (processCollectionEntry options) st).store.gridStyles
          = st.store.gridStyles
      ∧ (entries.foldl (processCollectionEntry options) st).allPendingAliases
          = st.allPendingAliases
            ++ (entries.map (fun e => entryPendings options e)).flatten := by
  intro entries
  induction entries with
  | nil =>
    intro st done hsf hpw hcm hst hvm hdone
    simp
  | cons e rest ih =>
    intro st done hsf hpw hcm hst hvm hdone
    rw [List.pairwise_cons] at hpw
    obtain ⟨cE, hstoreE, hcolE, hnameE, hremE, hpendE, hνE, hall⟩ := entryRun_facts options e
    have hkeys : ∀ kv ∈ st.cache.variableMap,
        jsStartsWith kv.1 (resolvedName e ++ "/") = false := by
      intro kv hkv
      obtain ⟨c0, p0, hk, hsf0, hd0⟩ := hvm kv hkv
      rw [hk]
      refine slashKey_not_prefix c0 (resolvedName e) p0 hsf0
        (hsf e (List.mem_cons_self e rest)) ?_
      intro hcc
      exact hdone e (List.mem_cons_self e rest) (hcc ▸ hd0)
    have hstep := hall st (hcm e (List.mem_cons_self e rest))
      (hst e (List.mem_cons_self e rest)) hkeys
    rw [List.foldl_cons, hstep]
    have hihyp := ih
      { store := { st.store with collections := st.store.collections ++ [cE] }
        cache := { collectionMap := jset st.cache.collectionMap (resolvedName e)
                     (resolvedName e)
                   variableMap := (entryRun options e).cache.variableMap
                     ++ st.cache.variableMap }
        createdCollections := st.createdCollections + 1
        createdVariables := st.createdVariables + (entryRun options e).createdVariables
        updatedVariables := st.updatedVariables + (entryRun options e).updatedVariables
        skippedVariables := st.skippedVariables + (entryRun options e).skippedVariables
        allPendingAliases := st.allPendingAliases ++ entryPendings options e }
      (done ++ [resolvedName e])
      (fun e' he' => hsf e' (List.mem_cons_of_mem e he'))
      hpw.2
      (by
        intro e' he'
        simp only [VariableCache.getCollection]
        rw [jget_jset_ne st.cache.collectionMap (resolvedName e) (resolvedName e')
          (resolvedName e) (fun hne => hpw.1 e' he' hne.symm)]
        exact hcm e' (List.mem_cons_of_mem e he'))
      (by
        intro e' he' col hcol
        rcases List.mem_append.mp hcol with h1 | h2
        · exact hst e' (List.mem_cons_of_mem e he') col h1
        · rw [List.mem_singleton] at h2
          rw [h2, hnameE]
          exact fun hne => hpw.1 e' he' hne
      )
      (by
        intro kv hkv
        rcases List.mem_append.mp hkv with h1 | h2
        · obtain ⟨p, hk, _⟩ := hνE kv h1
          exact ⟨resolvedName e, p, hk, hsf e (List.mem_cons_self e rest),
            List.mem_append.mpr (Or.inr (List.mem_singleton.mpr rfl))⟩
        · obtain ⟨c0, p0, hk, hsf0, hd0⟩ := hvm kv h2
          exact ⟨c0, p0, hk, hsf0, List.mem_append.mpr (Or.inl hd0)⟩)
      (by
        intro e' he' hmem
        rcases List.mem_append.mp hmem with h1 | h2
        · exact hdone e' (List.mem_cons_of_mem e he') h1
        · rw [List.mem_singleton] at h2
          exact hpw.1 e' he' h2.symm)
    obtain ⟨hcols, hp, ht, hef, hg, hpends⟩ := hihyp
    refine ⟨?_, ?_, ?_, ?_, ?_, ?_⟩
    · rw [hcols]
      simp only [List.map_cons, List.append_assoc, List.singleton_append]
      have : (entryCollection options e).getD emptyCollection = cE := by
        rw [hcolE]; rfl
      rw [this]
    · rw [hp]
    · rw [ht]
    · rw [hef]
    · rw [hg]
    · rw [hpends]
      simp only [List.map_cons, List.flatten_cons, List.append_assoc]

end VSE

namespace VSE

theorem find?_eq_some_of_unique {α : Type} (l : List α) (pred : α → Bool) (a : α)
    (ha : a ∈ l) (hpa : pred a = true) (huniq : ∀ b ∈ l, pred b = true → b = a) :
    l.find? pred = some a := by
  induction l with
  | nil => cases ha
  | cons c rest ih =>
    by_cases hcp : pred c = true
    · rw [List.find?_cons_of_pos rest hcp]
      rw [huniq c (List.mem_cons_self c rest) hcp]
    · rw [List.find?_cons_of_neg rest (by simpa using hcp)]
      have harest : a ∈ rest := by
        rcases List.mem_cons.mp ha with h1 | h2
        · exact absurd (h1 ▸ hpa) hcp
        · exact h2
      exact ih harest (fun b hb hpb => huniq b (List.mem_cons_of_mem c hb) hpb)

theorem liveValueOf_congr (s s' : Store) (m : String) (h : String × String)
    (he : findCollection s h.1 = findCollection s' h.1) :
    liveValueOf s m h = liveValueOf s' m h := by
  simp only [liveValueOf, findVariable, he]

/-- **C1**: the deferred-alias invariant.  After Pass 1 of an import
into an empty file completes — before any Pass-2 alias wiring — every
queued pending alias's (variable, mode) slot already holds a concrete
(non-alias) raw value: the placeholder written at enqueue time.  The
hypotheses are the well-formedness of the document's collection names
(slash-free, pairwise distinct after `$originalName` resolution). -/
theorem pass1_deferred_alias_invariant (options : ImportOptions)
    (importData : List ImportItem)
    (hsf : ∀ e ∈ collectionEntries importData, slashFree (resolvedName e))
    (hnd : ((collectionEntries importData).map resolvedName).Nodup) :
    ∀ p ∈ (runPass1 options emptyStore (VariableCache.rebuild emptyStore)
        (collectionEntries importData)).allPendingAliases,
      rawValueSet (runPass1 options emptyStore (VariableCache.rebuild emptyStore)
        (collectionEntries importData)).store p := by
  intro p hp
  have hpw : (collectionEntries importData).Pairwise
      (fun a b => resolvedName a ≠ resolvedName b) := List.pairwise_map.mp hnd
  have hrp : runPass1 options emptyStore (VariableCache.rebuild emptyStore)
      (collectionEntries importData)
      = (collectionEntries importData).foldl (processCollectionEntry options)
          { store := emptyStore, cache := VariableCache.rebuild emptyStore
            createdCollections := 0, createdVariables := 0, updatedVariables := 0
            skippedVariables := 0, allPendingAliases := [] } := rfl
  obtain ⟨hcols, _, _, _, _, hpends⟩ := runPass1_fold_shape options
    (collectionEntries importData)
    { store := emptyStore, cache := VariableCache.rebuild emptyStore
      createdCollections := 0, createdVariables := 0, updatedVariables := 0
      skippedVariables := 0, allPendingAliases := [] }
    [] hsf hpw
    (fun e _ => rfl)
    (fun e _ col hcol => absurd hcol (List.not_mem_nil col))
    (fun kv hkv => absurd hkv (List.not_mem_nil kv))
    (fun e _ => List.not_mem_nil (resolvedName e))
  rw [hrp] at hp ⊢
  rw [hpends] at hp
  simp only [List.nil_append] at hp
  rcases List.mem_flatten.mp hp with ⟨blk, hblk, hpblk⟩
  rcases List.mem_map.mp hblk with ⟨e, he, rfl⟩
  obtain ⟨cE, hstoreE, hcolE, hnameE, hremE, hpendE, hνE, hall⟩ := entryRun_facts options e
  obtain ⟨hcolp, hrvs⟩ := hpendE p hpblk
  have hfname : ∀ e' ∈ collectionEntries importData,
      ((entryCollection options e').getD emptyCollection).name = resolvedName e' := by
    intro e' he'
    obtain ⟨cE', _, hcol', hname', _⟩ := entryRun_facts options e'
    rw [hcol']
    exact hname'
  have hfc : findCollection ((collectionEntries importData).foldl
      (processCollectionEntry options)
      { store := emptyStore, cache := VariableCache.rebuild emptyStore
        createdCollections := 0, createdVariables := 0, updatedVariables := 0
        skippedVariables := 0, allPendingAliases := [] }).store p.col = some cE := by
    rw [hcolp]
    simp only [findCollection]
    rw [hcols]
    simp only [emptyStore, List.nil_append]
    rw [List.find?_map (fun e => (entryCollection options e).getD emptyCollection)
      (collectionEntries importData)]
    have hfind : (collectionEntries importData).find?
        ((fun c => c.name == resolvedName e) ∘
          (fun e => (entryCollection options e).getD emptyCollection)) = some e := by
      refine find?_eq_some_of_unique _ _ e he ?_ ?_
      · simp only [Function.comp]
        rw [hfname e he]
        simp
      · intro b hb hpb
        simp only [Function.comp] at hpb
        rw [hfname b hb] at hpb
        have : resolvedName b = resolvedName e := by simpa using hpb
        exact List.inj_on_of_nodup_map hnd hb he this
    rw [hfind]
    simp only [Option.map_some']
    rw [hcolE]
    rfl
  have hsingle : findCollection (singleStore cE) p.col = some cE := by
    rw [hcolp]
    simp [singleStore, findCollection, List.find?, hnameE]
  rcases hrvs with ⟨w, hw, hraw⟩
  refine ⟨w, ?_, hraw⟩
  rw [show liveValueOf ((collectionEntries importData).foldl (processCollectionEntry options)
      { store := emptyStore, cache := VariableCache.rebuild emptyStore
        createdCollections := 0, createdVariables := 0, updatedVariables := 0
        skippedVariables := 0, allPendingAliases := [] }).store p.modeId (p.col, p.varName)
      = liveValueOf (singleStore cE) p.modeId (p.col, p.varName) from
    liveValueOf_congr _ _ p.modeId (p.col, p.varName) (hfc.trans hsingle.symm)]
  exact hw

/-- Witness for C1: a one-collection document whose only leaf is an
alias reference; after Pass 1 the queued pending's slot holds the raw
placeholder. -/
theorem pass1_deferred_alias_invariant_witness :
    rawValueSet (runPass1
        { merge := false, overwrite := true, importStyles := false, clearFirst := false,
          customMerge := none, collectionBehaviors := [] }
        emptyStore (VariableCache.rebuild emptyStore)
        (collectionEntries
          [ .coll "C" { modes := [("M1", [("x", .leaf
              { scopes := [], vtype := "color", descr := none,
                value := .s "\x7bMissing.token\x7d", collectionName := none,
                libraryRef := none, localValue := none })])], originalName := none } ])).store
      { col := "C", varName := "x", modeId := "C#0", aliasPath := "Missing/token",
        aliasCollection := "C",
        fallbackValue :=
          { scopes := [], vtype := "color", descr := none,
            value := .s "\x7bMissing.token\x7d", collectionName := none,
            libraryRef := none, localValue := none } } :=
  pass1_deferred_alias_invariant
    { merge := false, overwrite := true, importStyles := false, clearFirst := false,
      customMerge := none, collectionBehaviors := [] }
    [ .coll "C" { modes := [("M1", [("x", .leaf
        { scopes := [], vtype := "color", descr := none,
          value := .s "\x7bMissing.token\x7d", collectionName := none,
          libraryRef := none, localValue := none })])], originalName := none } ]
    (by decide) (by decide) _ (by decide)

end VSE

namespace VSE

/-! ## Rebuilt-cache lookups are order-independent -/

theorem foldl_congr_mem {α β : Type} (l : List α) (f g : β → α → β) :
    ∀ (init : β), (∀ b (a : α), a ∈ l → f b a = g b a) →
      l.foldl f init = l.foldl g init := by
  induction l with
  | nil => intro init h; rfl
  | cons a rest ih =>
    intro init h
    simp only [List.foldl_cons]
    rw [h init a (List.mem_cons_self a rest)]
    exact ih _ (fun b a' ha' => h b a' (List.mem_cons_of_mem a ha'))

theorem find?_perm_of_unique {α : Type} (l l' : List α) (hperm : l.Perm l')
    (pred : α → Bool)
    (huniq : ∀ a ∈ l, ∀ b ∈ l, pred a = true → pred b = true → a = b) :
    l.find? pred = l'.find? pred := by
  rcases h : l.find? pred with _ | a
  · rw [List.find?_eq_none] at h
    symm
    rw [List.find?_eq_none]
    intro x hx
    exact h x (hperm.symm.subset hx)
  · have ha := List.mem_of_find?_eq_some h
    have hpa := List.find?_some h
    rw [find?_eq_some_of_unique l' pred a (hperm.subset ha) hpa ?_]
    intro b hb hpb
    exact huniq b (hperm.symm.subset hb) a ha hpb hpa

theorem rebuild_inner_lookup (colname : String) :
    ∀ (vars : List Variable) (cache : VariableCache) (k : String),
      (vars.foldl
        (fun cache v => cache.setVariable (colname ++ "/" ++ v.name) (colname, v.name))
        cache).getVariable k
      = match vars.find? (fun w => colname ++ "/" ++ w.name == k) with
        | some w => some (colname, w.name)
        | none => cache.getVariable k := by
  intro vars
  induction vars with
  | nil => intro cache k; rfl
  | cons w rest ih =>
    intro cache k
    simp only [List.foldl_cons, List.find?]
    rw [ih]
    rcases hkey : (colname ++ "/" ++ w.name == k) with _ | _
    · rcases hrest : rest.find? (fun w => colname ++ "/" ++ w.name == k) with _ | w'
      · rw [hrest]
        show jget (jset cache.variableMap (colname ++ "/" ++ w.name) (colname, w.name)) k
          = jget cache.variableMap k
        refine jget_jset_ne _ _ _ _ ?_
        intro he
        rw [he] at hkey
        simp at hkey
      · rw [hrest]
    · rcases hrest : rest.find? (fun w => colname ++ "/" ++ w.name == k) with _ | w'
      · rw [hrest]
        have hk : colname ++ "/" ++ w.name = k := by simpa using hkey
        show jget (jset cache.variableMap (colname ++ "/" ++ w.name) (colname, w.name)) k
          = some (colname, w.name)
        rw [← hk]
        exact jget_jset_self _ _ _
      · rw [hrest]
        have hk : colname ++ "/" ++ w.name = k := by simpa using hkey
        have hk' : colname ++ "/" ++ w'.name = k := by simpa using List.find?_some hrest
        have hnames : w'.name = w.name := string_append_left_cancel (hk'.trans hk.symm)
        simp [hnames]

theorem rebuild_outer_lookup :
    ∀ (cols : List Collection) (cache : VariableCache) (k : String),
      (∀ c ∈ cols, slashFree c.name) →
      (cols.map (fun c => c.name)).Nodup →
      (cols.foldl
        (fun cache col =>
          col.vars.foldl
            (fun cache v => cache.setVariable (col.name ++ "/" ++ v.name) (col.name, v.name))
            (cache.setCollection col.name))
        cache).getVariable k
      = match cols.find? (fun col =>
          col.vars.any (fun w => col.name ++ "/" ++ w.name == k)) with
        | some col =>
          match col.vars.find? (fun w => col.name ++ "/" ++ w.name == k) with
          | some w => some (col.name, w.name)
          | none => none
        | none => cache.getVariable k := by
  intro cols
  induction cols with
  | nil => intro cache k _ _; rfl
  | cons col rest ih =>
    intro cache k hsf hnd
    simp only [List.foldl_cons, List.find?]
    rw [List.map_cons, List.nodup_cons] at hnd
    rw [ih _ k (fun c hc => hsf c (List.mem_cons_of_mem col hc)) hnd.2]
    rcases hmatch : col.vars.any (fun w => col.name ++ "/" ++ w.name == k) with _ | _
    · -- this collection holds no variable under key k
      have hnone : col.vars.find? (fun w => col.name ++ "/" ++ w.name == k) = none := by
        rw [List.find?_eq_none]
        intro w hw hcontra
        have hone : col.vars.any (fun w => col.name ++ "/" ++ w.name == k) = true :=
          List.any_eq_true.mpr ⟨w, hw, hcontra⟩
        rw [hmatch] at hone
        exact Bool.false_ne_true hone
      rcases hrest : rest.find? (fun col =>
          col.vars.any (fun w => col.name ++ "/" ++ w.name == k)) with _ | col'
      · rw [hrest, rebuild_inner_lookup, hnone]
        rfl
      · rw [hrest]
    · -- this collection holds a variable under key k; no later one can
      have hsome : ∃ w ∈ col.vars, (col.name ++ "/" ++ w.name == k) = true :=
        List.any_eq_true.mp hmatch
      have hrestnone : rest.find? (fun col =>
          col.vars.any (fun w => col.name ++ "/" ++ w.name == k)) = none := by
        rw [List.find?_eq_none]
        intro c' hc' hany
        obtain ⟨w', hw', hk'⟩ := List.any_eq_true.mp hany
        obtain ⟨w, hw, hk⟩ := hsome
        have e1 : col.name ++ "/" ++ w.name = k := by simpa using hk
        have e2 : c'.name ++ "/" ++ w'.name = k := by simpa using hk'
        have hnames : col.name = c'.name :=
          (slashKey_inj col.name w.name c'.name w'.name
            (hsf col (List.mem_cons_self col rest))
            (hsf c' (List.mem_cons_of_mem col hc'))
            (e1.trans e2.symm)).1
        exact hnd.1 (hnames ▸ (List.mem_map.mpr ⟨c', hc', rfl⟩))
      rw [hrestnone, rebuild_inner_lookup]
      rcases hfind : col.vars.find? (fun w => col.name ++ "/" ++ w.name == k) with _ | w
      · exfalso
        rw [List.find?_eq_none] at hfind
        obtain ⟨w, hw, hk⟩ := hsome
        exact absurd hk (by simpa using hfind w hw)
      · rw [hfind]
        show some (col.name, w.name)
          = match col.vars.find? (fun w => col.name ++ "/" ++ w.name == k) with
            | some w => some (col.name, w.name)
            | none => none
        rw [hfind]

/-- A rebuilt cache's variable lookups depend only on which collections
exist (their names and variable names), not on their order. -/
theorem rebuild_getVariable_key (s : Store)
    (hsf : ∀ c ∈ s.collections, slashFree c.name)
    (hnd : (s.collections.map (fun c => c.name)).Nodup)
    (hloc : ∀ c ∈ s.collections, c.remote = false) (k : String) :
    (VariableCache.rebuild s).getVariable k
      = match s.collections.find? (fun col =>
          col.vars.any (fun w => col.name ++ "/" ++ w.name == k)) with
        | some col =>
          match col.vars.find? (fun w => col.name ++ "/" ++ w.name == k) with
          | some w => some (col.name, w.name)
          | none => none
        | none => none := by
  have hfilter : getLocalCollections s = s.collections := by
    simp only [getLocalCollections]
    rw [List.filter_eq_self]
    intro c hc
    rw [hloc c hc]
    rfl
  simp only [VariableCache.rebuild]
  rw [hfilter]
  rw [rebuild_outer_lookup s.collections { collectionMap := [], variableMap := [] } k hsf hnd]
  rcases s.collections.find? (fun col =>
      col.vars.any (fun w => col.name ++ "/" ++ w.name == k)) with _ | col
  · rfl
  · rfl

end VSE

namespace VSE

/-! ## Pass-2 writes act per collection -/

theorem pass2_writes_findCollection (cache : VariableCache) :
    ∀ (ps : List PendingAlias) (s : Store) (nm : String),
      findCollection
        (ps.foldl
          (fun store pending =>
            match cache.getVariable (pending.aliasCollection ++ "/" ++ pending.aliasPath) with
            | some target =>
              setValueForMode store pending.col pending.varName pending.modeId
                (.alias target.1 target.2)
            | none => store) s) nm
      = (ps.filter (fun p => p.col == nm)).foldl
          (fun oc p =>
            match cache.getVariable (p.aliasCollection ++ "/" ++ p.aliasPath) with
            | some target =>
              oc.map (fun col =>
                { col with vars := col.vars.map (fun vr =>
                    if vr.name == p.varName then { vr with valuesByMode := jset vr.valuesByMode p.modeId (VarValue.alias target.1 target.2) }
                    else vr) })
            | none => oc) (findCollection s nm) := by
  intro ps
  induction ps with
  | nil => intro s nm; rfl
  | cons p rest ih =>
    intro s nm
    simp only [List.foldl_cons, List.filter_cons]
    rcases hq : cache.getVariable (p.aliasCollection ++ "/" ++ p.aliasPath) with _ | target
    · simp only [hq]
      rcases hpc : (p.col == nm) with _ | _
      · rw [if_neg (by simp [hpc])]
        exact ih s nm
      · rw [if_pos rfl, List.foldl_cons]
        simp only [hq]
        exact ih s nm
    · simp only [hq]
      rcases hpc : (p.col == nm) with _ | _
      · rw [if_neg (by simp [hpc]), ih]
        have hne : findCollection (setValueForMode s p.col p.varName p.modeId
            (.alias target.1 target.2)) nm = findCollection s nm := by
          simp only [setValueForMode, updVar]
          refine findCollection_updateCollection_ne s p.col _ nm (fun c => rfl) ?_
          intro he
          rw [he] at hpc
          simp at hpc
        rw [hne]
      · rw [if_pos rfl, List.foldl_cons, ih]
        simp only [hq]
        have hnm : p.col = nm := by simpa using hpc
        have hself : findCollection (setValueForMode s p.col p.varName p.modeId
            (.alias target.1 target.2)) nm
            = (findCollection s nm).map (fun col =>
                { col with vars := col.vars.map (fun vr =>
                    if vr.name == p.varName then { vr with valuesByMode := jset vr.valuesByMode p.modeId (VarValue.alias target.1 target.2) }
                    else vr) }) := by
          simp only [setValueForMode, updVar]
          rw [← hnm]
          exact findCollection_updateCollection_self s p.col _ (fun c => rfl)
        rw [hself]

theorem pass2_writes_styles (cache : VariableCache) :
    ∀ (ps : List PendingAlias) (s : Store),
      (ps.foldl
        (fun store pending =>
          match cache.getVariable (pending.aliasCollection ++ "/" ++ pending.aliasPath) with
          | some target =>
            setValueForMode store pending.col pending.varName pending.modeId
              (.alias target.1 target.2)
          | none => store) s).paintStyles = s.paintStyles
      ∧ (ps.foldl
          (fun store pending =>
            match cache.getVariable (pending.aliasCollection ++ "/" ++ pending.aliasPath) with
            | some target =>
              setValueForMode store pending.col pending.varName pending.modeId
                (.alias target.1 target.2)
            | none => store) s).textStyles = s.textStyles
      ∧ (ps.foldl
          (fun store pending =>
            match cache.getVariable (pending.aliasCollection ++ "/" ++ pending.aliasPath) with
            | some target =>
              setValueForMode store pending.col pending.varName pending.modeId
                (.alias target.1 target.2)
            | none => store) s).effectStyles = s.effectStyles
      ∧ (ps.foldl
          (fun store pending =>
            match cache.getVariable (pending.aliasCollection ++ "/" ++ pending.aliasPath) with
            | some target =>
              setValueForMode store pending.col pending.varName pending.modeId
                (.alias target.1 target.2)
            | none => store) s).gridStyles = s.gridStyles := by
  intro ps
  induction ps with
  | nil => intro s; exact ⟨rfl, rfl, rfl, rfl⟩
  | cons p rest ih =>
    intro s
    simp only [List.foldl_cons]
    rcases hq : cache.getVariable (p.aliasCollection ++ "/" ++ p.aliasPath) with _ | target
    · exact ih s
    · exact ih _

theorem pass2_writes_collections (cache : VariableCache) :
    ∀ (ps : List PendingAlias) (s : Store),
      (ps.foldl
        (fun store pending =>
          match cache.getVariable (pending.aliasCollection ++ "/" ++ pending.aliasPath) with
          | some target =>
            setValueForMode store pending.col pending.varName pending.modeId
              (.alias target.1 target.2)
          | none => store) s).collections
      = s.collections.map (fun c =>
          (ps.filter (fun p => p.col == c.name)).foldl
            (fun c p =>
              match cache.getVariable (p.aliasCollection ++ "/" ++ p.aliasPath) with
              | some target =>
                { c with vars := c.vars.map (fun vr =>
                    if vr.name == p.varName then { vr with valuesByMode := jset vr.valuesByMode p.modeId (VarValue.alias target.1 target.2) }
                    else vr) }
              | none => c) c) := by
  intro ps
  induction ps with
  | nil =>
    intro s
    simp
  | cons p rest ih =>
    intro s
    simp only [List.foldl_cons]
    rcases hq : cache.getVariable (p.aliasCollection ++ "/" ++ p.aliasPath) with _ | target
    · simp only [hq]
      rw [ih]
      refine List.map_congr_left ?_
      intro c _
      rcases hpc : (p.col == c.name) with _ | _
      · have hf : ¬ ((p.col == c.name) = true) := by simp [hpc]
        rw [List.filter_cons, if_neg hf]
      · rw [List.filter_cons, if_pos hpc, List.foldl_cons]
        simp only [hq]
    · simp only [hq]
      rw [ih]
      simp only [setValueForMode, updVar, updateCollection, List.map_map]
      refine List.map_congr_left ?_
      intro c _
      simp only [Function.comp]
      rcases hpc : (p.col == c.name) with _ | _
      · have hf : ¬ ((p.col == c.name) = true) := by simp [hpc]
        have hcc : ¬ ((c.name == p.col) = true) := by
          intro he
          have hnm : c.name = p.col := by simpa using he
          rw [hnm] at hpc
          simp at hpc
        rw [List.filter_cons, if_neg hf, if_neg hcc]
      · have hnm : p.col = c.name := by simpa using hpc
        have hcc : (c.name == p.col) = true := by simp [hnm]
        rw [List.filter_cons, if_pos hpc, List.foldl_cons]
        simp only [hq]
        rw [if_pos hcc]

end VSE

namespace VSE

/-! ## Order independence of the two-pass import -/

theorem collectionEntries_map_coll : ∀ l : List (String × CollectionBody),
    collectionEntries (l.map (fun e => ImportItem.coll e.1 e.2)) = l
  | [] => rfl
  | e :: rest => by
    show e :: collectionEntries (rest.map (fun e => ImportItem.coll e.1 e.2)) = e :: rest
    rw [collectionEntries_map_coll rest]

theorem stylesFold_keep (l : List (String × CollectionBody))
    (acc : Option (Option (List (String × String)) × Option (List (String × String))
      × Option (List (String × String)) × Option (List (String × String)))) :
    (l.map (fun e => ImportItem.coll e.1 e.2)).foldl
      (fun acc item =>
        match item with
        | .styles c t e g => some (c, t, e, g)
        | .coll _ _ => acc) acc = acc := by
  induction l generalizing acc with
  | nil => rfl
  | cons e rest ih => simpa using ih acc

theorem runPass2_fst (s : Store) (ps : List PendingAlias) :
    (runPass2 s ps).1 = ps.foldl
      (fun store pending =>
        match (VariableCache.rebuild s).getVariable
            (pending.aliasCollection ++ "/" ++ pending.aliasPath) with
        | some target =>
          setValueForMode store pending.col pending.varName pending.modeId
            (.alias target.1 target.2)
        | none => store) s :=
  pass2_store_agree (VariableCache.rebuild s) ps s 0 0

theorem entryPendings_filter_col (options : ImportOptions) (e : String × CollectionBody)
    (nm : String) :
    (entryPendings options e).filter (fun q => q.col == nm)
    = if resolvedName e == nm then entryPendings options e else [] := by
  obtain ⟨cE, _, _, _, _, hpend, _, _⟩ := entryRun_facts options e
  by_cases hb : (resolvedName e == nm) = true
  · rw [if_pos hb]
    refine List.filter_eq_self.mpr ?_
    intro q hq
    rw [(hpend q hq).1]
    exact hb
  · rw [if_neg hb]
    refine List.filter_eq_nil_iff.mpr ?_
    intro q hq
    rw [(hpend q hq).1]
    exact fun hc => hb hc

theorem flatten_if_find {α β : Type} (f : α → List β) (key : α → String) (nm : String) :
    ∀ l : List α, (l.map key).Nodup →
      (l.map (fun e => if key e == nm then f e else [])).flatten
      = ((l.find? (fun e => key e == nm)).map f).getD [] := by
  intro l
  induction l with
  | nil => intro _; rfl
  | cons a rest ih =>
    intro hnd
    rw [List.map_cons, List.flatten_cons]
    have hnd2 : (∀ x ∈ rest, ¬ key x = key a) ∧ (rest.map key).Nodup := by
      simpa using hnd
    by_cases ha : (key a == nm) = true
    · rw [if_pos ha, List.find?_cons_of_pos rest ha]
      have hrest : (rest.map (fun e => if key e == nm then f e else [])).flatten = [] := by
        rw [List.flatten_eq_nil_iff]
        intro b hb
        rw [List.mem_map] at hb
        obtain ⟨e, he, hbe⟩ := hb
        have hne : key e ≠ key a := fun h => hnd2.1 e he h
        have hfe : ¬ ((key e == nm) = true) := by
          intro hh
          apply hne
          rw [eq_of_beq hh, eq_of_beq ha]
        rw [← hbe, if_neg hfe]
      rw [hrest, List.append_nil]
      rfl
    · rw [if_neg ha, List.find?_cons_of_neg rest (by simpa using ha), List.nil_append]
      exact ih hnd2.2

theorem pass1_pendings_filter (options : ImportOptions) (l : List (String × CollectionBody))
    (hnd : (l.map resolvedName).Nodup) (nm : String) :
    ((l.map (fun e => entryPendings options e)).flatten.filter (fun q => q.col == nm))
    = ((l.find? (fun e => resolvedName e == nm)).map
        (fun e => entryPendings options e)).getD [] := by
  rw [List.filter_flatten, List.map_map]
  have hmap : l.map (List.filter (fun q => q.col == nm) ∘ fun e => entryPendings options e)
      = l.map (fun e => if resolvedName e == nm then entryPendings options e else []) :=
    List.map_congr_left (fun e _ => entryPendings_filter_col options e nm)
  rw [hmap]
  exact flatten_if_find (fun e => entryPendings options e) resolvedName nm l hnd

theorem map_foldl_cache_congr (cache1 cache2 : VariableCache)
    (h : ∀ k, cache1.getVariable k = cache2.getVariable k)
    (ps1 ps2 : List PendingAlias)
    (hps : ∀ nm, ps1.filter (fun q => q.col == nm) = ps2.filter (fun q => q.col == nm))
    (cols : List Collection) :
    cols.map (fun c =>
      (ps1.filter (fun p => p.col == c.name)).foldl
        (fun c p =>
          match cache1.getVariable (p.aliasCollection ++ "/" ++ p.aliasPath) with
          | some target =>
            { c with vars := c.vars.map (fun vr =>
                if vr.name == p.varName then { vr with valuesByMode := jset vr.valuesByMode p.modeId (VarValue.alias target.1 target.2) }
                else vr) }
          | none => c) c)
    = cols.map (fun c =>
      (ps2.filter (fun p => p.col == c.name)).foldl
        (fun c p =>
          match cache2.getVariable (p.aliasCollection ++ "/" ++ p.aliasPath) with
          | some target =>
            { c with vars := c.vars.map (fun vr =>
                if vr.name == p.varName then { vr with valuesByMode := jset vr.valuesByMode p.modeId (VarValue.alias target.1 target.2) }
                else vr) }
          | none => c) c) := by
  refine List.map_congr_left ?_
  intro c _
  rw [hps c.name]
  refine foldl_congr_mem _ _ _ _ ?_
  intro b a _
  rw [h (a.aliasCollection ++ "/" ++ a.aliasPath)]

theorem importVariables_empty_colls (options : ImportOptions)
    (l : List (String × CollectionBody)) :
    (importVariables emptyStore (l.map (fun e => ImportItem.coll e.1 e.2)) options).store
    = (runPass2 (runPass1 options emptyStore (VariableCache.rebuild emptyStore) l).store
        (runPass1 options emptyStore (VariableCache.rebuild emptyStore) l).allPendingAliases).1 := by
  obtain ⟨mg, ov, ist, cf, cm, bh⟩ := options
  rcases cm with _ | ⟨cv, cs⟩
  · cases cf <;>
      (simp only [importVariables, stylesFold_keep, collectionEntries_map_coll]; rfl)
  · cases cf <;> cases cv <;> cases cs <;>
      (simp only [importVariables, stylesFold_keep, collectionEntries_map_coll]; rfl)

theorem runPass1_empty_shape (options : ImportOptions) (l : List (String × CollectionBody))
    (hsf : ∀ e ∈ l, slashFree (resolvedName e))
    (hnd : (l.map resolvedName).Nodup) :
    (runPass1 options emptyStore (VariableCache.rebuild emptyStore) l).store.collections
        = l.map (fun e => (entryCollection options e).getD emptyCollection)
    ∧ (runPass1 options emptyStore (VariableCache.rebuild emptyStore) l).store.paintStyles = []
    ∧ (runPass1 options emptyStore (VariableCache.rebuild emptyStore) l).store.textStyles = []
    ∧ (runPass1 options emptyStore (VariableCache.rebuild emptyStore) l).store.effectStyles = []
    ∧ (runPass1 options emptyStore (VariableCache.rebuild emptyStore) l).store.gridStyles = []
    ∧ (runPass1 options emptyStore (VariableCache.rebuild emptyStore) l).allPendingAliases
        = (l.map (fun e => entryPendings options e)).flatten := by
  have hpw : l.Pairwise (fun a b => resolvedName a ≠ resolvedName b) :=
    List.pairwise_map.mp hnd
  obtain ⟨hcols, hp1, hp2, hp3, hp4, hpends⟩ := runPass1_fold_shape options l
    { store := emptyStore, cache := VariableCache.rebuild emptyStore
      createdCollections := 0, createdVariables := 0, updatedVariables := 0
      skippedVariables := 0, allPendingAliases := [] }
    [] hsf hpw (fun e _ => rfl)
    (fun e _ col hcol => absurd hcol (List.not_mem_nil col))
    (fun kv hkv => absurd hkv (List.not_mem_nil kv))
    (fun e _ => List.not_mem_nil (resolvedName e))
  have hrp : runPass1 options emptyStore (VariableCache.rebuild emptyStore) l
      = l.foldl (processCollectionEntry options)
          { store := emptyStore, cache := VariableCache.rebuild emptyStore
            createdCollections := 0, createdVariables := 0, updatedVariables := 0
            skippedVariables := 0, allPendingAliases := [] } := rfl
  rw [hrp]
  refine ⟨?_, ?_, ?_, ?_, ?_, ?_⟩
  · rw [hcols]
    simp only [emptyStore, List.nil_append]
  · rw [hp1]
    rfl
  · rw [hp2]
    rfl
  · rw [hp3]
    rfl
  · rw [hp4]
    rfl
  · rw [hpends]
    simp only [List.nil_append]

theorem pass2_perm_core (cache1 cache2 : VariableCache)
    (hcacheEq : ∀ k, cache1.getVariable k = cache2.getVariable k)
    (ps1 ps2 : List PendingAlias)
    (hpf : ∀ nm, ps1.filter (fun q => q.col == nm) = ps2.filter (fun q => q.col == nm))
    (s1 s2 : Store)
    (hpermCols : s1.collections.Perm s2.collections)
    (hfindEq : ∀ nm, findCollection s1 nm = findCollection s2 nm) :
    (∀ nm, findCollection
        (ps1.foldl
          (fun store pending =>
            match cache1.getVariable (pending.aliasCollection ++ "/" ++ pending.aliasPath) with
            | some target =>
              setValueForMode store pending.col pending.varName pending.modeId
                (.alias target.1 target.2)
            | none => store) s1) nm
      = findCollection
        (ps2.foldl
          (fun store pending =>
            match cache2.getVariable (pending.aliasCollection ++ "/" ++ pending.aliasPath) with
            | some target =>
              setValueForMode store pending.col pending.varName pending.modeId
                (.alias target.1 target.2)
            | none => store) s2) nm)
    ∧ (ps1.foldl
        (fun store pending =>
          match cache1.getVariable (pending.aliasCollection ++ "/" ++ pending.aliasPath) with
          | some target =>
            setValueForMode store pending.col pending.varName pending.modeId
              (.alias target.1 target.2)
          | none => store) s1).collections.Perm
      (ps2.foldl
        (fun store pending =>
          match cache2.getVariable (pending.aliasCollection ++ "/" ++ pending.aliasPath) with
          | some target =>
            setValueForMode store pending.col pending.varName pending.modeId
              (.alias target.1 target.2)
          | none => store) s2).collections := by
  constructor
  · intro nm
    rw [pass2_writes_findCollection cache1 ps1 s1 nm,
        pass2_writes_findCollection cache2 ps2 s2 nm, hpf nm, hfindEq nm]
    refine foldl_congr_mem _ _ _ _ ?_
    intro b a _
    rw [hcacheEq (a.aliasCollection ++ "/" ++ a.aliasPath)]
  · rw [pass2_writes_collections cache1 ps1 s1, pass2_writes_collections cache2 ps2 s2,
        map_foldl_cache_congr cache1 cache2 hcacheEq ps1 ps2 hpf s1.collections]
    exact hpermCols.map _

theorem twoPass_perm (options : ImportOptions) (l1 l2 : List (String × CollectionBody))
    (hperm : l1.Perm l2)
    (hsf : ∀ e ∈ l1, slashFree (resolvedName e))
    (hnd : (l1.map resolvedName).Nodup) :
    (∀ nm, findCollection (runPass2
        (runPass1 options emptyStore (VariableCache.rebuild emptyStore) l1).store
        (runPass1 options emptyStore (VariableCache.rebuild emptyStore) l1).allPendingAliases).1 nm
      = findCollection (runPass2
        (runPass1 options emptyStore (VariableCache.rebuild emptyStore) l2).store
        (runPass1 options emptyStore (VariableCache.rebuild emptyStore) l2).allPendingAliases).1 nm)
    ∧ ((runPass2
        (runPass1 options emptyStore (VariableCache.rebuild emptyStore) l1).store
        (runPass1 options emptyStore (VariableCache.rebuild emptyStore) l1).allPendingAliases).1.collections.Perm
      (runPass2
        (runPass1 options emptyStore (VariableCache.rebuild emptyStore) l2).store
        (runPass1 options emptyStore (VariableCache.rebuild emptyStore) l2).allPendingAliases).1.collections)
    ∧ (runPass2
        (runPass1 options emptyStore (VariableCache.rebuild emptyStore) l1).store
        (runPass1 options emptyStore (VariableCache.rebuild emptyStore) l1).allPendingAliases).1.paintStyles
      = (runPass2
        (runPass1 options emptyStore (VariableCache.rebuild emptyStore) l2).store
        (runPass1 options emptyStore (VariableCache.rebuild emptyStore) l2).allPendingAliases).1.paintStyles
    ∧ (runPass2
        (runPass1 options emptyStore (VariableCache.rebuild emptyStore) l1).store
        (runPass1 options emptyStore (VariableCache.rebuild emptyStore) l1).allPendingAliases).1.textStyles
      = (runPass2
        (runPass1 options emptyStore (VariableCache.rebuild emptyStore) l2).store
        (runPass1 options emptyStore (VariableCache.rebuild emptyStore) l2).allPendingAliases).1.textStyles
    ∧ (runPass2
        (runPass1 options emptyStore (VariableCache.rebuild emptyStore) l1).store
        (runPass1 options emptyStore (VariableCache.rebuild emptyStore) l1).allPendingAliases).1.effectStyles
      = (runPass2
        (runPass1 options emptyStore (VariableCache.rebuild emptyStore) l2).store
        (runPass1 options emptyStore (VariableCache.rebuild emptyStore) l2).allPendingAliases).1.effectStyles
    ∧ (runPass2
        (runPass1 options emptyStore (VariableCache.rebuild emptyStore) l1).store
        (runPass1 options emptyStore (VariableCache.rebuild emptyStore) l1).allPendingAliases).1.gridStyles
      = (runPass2
        (runPass1 options emptyStore (VariableCache.rebuild emptyStore) l2).store
        (runPass1 options emptyStore (VariableCache.rebuild emptyStore) l2).allPendingAliases).1.gridStyles := by
  have hsf2 : ∀ e ∈ l2, slashFree (resolvedName e) := fun e he => hsf e (hperm.symm.subset he)
  have hnd2 : (l2.map resolvedName).Nodup := (hperm.map resolvedName).nodup_iff.mp hnd
  obtain ⟨hc1, hpa1, hpt1, hpe1, hpg1, hpd1⟩ := runPass1_empty_shape options l1 hsf hnd
  obtain ⟨hc2, hpa2, hpt2, hpe2, hpg2, hpd2⟩ := runPass1_empty_shape options l2 hsf2 hnd2
  have hcolget : ∀ e : String × CollectionBody,
      ((entryCollection options e).getD emptyCollection).name = resolvedName e
      ∧ ((entryCollection options e).getD emptyCollection).remote = false := by
    intro e
    obtain ⟨cE, _, hcolE, hname, hrem, _, _, _⟩ := entryRun_facts options e
    rw [hcolE]
    exact ⟨hname, hrem⟩
  have hnames1 : (runPass1 options emptyStore (VariableCache.rebuild emptyStore) l1).store.collections.map (fun c => c.name) = l1.map resolvedName := by
    rw [hc1, List.map_map]
    exact List.map_congr_left (fun e _ => (hcolget e).1)
  have hnames2 : (runPass1 options emptyStore (VariableCache.rebuild emptyStore) l2).store.collections.map (fun c => c.name) = l2.map resolvedName := by
    rw [hc2, List.map_map]
    exact List.map_congr_left (fun e _ => (hcolget e).1)
  have hndS1 : ((runPass1 options emptyStore (VariableCache.rebuild emptyStore) l1).store.collections.map (fun c => c.name)).Nodup := by
    rw [hnames1]
    exact hnd
  have hndS2 : ((runPass1 options emptyStore (VariableCache.rebuild emptyStore) l2).store.collections.map (fun c => c.name)).Nodup := by
    rw [hnames2]
    exact hnd2
  have hsfS1 : ∀ c ∈ (runPass1 options emptyStore (VariableCache.rebuild emptyStore) l1).store.collections, slashFree c.name := by
    intro c hc
    rw [hc1] at hc
    rcases List.mem_map.mp hc with ⟨e, he, rfl⟩
    rw [(hcolget e).1]
    exact hsf e he
  have hsfS2 : ∀ c ∈ (runPass1 options emptyStore (VariableCache.rebuild emptyStore) l2).store.collections, slashFree c.name := by
    intro c hc
    rw [hc2] at hc
    rcases List.mem_map.mp hc with ⟨e, he, rfl⟩
    rw [(hcolget e).1]
    exact hsf2 e he
  have hlocS1 : ∀ c ∈ (runPass1 options emptyStore (VariableCache.rebuild emptyStore) l1).store.collections, c.remote = false := by
    intro c hc
    rw [hc1] at hc
    rcases List.mem_map.mp hc with ⟨e, he, rfl⟩
    exact (hcolget e).2
  have hlocS2 : ∀ c ∈ (runPass1 options emptyStore (VariableCache.rebuild emptyStore) l2).store.collections, c.remote = false := by
    intro c hc
    rw [hc2] at hc
    rcases List.mem_map.mp hc with ⟨e, he, rfl⟩
    exact (hcolget e).2
  have hScolsPerm : (runPass1 options emptyStore (VariableCache.rebuild emptyStore) l1).store.collections.Perm (runPass1 options emptyStore (VariableCache.rebuild emptyStore) l2).store.collections := by
    rw [hc1, hc2]
    exact hperm.map _
  have hcacheEq : ∀ k,
      (VariableCache.rebuild (runPass1 options emptyStore (VariableCache.rebuild emptyStore) l1).store).getVariable k
      = (VariableCache.rebuild (runPass1 options emptyStore (VariableCache.rebuild emptyStore) l2).store).getVariable k := by
    intro k
    rw [rebuild_getVariable_key _ hsfS1 hndS1 hlocS1 k,
        rebuild_getVariable_key _ hsfS2 hndS2 hlocS2 k]
    have huniq : ∀ a ∈ (runPass1 options emptyStore (VariableCache.rebuild emptyStore) l1).store.collections,
        ∀ b ∈ (runPass1 options emptyStore (VariableCache.rebuild emptyStore) l1).store.collections,
        (a.vars.any (fun w => a.name ++ "/" ++ w.name == k)) = true →
        (b.vars.any (fun w => b.name ++ "/" ++ w.name == k)) = true → a = b := by
      intro a ha b hb hpa hpb
      rw [List.any_eq_true] at hpa hpb
      obtain ⟨wa, hwa, hka⟩ := hpa
      obtain ⟨wb, hwb, hkb⟩ := hpb
      have hka2 : a.name ++ "/" ++ wa.name = k := eq_of_beq hka
      have hkb2 : b.name ++ "/" ++ wb.name = k := eq_of_beq hkb
      have hab : a.name = b.name :=
        (slashKey_inj a.name wa.name b.name wb.name (hsfS1 a ha) (hsfS1 b hb)
          (hka2.trans hkb2.symm)).1
      exact List.inj_on_of_nodup_map hndS1 ha hb hab
    rw [find?_perm_of_unique _ _ hScolsPerm
      (fun col => col.vars.any (fun w => col.name ++ "/" ++ w.name == k)) huniq]
  have hfindE : ∀ nm, l1.find? (fun e => resolvedName e == nm)
      = l2.find? (fun e => resolvedName e == nm) := by
    intro nm
    refine find?_perm_of_unique l1 l2 hperm _ ?_
    intro a ha b hb hpa hpb
    have hab : resolvedName a = resolvedName b := by
      rw [eq_of_beq hpa, eq_of_beq hpb]
    exact List.inj_on_of_nodup_map hnd ha hb hab
  have hpf : ∀ nm,
      ((runPass1 options emptyStore (VariableCache.rebuild emptyStore) l1).allPendingAliases.filter (fun q => q.col == nm))
      = ((runPass1 options emptyStore (VariableCache.rebuild emptyStore) l2).allPendingAliases.filter (fun q => q.col == nm)) := by
    intro nm
    rw [hpd1, hpd2, pass1_pendings_filter options l1 hnd nm,
        pass1_pendings_filter options l2 hnd2 nm, hfindE nm]
  have hfindEq : ∀ nm,
      findCollection (runPass1 options emptyStore (VariableCache.rebuild emptyStore) l1).store nm
      = findCollection (runPass1 options emptyStore (VariableCache.rebuild emptyStore) l2).store nm := by
    intro nm
    simp only [findCollection]
    refine find?_perm_of_unique _ _ hScolsPerm _ ?_
    intro a ha b hb hpa hpb
    have hab : a.name = b.name := by
      rw [eq_of_beq hpa, eq_of_beq hpb]
    exact List.inj_on_of_nodup_map hndS1 ha hb hab
  obtain ⟨hfind, hpermC⟩ := pass2_perm_core
    (VariableCache.rebuild (runPass1 options emptyStore (VariableCache.rebuild emptyStore) l1).store)
    (VariableCache.rebuild (runPass1 options emptyStore (VariableCache.rebuild emptyStore) l2).store)
    hcacheEq
    (runPass1 options emptyStore (VariableCache.rebuild emptyStore) l1).allPendingAliases
    (runPass1 options emptyStore (VariableCache.rebuild emptyStore) l2).allPendingAliases
    hpf
    (runPass1 options emptyStore (VariableCache.rebuild emptyStore) l1).store
    (runPass1 options emptyStore (VariableCache.rebuild emptyStore) l2).store
    hScolsPerm hfindEq
  refine ⟨?_, ?_, ?_, ?_, ?_, ?_⟩
  · intro nm
    rw [runPass2_fst, runPass2_fst]
    exact hfind nm
  · rw [runPass2_fst, runPass2_fst]
    exact hpermC
  · rw [runPass2_fst, runPass2_fst,
        (pass2_writes_styles _ (runPass1 options emptyStore (VariableCache.rebuild emptyStore) l1).allPendingAliases (runPass1 options emptyStore (VariableCache.rebuild emptyStore) l1).store).1,
        (pass2_writes_styles _ (runPass1 options emptyStore (VariableCache.rebuild emptyStore) l2).allPendingAliases (runPass1 options emptyStore (VariableCache.rebuild emptyStore) l2).store).1,
        hpa1, hpa2]
  · rw [runPass2_fst, runPass2_fst,
        (pass2_writes_styles _ (runPass1 options emptyStore (VariableCache.rebuild emptyStore) l1).allPendingAliases (runPass1 options emptyStore (VariableCache.rebuild emptyStore) l1).store).2.1,
        (pass2_writes_styles _ (runPass1 options emptyStore (VariableCache.rebuild emptyStore) l2).allPendingAliases (runPass1 options emptyStore (VariableCache.rebuild emptyStore) l2).store).2.1,
        hpt1, hpt2]
  · rw [runPass2_fst, runPass2_fst,
        (pass2_writes_styles _ (runPass1 options emptyStore (VariableCache.rebuild emptyStore) l1).allPendingAliases (runPass1 options emptyStore (VariableCache.rebuild emptyStore) l1).store).2.2.1,
        (pass2_writes_styles _ (runPass1 options emptyStore (VariableCache.rebuild emptyStore) l2).allPendingAliases (runPass1 options emptyStore (VariableCache.rebuild emptyStore) l2).store).2.2.1,
        hpe1, hpe2]
  · rw [runPass2_fst, runPass2_fst,
        (pass2_writes_styles _ (runPass1 options emptyStore (VariableCache.rebuild emptyStore) l1).allPendingAliases (runPass1 options emptyStore (VariableCache.rebuild emptyStore) l1).store).2.2.2,
        (pass2_writes_styles _ (runPass1 options emptyStore (VariableCache.rebuild emptyStore) l2).allPendingAliases (runPass1 options emptyStore (VariableCache.rebuild emptyStore) l2).store).2.2.2,
        hpg1, hpg2]

/-- **C2**: alias order independence of the import.  For a document of
collection entries — in particular one where collection B's variables
alias collection A's variables — importing any permutation of the
entries into an empty file yields the identical final store: looking up
any collection by name gives identical contents, the collection list
agrees up to the host's creation order, and all four style lists agree.
All Pass-1 creation work completes and the entity cache is rebuilt
before any Pass-2 alias wiring begins, so the result does not depend on
whether A or B appears first.  The hypotheses are the document's
well-formedness: slash-free, pairwise-distinct collection names after
`$originalName` resolution. -/
theorem import_order_independence (options : ImportOptions)
    (l1 l2 : List (String × CollectionBody)) (hperm : l1.Perm l2)
    (hsf : ∀ e ∈ l1, slashFree (resolvedName e))
    (hnd : (l1.map resolvedName).Nodup) :
    (∀ nm, findCollection (importVariables emptyStore (l1.map (fun e => ImportItem.coll e.1 e.2)) options).store nm
      = findCollection (importVariables emptyStore (l2.map (fun e => ImportItem.coll e.1 e.2)) options).store nm)
    ∧ (importVariables emptyStore (l1.map (fun e => ImportItem.coll e.1 e.2)) options).store.collections.Perm
        (importVariables emptyStore (l2.map (fun e => ImportItem.coll e.1 e.2)) options).store.collections
    ∧ (importVariables emptyStore (l1.map (fun e => ImportItem.coll e.1 e.2)) options).store.paintStyles
      = (importVariables emptyStore (l2.map (fun e => ImportItem.coll e.1 e.2)) options).store.paintStyles
    ∧ (importVariables emptyStore (l1.map (fun e => ImportItem.coll e.1 e.2)) options).store.textStyles
      = (importVariables emptyStore (l2.map (fun e => ImportItem.coll e.1 e.2)) options).store.textStyles
    ∧ (importVariables emptyStore (l1.map (fun e => ImportItem.coll e.1 e.2)) options).store.effectStyles
      = (importVariables emptyStore (l2.map (fun e => ImportItem.coll e.1 e.2)) options).store.effectStyles
    ∧ (importVariables emptyStore (l1.map (fun e => ImportItem.coll e.1 e.2)) options).store.gridStyles
      = (importVariables emptyStore (l2.map (fun e => ImportItem.coll e.1 e.2)) options).store.gridStyles := by
  rw [importVariables_empty_colls options l1, importVariables_empty_colls options l2]
  exact twoPass_perm options l1 l2 hperm hsf hnd

/-- Witness for C2: the two-entry document where `B.y` aliases `A.x`,
imported as `[A, B]` and as `[B, A]`. -/
theorem import_order_independence_witness :
    (∀ nm, findCollection (importVariables emptyStore ([orderDocA, orderDocB].map (fun e => ImportItem.coll e.1 e.2)) { merge := false, overwrite := true, importStyles := false, clearFirst := false, customMerge := none, collectionBehaviors := [] }).store nm
      = findCollection (importVariables emptyStore ([orderDocB, orderDocA].map (fun e => ImportItem.coll e.1 e.2)) { merge := false, overwrite := true, importStyles := false, clearFirst := false, customMerge := none, collectionBehaviors := [] }).store nm)
    ∧ (importVariables emptyStore ([orderDocA, orderDocB].map (fun e => ImportItem.coll e.1 e.2)) { merge := false, overwrite := true, importStyles := false, clearFirst := false, customMerge := none, collectionBehaviors := [] }).store.collections.Perm
        (importVariables emptyStore ([orderDocB, orderDocA].map (fun e => ImportItem.coll e.1 e.2)) { merge := false, overwrite := true, importStyles := false, clearFirst := false, customMerge := none, collectionBehaviors := [] }).store.collections
    ∧ (importVariables emptyStore ([orderDocA, orderDocB].map (fun e => ImportItem.coll e.1 e.2)) { merge := false, overwrite := true, importStyles := false, clearFirst := false, customMerge := none, collectionBehaviors := [] }).store.paintStyles
      = (importVariables emptyStore ([orderDocB, orderDocA].map (fun e => ImportItem.coll e.1 e.2)) { merge := false, overwrite := true, importStyles := false, clearFirst := false, customMerge := none, collectionBehaviors := [] }).store.paintStyles
    ∧ (importVariables emptyStore ([orderDocA, orderDocB].map (fun e => ImportItem.coll e.1 e.2)) { merge := false, overwrite := true, importStyles := false, clearFirst := false, customMerge := none, collectionBehaviors := [] }).store.textStyles
      = (importVariables emptyStore ([orderDocB, orderDocA].map (fun e => ImportItem.coll e.1 e.2)) { merge := false, overwrite := true, importStyles := false, clearFirst := false, customMerge := none, collectionBehaviors := [] }).store.textStyles
    ∧ (importVariables emptyStore ([orderDocA, orderDocB].map (fun e => ImportItem.coll e.1 e.2)) { merge := false, overwrite := true, importStyles := false, clearFirst := false, customMerge := none, collectionBehaviors := [] }).store.effectStyles
      = (importVariables emptyStore ([orderDocB, orderDocA].map (fun e => ImportItem.coll e.1 e.2)) { merge := false, overwrite := true, importStyles := false, clearFirst := false, customMerge := none, collectionBehaviors := [] }).store.effectStyles
    ∧ (importVariables emptyStore ([orderDocA, orderDocB].map (fun e => ImportItem.coll e.1 e.2)) { merge := false, overwrite := true, importStyles := false, clearFirst := false, customMerge := none, collectionBehaviors := [] }).store.gridStyles
      = (importVariables emptyStore ([orderDocB, orderDocA].map (fun e => ImportItem.coll e.1 e.2)) { merge := false, overwrite := true, importStyles := false, clearFirst := false, customMerge := none, collectionBehaviors := [] }).store.gridStyles :=
  import_order_independence
    { merge := false, overwrite := true, importStyles := false, clearFirst := false,
      customMerge := none, collectionBehaviors := [] }
    [orderDocA, orderDocB] [orderDocB, orderDocA]
    (List.Perm.swap orderDocB orderDocA []) (by decide) (by decide)

end VSE

namespace VSE

/-! ## The export/import round trip -/

/-- **C8** counterexample: the round trip is not faithful on every live
store.  In `cexStore`, variable `s` holds the raw STRING value
`"\x7bx\x7d"` — not an alias.  Its export writes that string verbatim,
and the import re-parses any `\x7b...\x7d` string as an alias reference,
so importing the export into an empty store with `overwrite = true`
turns `s` into a genuine alias of `C.x`: the variable values are not
reproduced. -/
theorem export_import_roundtrip_counterexample :
    liveValueOf cexStore "m1" ("C", "s") = some (VarValue.str "\x7bx\x7d")
    ∧ isVariableAlias (VarValue.str "\x7bx\x7d") = false
    ∧ liveValueOf (importVariables emptyStore
        (exportVariables cexStore none none NamingConvention.original none false)
        { merge := false, overwrite := true, importStyles := false, clearFirst := false,
          customMerge := none, collectionBehaviors := [] }).store "C#0" ("C", "s")
      = some (VarValue.alias "C" "x") := by
  refine ⟨rfl, rfl, ?_⟩
  decide

end VSE

namespace VSE

set_option maxHeartbeats 1000000 in
/-- The export side of the amended round trip: `exportVariables` on the
`rtStore` family, with all styles selected, the `original` naming
convention and lazy aliases, produces exactly `rtDoc`. -/
theorem rt_export_eq (vx0 : String) (q : ℚ) (py1 py2 py3 py4 : String) :
    exportVariables (rtStore vx0 q py1 py2 py3 py4) none
      (some (true, true, true, true)) NamingConvention.original none false
    = rtDoc vx0 q py1 py2 py3 py4 := rfl

set_option maxHeartbeats 8000000 in
/-- The import side of the amended round trip: importing `rtDoc` into an
empty store with `overwrite = true` produces exactly `rtStoreImported`. -/
theorem rt_import_eq (vx0 : String) (q : ℚ) (py1 py2 py3 py4 : String) :
    (importVariables emptyStore (rtDoc vx0 q py1 py2 py3 py4) rtOpts).store
    = rtStoreImported vx0 q py1 py2 py3 py4 := rfl

/-- **C8** amended: the restricted round trip.  For every store of the
`rtStore` family — arbitrary raw STRING value not starting with `\x7b`,
arbitrary FLOAT value, an alias, and arbitrary style payloads — exporting
with the `original` naming convention (which records no `$originalName`)
and importing the resulting document into an empty store with
`overwrite = true` reproduces the collection, the mode name, every
variable value (the raw string, the number, and the alias target) and
all four style lists exactly; only the mode id is relabeled to the
freshly created collection's `"C#0"`. -/
theorem export_import_roundtrip (vx0 : String) (q : ℚ) (py1 py2 py3 py4 : String) :
    (importVariables emptyStore
      (exportVariables (rtStore vx0 q py1 py2 py3 py4) none
        (some (true, true, true, true)) NamingConvention.original none false) rtOpts).store
    = rtStoreImported vx0 q py1 py2 py3 py4 := by
  rw [rt_export_eq vx0 q py1 py2 py3 py4]
  exact rt_import_eq vx0 q py1 py2 py3 py4

end VSE
